import Mathlib

/-!
# banksim: a shallow embedding of the cash-flow simulator

The definitions below follow the Go sources (`bank.go`, `lineitem.go`,
`loans.go`, `peer2peer.go`, `core.go`, `date.go`, `output.go`) function by
function.

Conventions of the embedding.

* `USD` is Go's `int64`: an integer together with its range, every arithmetic
  operation reduces its result with `wrap64` (two's complement).
* A method with a pointer receiver that returns `error` becomes a function
  returning the new receiver state together with `Option Error`
  (`none` is Go's `nil`).
* `time.Time` values of the simulation are calendar days (midnight UTC,
  built by `time.Date(y, m, d, 0, 0, 0, 0, time.UTC)` and `AddDate` only), so a
  `Time` is a day count since 1970-01-01.
* `float64` arithmetic is idealised by exact arithmetic over `ℚ`, except for
  the products `draw * float64(n)` that are truncated to a whole number: these
  are rounded to the nearest float64 (`Float64.mul`).
* Random draws (`rand.Float64`, `prob.Beta.Random`) are explicit arguments.
* `log.Println` output is not modelled; `Bank.Handle` keeps what each
  `Process` call returned, which is what it prints.
* A handler returns the messages it dispatches to the children and the states
  it passes to `SetState`; a call that panics or does not return is `none`.
* A Go map is iterated in the order of its list of entries.
-/

namespace BankSim

/-! ## Money (`bank.go`) -/

/-- Two's-complement reduction of an integer to the `int64` range. -/
def wrap64 (x : Int) : Int :=
  (x + 9223372036854775808) % 18446744073709551616 - 9223372036854775808

/-- Go `type USD int64`: a count of cents that fits in 64 signed bits. -/
structure USD where
  val : Int
  lo : -9223372036854775808 ≤ val
  hi : val ≤ 9223372036854775807
  deriving DecidableEq

namespace USD

/-- Conversion `USD(x)` of an integer, reduced to 64 bits. -/
def ofInt (x : Int) : USD :=
  ⟨wrap64 x, by unfold wrap64; omega, by unfold wrap64; omega⟩

instance : OfNat USD n := ⟨ofInt n⟩
instance : Inhabited USD := ⟨ofInt 0⟩
instance : Add USD := ⟨fun a b => ofInt (a.val + b.val)⟩
instance : Sub USD := ⟨fun a b => ofInt (a.val - b.val)⟩
instance : Mul USD := ⟨fun a b => ofInt (a.val * b.val)⟩
instance : Neg USD := ⟨fun a => ofInt (-a.val)⟩
/-- Go's `/` on integers truncates toward zero. -/
instance : Div USD := ⟨fun a b => ofInt (Int.tdiv a.val b.val)⟩
instance : LT USD := ⟨fun a b => a.val < b.val⟩
instance : LE USD := ⟨fun a b => a.val ≤ b.val⟩
instance (a b : USD) : Decidable (a < b) := inferInstanceAs (Decidable (a.val < b.val))
instance (a b : USD) : Decidable (a ≤ b) := inferInstanceAs (Decidable (a.val ≤ b.val))

/-- Modelled from the spec: the method `USD.Float64` is called in `loans.go` but
declared in no source file; money is a count of hundredths and the loan
formulas work in whole units, so it is the amount in dollars. -/
def Float64 (u : USD) : ℚ := (u.val : ℚ) / 100

end USD

/-- Go `func Dollars(d USD) USD { return d * 100 }`. -/
def Dollars (d : USD) : USD := d * 100

/-- Truncation toward zero of a rational, Go's conversion of a `float64` to an
integer type. -/
def truncQ (x : ℚ) : Int := Int.tdiv x.num (x.den : Int)

/-- Go `math.Round`: nearest integer, halves away from zero. -/
def roundQ (x : ℚ) : Int :=
  if 0 ≤ x then Int.floor (x + 1 / 2) else -Int.floor (-x + 1 / 2)

/-! ## float64 products

The products that the program truncates to a whole number (a number of days,
an amount in cents) are rounded as float64 multiplication rounds them; a
float64 value is the rational it stands for. -/

/-- Nearest integer to a rational, ties to the even one. -/
def roundEven (q : ℚ) : Int :=
  if q - (⌊q⌋ : ℚ) < 1 / 2 then ⌊q⌋
  else if 1 / 2 < q - (⌊q⌋ : ℚ) then ⌊q⌋ + 1
  else if ⌊q⌋ % 2 = 0 then ⌊q⌋
  else ⌊q⌋ + 1

/-- Number of halvings that bring `n` below 2, at most `fuel` of them. -/
def log2Fuel : Nat → Nat → Nat
  | 0, _ => 0
  | fuel + 1, n => if n < 2 then 0 else log2Fuel fuel (n / 2) + 1

/-- The integer `⌊log₂ n⌋` of a positive natural number. -/
def natLog2 (n : Nat) : Nat := log2Fuel n n

/-- The integer `⌊log₂ x⌋` of a positive rational. -/
def floorLog2 (x : ℚ) : Int :=
  if (2 : ℚ) ^ ((natLog2 x.num.natAbs : Int) - (natLog2 x.den : Int)) ≤ x then
    (natLog2 x.num.natAbs : Int) - (natLog2 x.den : Int)
  else
    (natLog2 x.num.natAbs : Int) - (natLog2 x.den : Int) - 1

namespace Float64

/-- Exponent of the last bit of the float64 nearest to `x`: 53 significant
bits, gradual underflow below `2 ^ (-1022)`. -/
def ulpExp (x : ℚ) : Int := max (floorLog2 |x|) (-1022) - 52

/-- The float64 nearest to a rational: round to nearest, ties to even.
Overflow to an infinity is left out. -/
def round (x : ℚ) : ℚ :=
  if x = 0 then 0 else (roundEven (x / 2 ^ ulpExp x) : ℚ) * 2 ^ ulpExp x

/-- Go `a * b` on two float64 values. -/
def mul (a b : ℚ) : ℚ := round (a * b)

/-- Go `float64(n)` of an integer. -/
def ofInt (n : Int) : ℚ := round (n : ℚ)

end Float64

/-! ## Calendar days (`time.Time` restricted to dates) -/

/-- A `time.Time` of the simulation: days since 1970-01-01 (UTC midnight). -/
structure Time where
  days : Int
  deriving DecidableEq

namespace Time

/-- Civil date `(year, month, day)` of a day count (proleptic Gregorian). -/
def civil (t : Time) : Int × Int × Int :=
  let z := t.days + 719468
  let era := z / 146097
  let doe := z - era * 146097
  let yoe := (doe - doe / 1460 + doe / 36524 - doe / 146096) / 365
  let doy := doe - (365 * yoe + yoe / 4 - yoe / 100)
  let mp := (5 * doy + 2) / 153
  let d := doy - (153 * mp + 2) / 5 + 1
  let m := if mp < 10 then mp + 3 else mp - 9
  (if m ≤ 2 then yoe + era * 400 + 1 else yoe + era * 400, m, d)

/-- Result of `t.Year()`. -/
def Year (t : Time) : Int := t.civil.1
/-- Result of `t.Month()`, January = 1. -/
def Month (t : Time) : Int := t.civil.2.1
/-- Result of `t.Day()`, the day of the month. -/
def Day (t : Time) : Int := t.civil.2.2
/-- Result of `t.Weekday()`, Sunday = 0; 1970-01-01 was a Thursday. -/
def Weekday (t : Time) : Int := (t.days + 4) % 7

/-- Go `time.Date(year, month, day, 0, 0, 0, 0, time.UTC)`; the month is
normalised into 1..12 first and the day offset is then added linearly, as
Go does for out-of-range arguments. -/
def Date (year month day : Int) : Time :=
  let m0 := month - 1
  let y := year + m0 / 12
  let m := m0 % 12 + 1
  let y1 := if m ≤ 2 then y - 1 else y
  let era := y1 / 400
  let yoe := y1 - era * 400
  let mp := if m > 2 then m - 3 else m + 9
  let doy := (153 * mp + 2) / 5
  let doe := yoe * 365 + yoe / 4 - yoe / 100 + doy
  ⟨era * 146097 + doe - 719468 + (day - 1)⟩

/-- Go `t.AddDate(years, months, days)`. -/
def AddDate (t : Time) (years months days : Int) : Time :=
  Date (t.Year + years) (t.Month + months) (t.Day + days)

/-- Go `t.After(u)`. -/
def After (t u : Time) : Bool := decide (u.days < t.days)
/-- Go `t.Equal(u)`. -/
def Equal (t u : Time) : Bool := decide (t.days = u.days)

end Time

/-- Go `equalDates` of `peer2peer.go`. -/
def equalDates (d1 d2 : Time) : Bool :=
  d1.Year == d2.Year && d1.Month == d2.Month && d1.Day == d2.Day

/-! ## Transactions (`lineitem.go`) -/

/-- Go `type TransactionType string`. -/
abbrev TransactionType := String

/-- Account deposits. -/
def Deposit : TransactionType := "DEPOSIT"
/-- Account withdrawals. -/
def Withdrawal : TransactionType := "WITHDRAWAL"
/-- Payments from loans. -/
def MonthlyPayment : TransactionType := "MONTHLYPAYMENT"

/-- Go `type Transaction struct`; the field `Type` is spelled `Typ`. -/
structure Transaction where
  Date : Time
  Typ : TransactionType
  Description : String
  Amount : USD
  deriving DecidableEq

/-! ## Errors (`bank.go`, `loans.go`) -/

/-- The error values of the program. `ErrLoanPaidOff` is the anonymous
`errors.New("Loan has been paid off")` of `LoanAccount.Append`. -/
inductive Error where
  | ErrAccountDoesNotExist
  | ErrInsufficientFunds
  | ErrAccountAlreadyExists
  | ErrUnknownTransactionType
  | ErrInvalidTransfer
  | ErrLoanPaidOff
  deriving DecidableEq, Repr

open Error

/-! ## Basic accounts (`bank.go`) -/

/-- Go `type BankAccount struct`. -/
structure BankAccount where
  Name : String
  Balance : USD
  Ledger : List Transaction
  deriving DecidableEq

/-- Go `NewBankAccount`. -/
def NewBankAccount (name : String) (date : Time) (init : USD) : BankAccount :=
  { Name := name
    Balance := init
    Ledger := [{ Date := date, Description := "Initial deposit", Typ := Deposit, Amount := init }] }

namespace BankAccount

/-- Go `(*BankAccount).CurrentBalance`. -/
def CurrentBalance (a : BankAccount) : USD := a.Balance

/-- Go `(*BankAccount).Append`: the account after the call and the error. -/
def Append (a : BankAccount) (tx : Transaction) : BankAccount × Option Error :=
  if tx.Typ = Deposit then
    ({ a with Ledger := a.Ledger ++ [tx], Balance := a.Balance + tx.Amount }, none)
  else if tx.Typ = Withdrawal then
    if tx.Amount > a.Balance then
      (a, some ErrInsufficientFunds)
    else
      ({ a with Ledger := a.Ledger ++ [tx], Balance := a.Balance - tx.Amount }, none)
  else
    (a, some ErrUnknownTransactionType)

/-- Go `(*BankAccount).Validate`. -/
def Validate (a : BankAccount) (tx : Transaction) : Bool :=
  if tx.Typ = Deposit then
    true
  else if tx.Typ = Withdrawal ∧ a.Balance > tx.Amount then
    true
  else
    false

/-- Go `(*BankAccount).Update`: the empty body. -/
def Update (a : BankAccount) (_date : Time) : BankAccount := a

end BankAccount

/-! ## Loan accounts (`loans.go`)

Go's platform-sized `int` (`Periods`, `MonthsPaid`, `DayOfMonth`, loan ids) is
modelled by `Int`: these are counters and calendar numbers, never money. -/

/-- Go `type LoanAccount struct`. -/
structure LoanAccount where
  Name : String
  LoanAmount : USD
  InterestRate : ℚ
  MonthlyInterestRate : ℚ
  Periods : Int
  MonthlyPayment : USD
  RemainingBalance : USD
  PrincipalPaid : USD
  InterestPaid : USD
  MonthsPaid : Int
  Ledger : List Transaction
  deriving DecidableEq

/-- Go `NewLoan`, with `float64` taken as exact: `math.Pow` and the divisions
are not rounded, and a division by zero (`apr = 0`, `years = 0`) yields 0 here
where Go yields NaN or an infinity. -/
def NewLoan (name : String) (P : USD) (apr : ℚ) (years : Int) (payments : Int) : LoanAccount :=
  let periods := years * 12
  let r := apr / 100 / 12
  let rP := r * P.Float64
  let rN := (1 + r) ^ (-periods)
  let c := rP / (1 - rN)
  let a : LoanAccount :=
    { Name := name
      LoanAmount := P
      Periods := periods
      MonthlyPayment := USD.ofInt (roundQ (c * 100))
      MonthlyInterestRate := r
      InterestRate := apr
      InterestPaid := 0
      PrincipalPaid := 0
      MonthsPaid := 1
      RemainingBalance := USD.ofInt (roundQ (c * (periods : ℚ) * 100))
      Ledger := [] }
  if payments > 0 then
    let interest := (rP - c) * ((1 + r) ^ payments - 1) / r + c * (payments : ℚ)
    let principal := c * (payments : ℚ) - interest
    { a with
      RemainingBalance := a.RemainingBalance - USD.ofInt (a.MonthlyPayment.val * payments)
      InterestPaid := USD.ofInt (roundQ (interest * 100))
      PrincipalPaid := USD.ofInt (roundQ (principal * 100))
      MonthsPaid := a.MonthsPaid + payments }
  else
    a

namespace LoanAccount

/-- Go `(*LoanAccount).CurrentBalance`. -/
def CurrentBalance (a : LoanAccount) : USD := a.RemainingBalance

/-- Go `(*LoanAccount).Append`: the account after the call and the error. -/
def Append (a : LoanAccount) (tx : Transaction) : LoanAccount × Option Error :=
  if a.RemainingBalance ≤ 0 then
    (a, some ErrLoanPaidOff)
  else if tx.Typ = Deposit then
    let a1 : LoanAccount :=
      if a.MonthsPaid < a.Periods then
        let i := a.MonthsPaid
        let P := a.LoanAmount.Float64
        let r := a.MonthlyInterestRate
        let c := a.MonthlyPayment.Float64
        let interest := (P * r - c) * ((1 + r) ^ i - 1) / r + c * (i : ℚ)
        let principal := c * (i : ℚ) - interest
        { a with
          Ledger := a.Ledger ++ [tx]
          RemainingBalance := a.RemainingBalance - a.MonthlyPayment
          InterestPaid := USD.ofInt (roundQ (interest * 100))
          PrincipalPaid := USD.ofInt (roundQ (principal * 100)) }
      else
        { a with
          RemainingBalance := a.RemainingBalance - tx.Amount
          PrincipalPaid := a.PrincipalPaid + tx.Amount }
    ({ a1 with MonthsPaid := a1.MonthsPaid + 1 }, none)
  else
    (a, some ErrUnknownTransactionType)

/-- Go `(*LoanAccount).Validate`. -/
def Validate (a : LoanAccount) (tx : Transaction) : Bool :=
  if tx.Typ = Deposit then
    if a.MonthsPaid < a.Periods then
      true
    else if a.RemainingBalance > 0 then
      true
    else
      false
  else
    false

/-- Go `(*LoanAccount).Update`: the empty body. -/
def Update (a : LoanAccount) (_date : Time) : LoanAccount := a

end LoanAccount

/-! ## Messages (`core.go`, `date.go`, `output.go`) -/

/-- Go `type MessageType string`. -/
abbrev MessageType := String

/-- Go `MessageTypeStart`. -/
def MessageTypeStart : MessageType := "START"
/-- Go `MessageTypeStop`. -/
def MessageTypeStop : MessageType := "STOP"
/-- Go `TypeDate`. -/
def TypeDate : MessageType := "Date"
/-- Go `TypeDailyAccountInfo`. -/
def TypeDailyAccountInfo : MessageType := "DailyAccountInfo"
/-- Go `TypeMonthlyAccountInfo`. -/
def TypeMonthlyAccountInfo : MessageType := "MonthlyAccountInfo"

/-- Go `type AccountInfo struct`. -/
structure AccountInfo where
  Date : Time
  AvailableCash : USD
  AccountValue : USD
  CashFlow : USD
  Interest : USD
  deriving DecidableEq

/-- The dynamic content of `Message.Value` (`interface{}` in Go). -/
inductive MessageValue where
  | none
  | date (t : Time)
  | info (i : AccountInfo)
  deriving DecidableEq

/-- Go `type Message struct`, without the wall-clock `Timestamp`. -/
structure Message where
  Typ : MessageType
  Forward : Bool
  Value : MessageValue
  deriving DecidableEq

/-! ## Peer-to-peer investor accounts (`peer2peer.go`) -/

/-- Go `type MicroLoan struct`. -/
structure MicroLoan where
  ID : Int
  StartDate : Time
  DueDate : Time
  PayDay : Time
  InterestRate : ℚ
  MonthlyPrincipal : USD
  MonthlyInterest : USD
  OutstandingPrincipal : USD
  TotalPaid : USD
  deriving DecidableEq

/-- Go `type Peer2PeerAccount struct`; `MicroLoans` holds the loans themselves
(the Go slice holds pointers, each to a loan that no other slot shares). -/
structure Peer2PeerAccount where
  Name : String
  AccountValue : USD
  PerInvestment : USD
  AvailableCash : USD
  Deposits : USD
  Withdrawals : USD
  Invested : USD
  Interest : USD
  OutstandingPrincipal : USD
  MonthlyCashFlow : USD
  MonthlyInterest : USD
  DailyCashFlow : USD
  DailyInterest : USD
  Ledger : List Transaction
  MicroLoans : List MicroLoan
  deriving DecidableEq

/-- Go `NewPeer2PeerAccount`; the fields the literal leaves out are zero. -/
def NewPeer2PeerAccount (name : String) (date : Time) (init perInvestment : USD) :
    Peer2PeerAccount :=
  { Name := name
    AccountValue := init
    PerInvestment := perInvestment
    AvailableCash := init
    Deposits := init
    Withdrawals := 0
    Invested := 0
    Interest := 0
    OutstandingPrincipal := 0
    MonthlyCashFlow := 0
    MonthlyInterest := 0
    DailyCashFlow := 0
    DailyInterest := 0
    Ledger := [{ Date := date, Description := "Initial deposit", Typ := Deposit, Amount := init }]
    MicroLoans := [] }

namespace Peer2PeerAccount

/-- Go `(*Peer2PeerAccount).CurrentBalance`. -/
def CurrentBalance (a : Peer2PeerAccount) : USD := a.AvailableCash

/-- Go `(*Peer2PeerAccount).Append`: the account after the call and the error. -/
def Append (a : Peer2PeerAccount) (tx : Transaction) : Peer2PeerAccount × Option Error :=
  if tx.Typ = Deposit then
    ({ a with
       Ledger := a.Ledger ++ [tx]
       AccountValue := a.AccountValue + tx.Amount
       AvailableCash := a.AvailableCash + tx.Amount
       Deposits := a.Deposits + tx.Amount }, none)
  else if tx.Typ = Withdrawal then
    if tx.Amount > a.AvailableCash then
      (a, some ErrInsufficientFunds)
    else
      ({ a with
         Ledger := a.Ledger ++ [tx]
         AvailableCash := a.AvailableCash - tx.Amount
         AccountValue := a.AccountValue - tx.Amount
         Withdrawals := a.Withdrawals + tx.Amount }, none)
  else if tx.Typ = MonthlyPayment then
    ({ a with Ledger := a.Ledger ++ [tx] }, none)
  else
    (a, some ErrUnknownTransactionType)

/-- Go `(*Peer2PeerAccount).Validate`. -/
def Validate (a : Peer2PeerAccount) (tx : Transaction) : Bool :=
  if tx.Typ = Deposit then
    true
  else if tx.Typ = Withdrawal ∧ a.AvailableCash > tx.Amount then
    true
  else
    false

end Peer2PeerAccount

/-- Go `randBetaDate`; `draw` is the value of `beta.Random()`. -/
def randBetaDate (draw : ℚ) (date : Time) (max : Int) : Time :=
  let newDate :=
    (date.AddDate 0 0 1).AddDate 0 0 (truncQ (Float64.mul draw (Float64.ofInt max)))
  if newDate.Weekday = 6 then
    newDate.AddDate 0 0 2
  else if newDate.Weekday = 0 then
    newDate.AddDate 0 0 1
  else
    newDate

/-- The random draws one origination of `Update` consumes, in source order. -/
structure OriginationDraw where
  /-- Value of `rateBeta.Random()`. -/
  rate : ℚ
  /-- Value of `startDateBeta.Random()` inside `randBetaDate`. -/
  start : ℚ
  /-- Value of `payDateBeta.Random()`. -/
  payDay : ℚ

/-- The random draws one `MicroLoan.Process` call consumes on a pay day. -/
structure PaymentDraw where
  /-- Value of `rand.Float64()` compared with the charge-off chance. -/
  chargeOff : ℚ
  /-- Value of `payDateBeta.Random()` for the next pay day. -/
  payDay : ℚ

/-- The random draws of one `Update` call: `origination k` serves the loan
that receives id `k`, `payment i` the loan at position `i` of `MicroLoans`. -/
structure UpdateDraws where
  origination : Nat → OriginationDraw
  payment : Nat → PaymentDraw

namespace MicroLoan

/-- Go `(*MicroLoan).chargeOff`: loan, account and error after the call. -/
def chargeOff (m : MicroLoan) (date : Time) (acct : Peer2PeerAccount) :
    MicroLoan × Peer2PeerAccount × Option Error :=
  let r := acct.Append
    { Date := date
      Typ := MonthlyPayment
      Description := "Charge-off for loan #" ++ toString m.ID
      Amount := m.OutstandingPrincipal }
  match r.2 with
  | some err => (m, r.1, some err)
  | none =>
    let acct := r.1
    let acct : Peer2PeerAccount :=
      { acct with
        Interest := acct.Interest + m.MonthlyInterest
        AccountValue := acct.AccountValue + m.MonthlyInterest
        AvailableCash := acct.AvailableCash + (m.MonthlyInterest + m.OutstandingPrincipal)
        OutstandingPrincipal := acct.OutstandingPrincipal - m.OutstandingPrincipal
        MonthlyCashFlow := acct.MonthlyCashFlow + (m.MonthlyInterest + m.MonthlyPrincipal)
        MonthlyInterest := acct.MonthlyInterest + m.MonthlyInterest
        DailyCashFlow := acct.DailyCashFlow + (m.MonthlyInterest + m.MonthlyPrincipal)
        DailyInterest := acct.DailyInterest + m.MonthlyInterest }
    ({ m with
       TotalPaid := m.TotalPaid + (m.OutstandingPrincipal + m.MonthlyInterest)
       OutstandingPrincipal := 0 }, acct, none)

/-- Go `(*MicroLoan).Process`: loan, account and error after the call. -/
def Process (m : MicroLoan) (date : Time) (acct : Peer2PeerAccount) (rnd : PaymentDraw) :
    MicroLoan × Peer2PeerAccount × Option Error :=
  if m.OutstandingPrincipal > 0 then
    if equalDates m.PayDay date then
      if rnd.chargeOff < 5 / 1000 then
        m.chargeOff date acct
      else
        let r := acct.Append
          { Date := date
            Typ := MonthlyPayment
            Description := "Payment on loan #" ++ toString m.ID
            Amount := m.MonthlyInterest + m.MonthlyPrincipal }
        match r.2 with
        | some err => (m, r.1, some err)
        | none =>
          let acct := r.1
          let acct : Peer2PeerAccount :=
            { acct with
              Interest := acct.Interest + m.MonthlyInterest
              AccountValue := acct.AccountValue + m.MonthlyInterest
              AvailableCash := acct.AvailableCash + (m.MonthlyInterest + m.MonthlyPrincipal)
              OutstandingPrincipal := acct.OutstandingPrincipal - m.MonthlyPrincipal
              MonthlyCashFlow := acct.MonthlyCashFlow + (m.MonthlyInterest + m.MonthlyPrincipal)
              MonthlyInterest := acct.MonthlyInterest + m.MonthlyInterest
              DailyCashFlow := acct.DailyCashFlow + (m.MonthlyInterest + m.MonthlyPrincipal)
              DailyInterest := acct.DailyInterest + m.MonthlyInterest }
          ({ m with
             TotalPaid := m.TotalPaid + (m.MonthlyInterest + m.MonthlyPrincipal)
             OutstandingPrincipal := m.OutstandingPrincipal - m.MonthlyPrincipal
             DueDate := date.AddDate 0 1 0
             PayDay := date.AddDate 0 0 (truncQ (Float64.mul rnd.payDay 60)) }, acct, none)
    else
      (m, acct, none)
  else
    (m, acct, none)

end MicroLoan

namespace Peer2PeerAccount

/-- Go `(*Peer2PeerAccount).broadcastMonthly`: the account after the call and
the messages dispatched to the children of the process. -/
def broadcastMonthly (a : Peer2PeerAccount) (date : Time) : Peer2PeerAccount × List Message :=
  if date.Day = 1 then
    ({ a with MonthlyCashFlow := 0, MonthlyInterest := 0 },
     [{ Typ := TypeMonthlyAccountInfo
        Value := .info
          { Date := date
            AccountValue := a.AccountValue
            AvailableCash := a.AvailableCash
            CashFlow := a.MonthlyCashFlow
            Interest := a.MonthlyInterest }
        Forward := false }])
  else
    (a, [])

/-- Go `(*Peer2PeerAccount).broadcastDaily`. -/
def broadcastDaily (a : Peer2PeerAccount) (date : Time) : Peer2PeerAccount × List Message :=
  ({ a with DailyCashFlow := 0, DailyInterest := 0 },
   [{ Typ := TypeDailyAccountInfo
      Value := .info
        { Date := date
          AccountValue := a.AccountValue
          AvailableCash := a.AvailableCash
          CashFlow := a.DailyCashFlow
          Interest := a.DailyInterest }
      Forward := false }])

/-- One pass through the body of the origination loop of `Update`. -/
def originateOne (a : Peer2PeerAccount) (date : Time) (rnd : OriginationDraw) :
    Peer2PeerAccount :=
  let months : ℚ := 36
  let periods : Nat := 3
  let rate := 108 / 100 + rnd.rate * 12 / 100
  let totalRate := rate ^ periods
  let units : ℚ := ((a.PerInvestment / 100).val : ℚ)
  let principalPayment := units / months
  let interestPayment := (units * totalRate - units) / months
  let start := randBetaDate rnd.start date 7
  { a with
    MicroLoans := a.MicroLoans ++
      [{ ID := a.MicroLoans.length
         StartDate := start
         DueDate := start.AddDate 0 1 0
         PayDay := start.AddDate 0 0 (truncQ (Float64.mul rnd.payDay 60))
         InterestRate := totalRate
         MonthlyPrincipal := USD.ofInt (truncQ (principalPayment * 100))
         MonthlyInterest := USD.ofInt (truncQ (interestPayment * 100))
         OutstandingPrincipal := a.PerInvestment
         TotalPaid := 0 }]
    OutstandingPrincipal := a.OutstandingPrincipal + a.PerInvestment
    AvailableCash := a.AvailableCash - a.PerInvestment
    Invested := a.Invested + a.PerInvestment }

/-- The origination loop of `Update`,
`for a.AvailableCash > a.PerInvestment && dailyInvestments > 0`, by recursion
on `dailyInvestments`. -/
def originate (date : Time) (rnd : UpdateDraws) : Nat → Peer2PeerAccount → Peer2PeerAccount
  | 0, a => a
  | dailyInvestments + 1, a =>
    if a.AvailableCash > a.PerInvestment then
      originate date rnd dailyInvestments (a.originateOne date (rnd.origination a.MicroLoans.length))
    else
      a

/-- The loop `for _, loan := range a.MicroLoans` of `Update` from position
`i` on: the processed loans and the account; errors are only logged. -/
def processLoans (date : Time) (rnd : UpdateDraws) :
    Nat → List MicroLoan → Peer2PeerAccount → List MicroLoan × Peer2PeerAccount
  | _, [], acct => ([], acct)
  | i, loan :: rest, acct =>
    let r := loan.Process date acct (rnd.payment i)
    let s := processLoans date rnd (i + 1) rest r.2.1
    (r.1 :: s.1, s.2)

/-- Go `(*Peer2PeerAccount).Update`: the account after the call and the
messages dispatched to the children of the process. -/
def Update (a : Peer2PeerAccount) (date : Time) (rnd : UpdateDraws) :
    Peer2PeerAccount × List Message :=
  let m := a.broadcastMonthly date
  let d := m.1.broadcastDaily date
  let a := originate date rnd 85 d.1
  let startingValue := a.AccountValue
  let s := processLoans date rnd 0 a.MicroLoans a
  let a : Peer2PeerAccount := { s.2 with MicroLoans := s.1 }
  let a : Peer2PeerAccount :=
    if a.AccountValue - startingValue > a.PerInvestment * 4 then
      { a with PerInvestment := a.PerInvestment * 2 }
    else
      a
  (a, m.2 ++ d.2)

end Peer2PeerAccount

/-! ## The account interface (`bank.go`) -/

/-- Go `type Account interface`, closed over its three implementations. -/
inductive Account where
  | basic (a : BankAccount)
  | loan (a : LoanAccount)
  | investor (a : Peer2PeerAccount)
  deriving DecidableEq

namespace Account

/-- Dynamic dispatch of `CurrentBalance`. -/
def CurrentBalance : Account → USD
  | basic a => a.CurrentBalance
  | loan a => a.CurrentBalance
  | investor a => a.CurrentBalance

/-- Dynamic dispatch of `Validate`. -/
def Validate : Account → Transaction → Bool
  | basic a, tx => a.Validate tx
  | loan a, tx => a.Validate tx
  | investor a, tx => a.Validate tx

/-- Dynamic dispatch of `Append`. -/
def Append : Account → Transaction → Account × Option Error
  | basic a, tx => (basic (a.Append tx).1, (a.Append tx).2)
  | loan a, tx => (loan (a.Append tx).1, (a.Append tx).2)
  | investor a, tx => (investor (a.Append tx).1, (a.Append tx).2)

/-- Dynamic dispatch of `Update`, with the messages it dispatches. -/
def Update : Account → Time → UpdateDraws → Account × List Message
  | basic a, date, _ => (basic (a.Update date), [])
  | loan a, date, _ => (loan (a.Update date), [])
  | investor a, date, rnd => (investor (a.Update date rnd).1, (a.Update date rnd).2)

end Account

/-! ## Line items (`lineitem.go`, `loans.go`) -/

/-- Go `type MonthlyTransaction struct`. -/
structure MonthlyTransaction where
  Account : String
  Name : String
  Typ : TransactionType
  Amount : USD
  DayOfMonth : Int
  StartDate : Time
  EndDate : Time
  deriving DecidableEq

/-- Go `type MonthlyTransfer struct`. -/
structure MonthlyTransfer where
  From : String
  To : String
  Amount : USD
  DayOfMonth : Int
  StartDate : Time
  EndDate : Time
  deriving DecidableEq

/-- Go `type OneTimeTransaction struct`. -/
structure OneTimeTransaction where
  Account : String
  Name : String
  Typ : TransactionType
  Amount : USD
  Date : Time
  deriving DecidableEq

/-- Go `type DailyRandomTransaction struct`; `Beta` keeps the two shape
parameters of the distribution, `Percentages` the entries of the map. -/
structure DailyRandomTransaction where
  Account : String
  Name : String
  Typ : TransactionType
  BaseAmount : USD
  MaxAmount : USD
  Beta : ℚ × ℚ
  Percentages : List (Int × ℚ)
  StartDate : Time
  EndDate : Time
  deriving DecidableEq

/-- Go `type LoanPayment struct`. -/
structure LoanPayment where
  From : String
  To : String
  DayOfMonth : Int
  deriving DecidableEq

/-- Go `type LineItem interface`, closed over its five implementations. -/
inductive LineItem where
  | monthlyTransaction (m : MonthlyTransaction)
  | monthlyTransfer (m : MonthlyTransfer)
  | oneTimeTransaction (m : OneTimeTransaction)
  | dailyRandomTransaction (m : DailyRandomTransaction)
  | loanPayment (l : LoanPayment)
  deriving DecidableEq

/-! ## The bank (`bank.go`) -/

/-- A Go `map[string]Account` as its list of entries; a key occurs once. -/
abbrev AccountMap := List (String × Account)

namespace AccountMap

/-- Map read `m[name]`: the entry, or `none` when `ok` is false. -/
def get : AccountMap → String → Option Account
  | [], _ => none
  | (k, v) :: rest, name => if k = name then some v else get rest name

/-- Effect, on the map, of mutating the account that `m[name]` points to:
the entry that `get` finds holds the new state. -/
def set : AccountMap → String → Account → AccountMap
  | [], _, _ => []
  | (k, v) :: rest, name, acct =>
    if k = name then (k, acct) :: rest else (k, v) :: set rest name acct

end AccountMap

/-- Go `type Bank struct`. -/
structure Bank where
  Accounts : AccountMap
  LineItems : List LineItem
  deriving DecidableEq

namespace Bank

/-- Go `(*Bank).Append`: the bank after the call and the error. -/
def Append (b : Bank) (acct : String) (tx : Transaction) : Bank × Option Error :=
  match b.Accounts.get acct with
  | none => (b, some ErrAccountDoesNotExist)
  | some account =>
    let r := account.Append tx
    ({ b with Accounts := b.Accounts.set acct r.1 }, r.2)

/-- The description `fmt.Sprintf("Transfer from '%s' to '%s'", from, to)`. -/
def transferDescription (src dst : String) : String :=
  "Transfer from \x27" ++ src ++ "\x27 to \x27" ++ dst ++ "\x27"

/-- Go `(*Bank).Transfer`: the bank after the call and the error. The
parameters `from` and `to` are spelled `src` and `dst`. Accounts are held by
pointer: when `src = dst` the deposit acts on the account the withdrawal has
just changed. -/
def Transfer (b : Bank) (date : Time) (src dst : String) (ammt : USD) : Bank × Option Error :=
  match b.Accounts.get src with
  | none => (b, some ErrAccountDoesNotExist)
  | some fromAccount =>
    match b.Accounts.get dst with
    | none => (b, some ErrAccountDoesNotExist)
    | some toAccount =>
      if fromAccount.CurrentBalance < ammt then
        (b, some ErrInsufficientFunds)
      else
        let desc := transferDescription src dst
        let withdrawalTxn : Transaction := ⟨date, Withdrawal, desc, ammt⟩
        let despositTxn : Transaction := ⟨date, Deposit, desc, ammt⟩
        if !fromAccount.Validate withdrawalTxn || !toAccount.Validate despositTxn then
          (b, some ErrInvalidTransfer)
        else
          let w := fromAccount.Append withdrawalTxn
          let b1 : Bank := { b with Accounts := b.Accounts.set src w.1 }
          match w.2 with
          | some err => (b1, some err)
          | none =>
            let toAccount := if dst = src then w.1 else toAccount
            let d := toAccount.Append despositTxn
            ({ b1 with Accounts := b1.Accounts.set dst d.1 }, d.2)

/-- Go `(*Bank).AddLineItem`. -/
def AddLineItem (b : Bank) (li : LineItem) : Bank :=
  { b with LineItems := b.LineItems ++ [li] }

end Bank

/-! ## Processing of line items (`lineitem.go`, `loans.go`) -/

namespace MonthlyTransaction

/-- Go `(*MonthlyTransaction).Process`: the bank after the call and the error. -/
def Process (m : MonthlyTransaction) (date : Time) (bank : Bank) : Bank × Option Error :=
  if date.After m.EndDate || date.Day != m.DayOfMonth then
    (bank, none)
  else if date.After m.StartDate || date.Equal m.StartDate then
    bank.Append m.Account
      { Date := date, Typ := m.Typ, Description := m.Name, Amount := m.Amount }
  else
    (bank, none)

end MonthlyTransaction

namespace MonthlyTransfer

/-- Go `(*MonthlyTransfer).Process`: the bank after the call and the error. -/
def Process (m : MonthlyTransfer) (date : Time) (bank : Bank) : Bank × Option Error :=
  if date.After m.EndDate || date.Day != m.DayOfMonth then
    (bank, none)
  else if date.After m.StartDate || date.Equal m.StartDate then
    bank.Transfer date m.From m.To m.Amount
  else
    (bank, none)

end MonthlyTransfer

namespace LoanPayment

/-- Go `(*LoanPayment).getLoan`: the loan account registered under `To`, or
the error. -/
def getLoan (l : LoanPayment) (bank : Bank) : Except Error LoanAccount :=
  match bank.Accounts.get l.To with
  | none => .error ErrAccountDoesNotExist
  | some (.loan loan) => .ok loan
  | some _ => .error ErrInvalidTransfer

/-- Go `(*LoanPayment).Process`: the bank after the call and the error. -/
def Process (l : LoanPayment) (date : Time) (bank : Bank) : Bank × Option Error :=
  if date.Day != l.DayOfMonth then
    (bank, none)
  else
    match l.getLoan bank with
    | .error err => (bank, some err)
    | .ok loan =>
      if loan.MonthsPaid ≥ loan.Periods ∧ loan.RemainingBalance > 0 then
        bank.Transfer date l.From l.To loan.RemainingBalance
      else if loan.MonthsPaid < loan.Periods then
        bank.Transfer date l.From l.To loan.MonthlyPayment
      else
        (bank, none)

end LoanPayment

namespace OneTimeTransaction

/-- Go `(*OneTimeTransaction).Process`: the bank after the call and the error. -/
def Process (m : OneTimeTransaction) (date : Time) (bank : Bank) : Bank × Option Error :=
  if !equalDates date m.Date then
    (bank, none)
  else
    bank.Append m.Account
      { Date := date, Typ := m.Typ, Description := m.Name, Amount := m.Amount }

end OneTimeTransaction

/-- The random draws one `DailyRandomTransaction.Process` call consumes when
it gets that far. -/
structure PostingDraw where
  /-- Value of `rand.Float64()` compared with the percentage of the weekday. -/
  chance : ℚ
  /-- Value of `m.Beta.Random()`. -/
  size : ℚ

namespace DailyRandomTransaction

/-- Map read `m.Percentages[day]`: the entry, or `none` when `ok` is false. -/
def percentage : List (Int × ℚ) → Int → Option ℚ
  | [], _ => none
  | (k, v) :: rest, day => if k = day then some v else percentage rest day

/-- Go `(*DailyRandomTransaction).Process`: the bank after the call and the
error. -/
def Process (m : DailyRandomTransaction) (date : Time) (bank : Bank) (rnd : PostingDraw) :
    Bank × Option Error :=
  if date.After m.EndDate then
    (bank, none)
  else if date.After m.StartDate || date.Equal m.StartDate then
    match percentage m.Percentages date.Weekday with
    | some perc =>
      if rnd.chance < perc then
        let amount := m.BaseAmount +
          USD.ofInt (truncQ
            (Float64.mul rnd.size (Float64.ofInt (m.MaxAmount - m.BaseAmount).val)))
        bank.Append m.Account
          { Date := date, Typ := m.Typ, Description := m.Name, Amount := amount }
      else
        (bank, none)
    | none => (bank, none)
  else
    (bank, none)

end DailyRandomTransaction

/-- Dynamic dispatch of `Process`; only the daily random posting draws. -/
def LineItem.Process : LineItem → Time → Bank → PostingDraw → Bank × Option Error
  | .monthlyTransaction m, date, bank, _ => m.Process date bank
  | .monthlyTransfer m, date, bank, _ => m.Process date bank
  | .oneTimeTransaction m, date, bank, _ => m.Process date bank
  | .dailyRandomTransaction m, date, bank, rnd => m.Process date bank rnd
  | .loanPayment l, date, bank, _ => l.Process date bank

/-! ## The bank as a message handler (`bank.go`) -/

/-- The random draws of one `Handle` call on a date message: `items i` serves
the line item at position `i` of `LineItems`, `accounts name` the account
registered under `name`. -/
structure HandleDraws where
  items : Nat → PostingDraw
  accounts : String → UpdateDraws

namespace Bank

/-- The loop `for _, item := range b.LineItems` of `Handle` from position `i`
on: the bank after the loop and, call by call, what `Process` returned (every
error among them is printed by `log.Println` and otherwise dropped). -/
def processItems (date : Time) (rnd : HandleDraws) :
    Nat → List LineItem → Bank → Bank × List (Option Error)
  | _, [], b => (b, [])
  | i, item :: rest, b =>
    let r := item.Process date b (rnd.items i)
    let s := processItems date rnd (i + 1) rest r.1
    (s.1, r.2 :: s.2)

/-- The loop `for _, acct := range b.Accounts` of `Handle`: the entries after
the updates and the messages dispatched to the children of the process. Go
leaves the order of a map iteration open; the entries are visited in the order
of the list, and an `Update` acts on its own account only. -/
def updateAccounts (date : Time) (rnd : HandleDraws) : AccountMap → AccountMap × List Message
  | [] => ([], [])
  | (k, v) :: rest =>
    let r := v.Update date (rnd.accounts k)
    let s := updateAccounts date rnd rest
    ((k, r.1) :: s.1, r.2 ++ s.2)

/-- What one `Handle` call leaves behind. -/
structure Handled where
  /-- The bank after the call. -/
  bank : Bank
  /-- The messages dispatched to the children of the process, in order. -/
  dispatched : List Message
  /-- What each `Process` call returned, in the order of the calls. -/
  returned : List (Option Error)

/-- Go `(*Bank).Handle`. The result is `none` when the call panics: a `Date`
message whose value is not a `time.Time` fails the type assertion. -/
def Handle (b : Bank) (msg : Message) (rnd : HandleDraws) : Option Handled :=
  if msg.Typ = TypeDate then
    match msg.Value with
    | .date date =>
      let p := processItems date rnd 0 b.LineItems b
      let u := updateAccounts date rnd p.1.Accounts
      some { bank := { p.1 with Accounts := u.1 }, dispatched := u.2, returned := p.2 }
    | _ => none
  else
    some { bank := b, dispatched := [], returned := [] }

end Bank

/-! ## The process runtime (`core.go`)

One worker is followed on its own: the inbox, the cancellation of the context
and the children are its environment. A pass of the worker loop is given the
`select` case that fires; sends to the children are recorded, not delivered. -/

/-- Go `type State string`. -/
abbrev State := String

/-- Go `StateRunning`. -/
def StateRunning : State := "RUNNING"
/-- Go `StateWaiting`. -/
def StateWaiting : State := "WAITING"
/-- Go `StateKilled`. -/
def StateKilled : State := "KILLED"

/-- What a handler call does to the process that runs it. -/
structure Effects where
  /-- The messages passed to `proc.Children().Dispatch`, in order. -/
  dispatched : List Message
  /-- The states passed to `proc.SetState`, in order. -/
  signals : List State

/-- Go `Handler`, for a handler whose own state has type `σ`: the handler
after `Handle` and what the call does to its process, or `none` when the call
does not return. -/
abbrev Handler (σ : Type) := σ → Message → Option (σ × Effects)

/-- Go `type DefaultProcess struct` as its goroutine sees it: the handler, the
field `state` and the content of the buffered channel `stateCh`, oldest
first. -/
structure DefaultProcess (σ : Type) where
  handler : σ
  state : State
  stateCh : List State

/-- Go `NewDefaultProcess`: the process waits, the channel is empty. -/
def NewDefaultProcess {σ : Type} (h : σ) : DefaultProcess σ :=
  { handler := h, state := StateWaiting, stateCh := [] }

/-- The case of the `select` that fires in one pass of the worker loop. -/
inductive Select where
  /-- The case `<-p.ctx.Done()`. -/
  | done
  /-- The case `s := <-p.stateCh`. -/
  | stateCh
  /-- The case `msg := <-p.inbox`. -/
  | inbox (msg : Message)

/-- What one pass of the worker loop leaves behind. -/
structure Pass (σ : Type) where
  /-- The process after the pass. -/
  proc : DefaultProcess σ
  /-- Whether the pass called `p.handler.Handle`. -/
  handled : Bool
  /-- The messages sent to the children, in order. -/
  dispatched : List Message

namespace DefaultProcess

/-- Go `(*DefaultProcess).SetState` called from the goroutine of the process:
a send on the channel of capacity 2. With a full buffer the send does not
return, the only receiver being the sender: `none`. -/
def SetState {σ : Type} (p : DefaultProcess σ) (s : State) : Option (DefaultProcess σ) :=
  if p.stateCh.length < 2 then some { p with stateCh := p.stateCh ++ [s] } else none

/-- The `SetState` calls of one handler call, in order. -/
def setStates {σ : Type} : List State → DefaultProcess σ → Option (DefaultProcess σ)
  | [], p => some p
  | s :: rest, p =>
    match p.SetState s with
    | some q => setStates rest q
    | none => none

/-- One pass through the body of the loop `for p.state != StateKilled` of
`Start`, given the case of the `select` that fires. The result is `none` when
the loop has ended, when the case cannot fire, or when the pass does not
return. -/
def pass {σ : Type} (h : Handler σ) (p : DefaultProcess σ) (c : Select) : Option (Pass σ) :=
  if p.state = StateKilled then
    none
  else
    match c with
    | .done =>
      match p.SetState StateKilled with
      | some q => some { proc := q, handled := false, dispatched := [] }
      | none => none
    | .stateCh =>
      match p.stateCh with
      | [] => none
      | s :: rest =>
        some { proc := { p with state := s, stateCh := rest }, handled := false, dispatched := [] }
    | .inbox msg =>
      let p1 : DefaultProcess σ × List Message :=
        if msg.Typ = MessageTypeStart then
          ({ p with state := StateRunning }, [msg])
        else if msg.Typ = MessageTypeStop then
          ({ p with state := StateKilled }, [msg])
        else
          (p, [])
      let forward := if msg.Forward && msg.Typ != MessageTypeStart then [msg] else []
      if p1.1.state = StateRunning then
        match h p1.1.handler msg with
        | none => none
        | some r =>
          match setStates r.2.signals { p1.1 with handler := r.1 } with
          | none => none
          | some q =>
            some { proc := q, handled := true, dispatched := p1.2 ++ r.2.dispatched ++ forward }
      else
        some { proc := p1.1, handled := false, dispatched := p1.2 ++ forward }

/-- The goroutine of `Start` over the select cases that fire, in order: the
process at the end, the messages handed to the handler and the messages sent
to the children. Once the state is `KILLED` the loop is left, the `STOP`
message is sent to the children and nothing more is read. -/
def Start {σ : Type} (h : Handler σ) :
    List Select → DefaultProcess σ → Option (DefaultProcess σ × List Message × List Message)
  | [], p =>
    if p.state = StateKilled then
      some (p, [], [{ Typ := MessageTypeStop, Forward := true, Value := .none }])
    else
      some (p, [], [])
  | c :: rest, p =>
    if p.state = StateKilled then
      some (p, [], [{ Typ := MessageTypeStop, Forward := true, Value := .none }])
    else
      match p.pass h c with
      | none => none
      | some r =>
        match Start h rest r.proc with
        | none => none
        | some s =>
          let handled := match c with
            | .inbox msg => if r.handled then [msg] else []
            | _ => []
          some (s.1, handled ++ s.2.1, r.dispatched ++ s.2.2)

end DefaultProcess

/-! ## The date generator (`date.go`) -/

/-- Go `type DayGenerator struct`. -/
structure DayGenerator where
  StartDate : Time
  EndDate : Time
  deriving DecidableEq

namespace DayGenerator

/-- The loop `for !d.StartDate.After(d.EndDate)` of `Handle`, cut off after
`fuel` passes: the generator after the loop and the messages dispatched to
the children, or `none` when the loop has not ended by then. -/
def loop : Nat → DayGenerator → Option (DayGenerator × List Message)
  | 0, d => if !d.StartDate.After d.EndDate then none else some (d, [])
  | fuel + 1, d =>
    if !d.StartDate.After d.EndDate then
      match loop fuel { d with StartDate := d.StartDate.AddDate 0 0 1 } with
      | some r =>
        some (r.1, { Typ := TypeDate, Forward := false, Value := .date d.StartDate } :: r.2)
      | none => none
    else
      some (d, [])

/-- Go `(*DayGenerator).Handle`, the loop cut off after `fuel` passes: the
generator after the call and what the call does to its process. Any type other
than `START` only prints a line. -/
def Handle (fuel : Nat) (d : DayGenerator) (msg : Message) : Option (DayGenerator × Effects) :=
  if msg.Typ = MessageTypeStart then
    match loop fuel d with
    | some r => some (r.1, { dispatched := r.2, signals := [StateKilled] })
    | none => none
  else
    some (d, { dispatched := [], signals := [] })

end DayGenerator

/-! ## The report sinks (`output.go`) -/

/-- A line written to a report file: the header, or the row of an
`AccountInfo` (the text of a row is a function of the record). -/
inductive CsvLine where
  | header
  | row (info : AccountInfo)
  deriving DecidableEq

/-- Go `(*DailyOutput).Handle`: the lines the call writes to the file. The
result is `none` when the call panics: a `DailyAccountInfo` message whose
value is not an `AccountInfo` fails the type assertion. -/
def DailyOutput.Handle (msg : Message) : Option (List CsvLine) :=
  if msg.Typ = MessageTypeStart then
    some [.header]
  else if msg.Typ = TypeDailyAccountInfo then
    match msg.Value with
    | .info info => some [.row info]
    | _ => none
  else
    some []

/-- Go `(*MonthlyOutput).Handle`: the lines the call writes to the file. -/
def MonthlyOutput.Handle (msg : Message) : Option (List CsvLine) :=
  if msg.Typ = MessageTypeStart then
    some [.header]
  else if msg.Typ = TypeMonthlyAccountInfo then
    match msg.Value with
    | .info info => some [.row info]
    | _ => none
  else
    some []

/-! ## Notions the stated properties use -/

/-- Contribution of a ledger entry to the balance, as an integer:
`+Amount` for a deposit, `-Amount` for a withdrawal. -/
def signedAmount (tx : Transaction) : Int :=
  if tx.Typ = Deposit then tx.Amount.val
  else if tx.Typ = Withdrawal then -tx.Amount.val
  else 0

/-- Signed sum over a ledger in the integers, without any reduction. -/
def ledgerTotal (l : List Transaction) : Int := (l.map signedAmount).sum

/-- Signed sum over a ledger computed in `USD` arithmetic, entry by entry. -/
def ledgerSum (l : List Transaction) : USD :=
  l.foldl (fun s tx =>
    if tx.Typ = Deposit then s + tx.Amount
    else if tx.Typ = Withdrawal then s - tx.Amount
    else s) 0

/-- A sequence of `Append` calls on a basic account, errors ignored. -/
def BankAccount.appendAll (a : BankAccount) (txs : List Transaction) : BankAccount :=
  txs.foldl (fun acc tx => (acc.Append tx).1) a

/-- An operation on an investor account: an `Append` call or an `Update`
tick with the random draws the tick consumes. -/
inductive InvestorOp where
  | append (tx : Transaction)
  | update (date : Time) (rnd : UpdateDraws)

/-- Effect of one operation on an investor account. -/
def Peer2PeerAccount.step (a : Peer2PeerAccount) : InvestorOp → Peer2PeerAccount
  | .append tx => (a.Append tx).1
  | .update date rnd => (a.Update date rnd).1

/-- Effect of a sequence of operations on an investor account. -/
def Peer2PeerAccount.run (a : Peer2PeerAccount) (ops : List InvestorOp) : Peer2PeerAccount :=
  ops.foldl Peer2PeerAccount.step a

/-- The two accounting identities of an investor account, in `USD`
arithmetic. -/
structure Peer2PeerAccount.Balanced (a : Peer2PeerAccount) : Prop where
  cash : a.AvailableCash + a.OutstandingPrincipal = a.AccountValue
  value : a.AccountValue = a.Deposits - a.Withdrawals + a.Interest

/-- Balance of the account registered under `name`, when there is one. -/
def Bank.balanceOf (b : Bank) (name : String) : Option USD :=
  (b.Accounts.get name).map Account.CurrentBalance

/-- The account is a `*BankAccount`. -/
def Account.isBasic : Account → Bool
  | .basic _ => true
  | _ => false

/-- Every account of the bank is a basic account. -/
def Bank.AllBasic (b : Bank) : Prop :=
  b.Accounts.all (fun e => e.2.isBasic) = true

instance (b : Bank) : Decidable b.AllBasic :=
  inferInstanceAs (Decidable (b.Accounts.all (fun e => e.2.isBasic) = true))

/-- The bank of the transfer scenario: account `A` opened with $100 and
account `B` opened with $0. -/
def transferScenario : Bank :=
  { Accounts :=
      [("A", .basic (NewBankAccount "A" (Time.Date 2018 1 1) (Dollars 100))),
       ("B", .basic (NewBankAccount "B" (Time.Date 2018 1 1) (Dollars 0)))]
    LineItems := [] }

/-- A bank for the round trip: account `A` opened with $100 and account `B`
opened with $50. -/
def roundTripScenario : Bank :=
  { Accounts :=
      [("A", .basic (NewBankAccount "A" (Time.Date 2018 1 1) (Dollars 100))),
       ("B", .basic (NewBankAccount "B" (Time.Date 2018 1 1) (Dollars 50)))]
    LineItems := [] }

/-- A bank with a basic account holding $100 and the loan account that
`NewLoan` builds for a principal of zero (6% over 5 years, no payment made). -/
def loanScenario : Bank :=
  { Accounts :=
      [("Checking", .basic (NewBankAccount "Checking" (Time.Date 2018 1 1) (Dollars 100))),
       ("Loan", .loan (NewLoan "Loan" 0 6 5 0))]
    LineItems := [] }

/-- A sequence of `Append` calls on a loan account, errors ignored. -/
def LoanAccount.appendAll (a : LoanAccount) (txs : List Transaction) : LoanAccount :=
  txs.foldl (fun acc tx => (acc.Append tx).1) a

/-- The loan of the schedule scenario: `NewLoan` for $10,000 at 6% over 5
years with no payment made. -/
def scheduleLoan : LoanAccount := NewLoan "Loan" (Dollars 10000) 6 5 0

/-- A deposit of $193.33, the monthly payment of `scheduleLoan`. -/
def scheduleDeposit : Transaction :=
  { Date := Time.Date 2018 2 1, Typ := Deposit, Description := "Payment", Amount := 19333 }

/-- The loan that `NewLoan` builds for a principal of one cent (6% over 5
years, no payment made); its monthly payment rounds to zero. -/
def centLoan : LoanAccount := NewLoan "Loan" 1 6 5 0

/-- A deposit of $0.00. -/
def zeroDeposit : Transaction :=
  { Date := Time.Date 2018 2 1, Typ := Deposit, Description := "Payment", Amount := 0 }

/-- The loan payment of the line-item scenario: from `Checking` to `Loan` on
the first of the month. -/
def scenarioLoanPayment : LoanPayment :=
  { From := "Checking", To := "Loan", DayOfMonth := 1 }

/-- A monthly posting due on the 31st: a withdrawal of $10 from `A` during
2018. -/
def lastDayPosting : MonthlyTransaction :=
  { Account := "A", Name := "Fee", Typ := Withdrawal, Amount := Dollars 10, DayOfMonth := 31
    StartDate := Time.Date 2018 1 1, EndDate := Time.Date 2018 12 31 }

/-- Number of micro-loans that one `Update` adds to the account. -/
def Peer2PeerAccount.originated (a : Peer2PeerAccount) (date : Time) (rnd : UpdateDraws) : Nat :=
  (a.Update date rnd).1.MicroLoans.length - a.MicroLoans.length

/-- The account at the end of the origination loop of `Update`, before the
micro-loans are processed. -/
def Peer2PeerAccount.afterOrigination (a : Peer2PeerAccount) (date : Time)
    (rnd : UpdateDraws) : Peer2PeerAccount :=
  Peer2PeerAccount.originate date rnd 85 ((a.broadcastMonthly date).1.broadcastDaily date).1

/-- Draws that are all one half. -/
def halfDraws : UpdateDraws :=
  { origination := fun _ => { rate := 1 / 2, start := 1 / 2, payDay := 1 / 2 }
    payment := fun _ => { chargeOff := 1 / 2, payDay := 1 / 2 } }

/-- The investor account of the origination scenario: $100,000 in cash and
$25 per investment. -/
def originationScenario : Peer2PeerAccount :=
  NewPeer2PeerAccount "Investment" (Time.Date 2018 1 1) (Dollars 100000) (Dollars 25)

/-- The state after `n` monthly payments of a micro-loan in a row: each time the loan is
processed on its current pay day, with the same draws. -/
def MicroLoan.payOnTime (rnd : PaymentDraw) :
    Nat → MicroLoan × Peer2PeerAccount → MicroLoan × Peer2PeerAccount
  | 0, s => s
  | n + 1, s =>
    MicroLoan.payOnTime rnd n ((s.1.Process s.1.PayDay s.2 rnd).1,
      (s.1.Process s.1.PayDay s.2 rnd).2.1)

/-- The monthly payment `c`, in dollars, that `NewLoan` computes before
rounding. -/
def loanPaymentQ (P : USD) (apr : ℚ) (years : Int) : ℚ :=
  let periods := years * 12
  let r := apr / 100 / 12
  let rP := r * P.Float64
  let rN := (1 + r) ^ (-periods)
  rP / (1 - rN)

/-- The difference, in cents, between
`PrincipalPaid + InterestPaid + RemainingBalance` (summed in `USD`) and
`MonthlyPayment * Periods`. -/
def LoanAccount.scheduleGap (l : LoanAccount) : Int :=
  (l.PrincipalPaid + l.InterestPaid + l.RemainingBalance).val - l.MonthlyPayment.val * l.Periods

/-- What the schedule of a loan built by `NewLoan` keeps true: the fixed
fields, the bound on the gap, and the remaining balance as long as the loan is
within its term. -/
structure LoanAccount.OnSchedule (c : ℚ) (years : Int) (l : LoanAccount) : Prop where
  periods : l.Periods = years * 12
  payment : l.MonthlyPayment.val = roundQ (c * 100)
  gapLow : -(years * 12) ≤ l.scheduleGap
  gapHigh : l.scheduleGap ≤ years * 12
  track : l.MonthsPaid < l.Periods →
    l.RemainingBalance = USD.ofInt (roundQ (c * ((years * 12 : Int) : ℚ) * 100) -
      roundQ (c * 100) * (l.MonthsPaid - 1))

/-- The ledger of an account. -/
def Account.Ledger : Account → List Transaction
  | .basic a => a.Ledger
  | .loan a => a.Ledger
  | .investor a => a.Ledger

/-- Every entry of the ledger has an amount of at least zero. -/
def Account.NonNegative (a : Account) : Bool :=
  a.Ledger.all (fun tx => decide ((0 : USD) ≤ tx.Amount))

/-- Every ledger entry of every account of the bank has an amount of at least
zero. -/
def Bank.LedgersNonNegative (b : Bank) : Prop :=
  b.Accounts.all (fun e => e.2.NonNegative) = true

instance (b : Bank) : Decidable b.LedgersNonNegative :=
  inferInstanceAs (Decidable (b.Accounts.all (fun e => e.2.NonNegative) = true))

/-- Sum of `OutstandingPrincipal` over a list of micro-loans, in `USD`
arithmetic. -/
def loanPrincipal : List MicroLoan → USD
  | [] => 0
  | m :: rest => m.OutstandingPrincipal + loanPrincipal rest

/-- A bank with a basic account holding $1,000 and the loan of the schedule
scenario ($10,000 at 6% over 5 years, no payment made). -/
def repaymentScenario : Bank :=
  { Accounts :=
      [("Checking", .basic (NewBankAccount "Checking" (Time.Date 2018 1 1) (Dollars 1000))),
       ("Loan", .loan scheduleLoan)]
    LineItems := [] }

/-- A micro-loan as `Update` originates it for $25 (monthly principal 69
cents, monthly interest 33 cents), due for its first payment on 2018-02-01. -/
def chargeOffLoan : MicroLoan :=
  { ID := 0
    StartDate := Time.Date 2018 1 2
    DueDate := Time.Date 2018 2 2
    PayDay := Time.Date 2018 2 1
    InterestRate := 1481544 / 1000000
    MonthlyPrincipal := 69
    MonthlyInterest := 33
    OutstandingPrincipal := 2500
    TotalPaid := 0 }

/-- Draws under which a loan due today is charged off. -/
def chargeOffDraw : PaymentDraw := { chargeOff := 0, payDay := 1 / 2 }

/-- The `Date` message that carries the day `t`. -/
def dateMessage (t : Time) : Message :=
  { Typ := TypeDate, Forward := false, Value := .date t }

/-- The bank after `Process` has run on the line items `items`, the first of
them at position `i`, from left to right with every error dropped. -/
def Bank.foldItems (date : Time) (rnd : HandleDraws) (i : Nat) (items : List LineItem)
    (b : Bank) : Bank :=
  (items.enumFrom i).foldl (fun s e => (e.2.Process date s (rnd.items e.1)).1) b

/-- The bank after the first `k` line items of the bank have been processed
for a date. -/
def Bank.afterItems (b : Bank) (date : Time) (rnd : HandleDraws) (k : Nat) : Bank :=
  Bank.foldItems date rnd 0 (b.LineItems.take k) b

/-- The entries of an account map, each account updated for the date. -/
def AccountMap.updated (date : Time) (rnd : HandleDraws) (m : AccountMap) : AccountMap :=
  m.map (fun e => (e.1, (e.2.Update date (rnd.accounts e.1)).1))

/-- The messages the updates of the accounts dispatch, entry by entry. -/
def AccountMap.broadcast (date : Time) (rnd : HandleDraws) (m : AccountMap) : List Message :=
  (m.map (fun e => (e.2.Update date (rnd.accounts e.1)).2)).flatten

/-- Draws that are all one half. -/
def halfHandleDraws : HandleDraws :=
  { items := fun _ => { chance := 1 / 2, size := 1 / 2 }
    accounts := fun _ => halfDraws }

/-- A bank whose first line item fails: accounts `A` ($100) and `B` ($0), a
monthly deposit into an account `X` that does not exist, then a deposit of $10
into `A` on 2018-03-01. -/
def failingItemScenario : Bank :=
  { Accounts := transferScenario.Accounts
    LineItems :=
      [.monthlyTransaction
        { Account := "X", Name := "Lost", Typ := Deposit, Amount := Dollars 5, DayOfMonth := 1
          StartDate := Time.Date 2018 1 1, EndDate := Time.Date 2018 12 31 },
       .oneTimeTransaction
        { Account := "A", Name := "Gift", Typ := Deposit, Amount := Dollars 10
          Date := Time.Date 2018 3 1 }] }

/-- Number of calendar days from `StartDate` to `EndDate`, both included; zero
when `StartDate` is after `EndDate`. -/
def DayGenerator.span (d : DayGenerator) : Nat :=
  (d.EndDate.days - d.StartDate.days + 1).toNat

/-- The days from `StartDate` to `EndDate`, both included, in ascending
order. -/
def DayGenerator.dates (d : DayGenerator) : List Time :=
  (List.range d.span).map (fun (k : Nat) => (⟨d.StartDate.days + (k : Int)⟩ : Time))

/-- A generator for 2018-01-30 to 2018-02-02. -/
def fourDays : DayGenerator :=
  { StartDate := Time.Date 2018 1 30, EndDate := Time.Date 2018 2 2 }

/-- What holds of a worker started by `NewDefaultProcess` whose handler passes
only `KILLED` to `SetState`: the state is one of the three states and every
state waiting in `stateCh` is `KILLED`. -/
def DefaultProcess.Sound {σ : Type} (p : DefaultProcess σ) : Prop :=
  (p.state = StateWaiting ∨ p.state = StateRunning ∨ p.state = StateKilled) ∧
    ∀ s ∈ p.stateCh, s = StateKilled

/-- The `START` message of the engine. -/
def startMessage : Message := { Typ := MessageTypeStart, Forward := true, Value := .none }

/-- The `STOP` message of the engine and of a worker that leaves its loop. -/
def stopMessage : Message := { Typ := MessageTypeStop, Forward := true, Value := .none }

/-- The account is a `*Peer2PeerAccount`. -/
def Account.isInvestor : Account → Bool
  | .investor _ => true
  | _ => false

/-- Number of investor accounts among the entries of an account map. -/
def AccountMap.investors (m : AccountMap) : Nat :=
  m.countP (fun e => e.2.isInvestor)

/-- Number of messages of type `t` in a list. -/
def countType (t : MessageType) (msgs : List Message) : Nat :=
  msgs.countP (fun m => decide (m.Typ = t))

/-- The bank handler fed with the messages `msgs` one after the other, the
call at position `i` with the draws `rnd i`: the bank at the end and, call by
call, the messages dispatched; `none` when a call panics. -/
def Bank.handleAll (rnd : Nat → HandleDraws) :
    Nat → List Message → Bank → Option (Bank × List (List Message))
  | _, [], b => some (b, [])
  | i, msg :: rest, b =>
    match b.Handle msg (rnd i) with
    | none => none
    | some r =>
      match handleAll rnd (i + 1) rest r.bank with
      | none => none
      | some s => some (s.1, r.dispatched :: s.2)

/-- A simulation: the messages the date generator dispatches on `START`,
handled by the bank in the order of dispatch. The result is the bank at the
end and, day by day, the messages the bank dispatches to the report sinks. -/
def simulate (d : DayGenerator) (fuel : Nat) (b : Bank) (rnd : Nat → HandleDraws) :
    Option (Bank × List (List Message)) :=
  match d.Handle fuel startMessage with
  | none => none
  | some r => Bank.handleAll rnd 0 r.2.dispatched b

/-- A report sink fed with the messages `msgs` one after the other: the lines
written, `none` when a call panics. -/
def writeAll (sink : Message → Option (List CsvLine)) : List Message → Option (List CsvLine)
  | [] => some []
  | msg :: rest =>
    match sink msg with
    | none => none
    | some lines =>
      match writeAll sink rest with
      | none => none
      | some more => some (lines ++ more)

/-- The bank of `main.go` without its line items and with $1,000 to invest:
the basic account `Checking` and the investor account `Investment`. -/
def mainScenario : Bank :=
  { Accounts :=
      [("Checking", .basic (NewBankAccount "Checking" (Time.Date 2018 1 1) (Dollars 500))),
       ("Investment", .investor
          (NewPeer2PeerAccount "Investment" (Time.Date 2018 1 1) (Dollars 1000) (Dollars 25)))]
    LineItems := [] }

/-! ## Arithmetic of `USD` -/

theorem USD.ext {a b : USD} (h : a.val = b.val) : a = b := by
  cases a; cases b; cases h; rfl

theorem USD.val_add (a b : USD) : (a + b).val = wrap64 (a.val + b.val) := rfl
theorem USD.val_sub (a b : USD) : (a - b).val = wrap64 (a.val - b.val) := rfl
theorem USD.val_mul (a b : USD) : (a * b).val = wrap64 (a.val * b.val) := rfl
theorem USD.val_ofInt (x : Int) : (USD.ofInt x).val = wrap64 x := rfl
theorem USD.val_zero : (0 : USD).val = 0 := by decide
theorem USD.lt_iff (a b : USD) : a < b ↔ a.val < b.val := Iff.rfl
theorem USD.le_iff (a b : USD) : a ≤ b ↔ a.val ≤ b.val := Iff.rfl

theorem wrap64_of_range {x : Int} (h1 : -9223372036854775808 ≤ x)
    (h2 : x ≤ 9223372036854775807) : wrap64 x = x := by
  unfold wrap64; omega

theorem USD.ofInt_val (a : USD) : USD.ofInt a.val = a :=
  USD.ext (wrap64_of_range a.lo a.hi)

theorem wrap64_add_wrap64 (x y : Int) : wrap64 (wrap64 x + y) = wrap64 (x + y) := by
  unfold wrap64; omega

theorem wrap64_sub_wrap64 (x y : Int) : wrap64 (wrap64 x - y) = wrap64 (x - y) := by
  unfold wrap64; omega

theorem Deposit_ne_Withdrawal : Deposit ≠ Withdrawal := by decide
theorem Deposit_ne_MonthlyPayment : Deposit ≠ MonthlyPayment := by decide
theorem Withdrawal_ne_MonthlyPayment : Withdrawal ≠ MonthlyPayment := by decide

/-! ## Basic accounts: balance and ledger -/

theorem ledgerSum_append (l : List Transaction) (tx : Transaction) :
    ledgerSum (l ++ [tx]) =
      if tx.Typ = Deposit then ledgerSum l + tx.Amount
      else if tx.Typ = Withdrawal then ledgerSum l - tx.Amount
      else ledgerSum l := by
  simp [ledgerSum, List.foldl_append]

theorem ledgerTotal_append (l : List Transaction) (tx : Transaction) :
    ledgerTotal (l ++ [tx]) = ledgerTotal l + signedAmount tx := by
  simp [ledgerTotal]

/-- One `Append` keeps the balance equal to both signed sums of the ledger. -/
theorem BankAccount.Append_ledger (a : BankAccount) (tx : Transaction)
    (h : a.Balance = ledgerSum a.Ledger ∧ a.Balance = USD.ofInt (ledgerTotal a.Ledger)) :
    (a.Append tx).1.Balance = ledgerSum (a.Append tx).1.Ledger ∧
      (a.Append tx).1.Balance = USD.ofInt (ledgerTotal (a.Append tx).1.Ledger) := by
  obtain ⟨h1, h2⟩ := h
  unfold BankAccount.Append
  split
  · rename_i hd
    simp only [ledgerSum_append, ledgerTotal_append, signedAmount, hd, if_true]
    refine ⟨by rw [h1], ?_⟩
    rw [h2]; apply USD.ext
    simp only [USD.val_add, USD.val_ofInt, wrap64_add_wrap64]
  · rename_i hd
    split
    · rename_i hw
      split
      · exact ⟨h1, h2⟩
      · have hwd : ¬ Withdrawal = Deposit := Ne.symm Deposit_ne_Withdrawal
        simp only [ledgerSum_append, ledgerTotal_append, signedAmount, hw, hwd, if_true, if_false]
        refine ⟨by rw [h1], ?_⟩
        rw [h2]; apply USD.ext
        simp only [USD.val_sub, USD.val_ofInt, wrap64_sub_wrap64, Int.sub_eq_add_neg,
          wrap64_add_wrap64]
    · exact ⟨h1, h2⟩

theorem BankAccount.appendAll_ledger (txs : List Transaction) (a : BankAccount)
    (h : a.Balance = ledgerSum a.Ledger ∧ a.Balance = USD.ofInt (ledgerTotal a.Ledger)) :
    (a.appendAll txs).Balance = ledgerSum (a.appendAll txs).Ledger ∧
      (a.appendAll txs).Balance = USD.ofInt (ledgerTotal (a.appendAll txs).Ledger) := by
  induction txs generalizing a with
  | nil => exact h
  | cons tx rest ih => exact ih _ (BankAccount.Append_ledger a tx h)

theorem NewBankAccount_ledger (name : String) (date : Time) (init : USD) :
    (NewBankAccount name date init).Balance = ledgerSum (NewBankAccount name date init).Ledger ∧
      (NewBankAccount name date init).Balance =
        USD.ofInt (ledgerTotal (NewBankAccount name date init).Ledger) := by
  constructor
  · apply USD.ext
    simp only [NewBankAccount, ledgerSum, List.foldl, if_true, USD.val_add, USD.val_zero]
    have := init.lo; have := init.hi
    unfold wrap64; omega
  · simp [NewBankAccount, ledgerTotal, signedAmount, USD.ofInt_val]

/-- C1. For every basic account made by `NewBankAccount` and every finite
sequence of `Append` calls, accepted or rejected, the balance equals the signed
sum over the ledger (`+Amount` for a deposit, `-Amount` for a withdrawal): as
computed in `USD` arithmetic, as the integer sum reduced to 64 bits, and
exactly whenever the integer sum fits in 64 bits. -/
theorem C1_balance_equals_signed_ledger_sum (name : String) (date : Time) (init : USD)
    (txs : List Transaction) :
    ((NewBankAccount name date init).appendAll txs).Balance =
        ledgerSum ((NewBankAccount name date init).appendAll txs).Ledger ∧
      ((NewBankAccount name date init).appendAll txs).Balance =
        USD.ofInt (ledgerTotal ((NewBankAccount name date init).appendAll txs).Ledger) ∧
      (-9223372036854775808 ≤ ledgerTotal ((NewBankAccount name date init).appendAll txs).Ledger →
        ledgerTotal ((NewBankAccount name date init).appendAll txs).Ledger ≤ 9223372036854775807 →
        ((NewBankAccount name date init).appendAll txs).Balance.val =
          ledgerTotal ((NewBankAccount name date init).appendAll txs).Ledger) := by
  have h := BankAccount.appendAll_ledger txs _ (NewBankAccount_ledger name date init)
  refine ⟨h.1, h.2, fun h1 h2 => ?_⟩
  rw [h.2, USD.val_ofInt, wrap64_of_range h1 h2]

/-- Witness of C1: the solo deposit and withdrawal scenario, where the sum fits. -/
theorem C1_balance_equals_signed_ledger_sum_witness :
    ((NewBankAccount "Checking" ⟨17532⟩ (Dollars 500)).appendAll
        [⟨⟨17533⟩, Deposit, "pay", Dollars 100⟩, ⟨⟨17534⟩, Withdrawal, "rent", Dollars 50⟩]).Balance.val =
      ledgerTotal ((NewBankAccount "Checking" ⟨17532⟩ (Dollars 500)).appendAll
        [⟨⟨17533⟩, Deposit, "pay", Dollars 100⟩, ⟨⟨17534⟩, Withdrawal, "rent", Dollars 50⟩]).Ledger :=
  (C1_balance_equals_signed_ledger_sum "Checking" ⟨17532⟩ (Dollars 500)
    [⟨⟨17533⟩, Deposit, "pay", Dollars 100⟩, ⟨⟨17534⟩, Withdrawal, "rent", Dollars 50⟩]).2.2
    (by decide) (by decide)

/-! ## Investor accounts: the accounting identities -/

theorem Peer2PeerAccount.Append_MonthlyPayment (a : Peer2PeerAccount) (tx : Transaction)
    (h : tx.Typ = MonthlyPayment) :
    a.Append tx = ({ a with Ledger := a.Ledger ++ [tx] }, none) := by
  have h1 : ¬ MonthlyPayment = Deposit := Ne.symm Deposit_ne_MonthlyPayment
  have h2 : ¬ MonthlyPayment = Withdrawal := Ne.symm Withdrawal_ne_MonthlyPayment
  simp only [Peer2PeerAccount.Append, h, h1, h2, if_true, if_false]

theorem NewPeer2PeerAccount_balanced (name : String) (date : Time) (init per : USD) :
    (NewPeer2PeerAccount name date init per).Balanced := by
  have := init.lo; have := init.hi
  constructor
  · apply USD.ext
    simp only [NewPeer2PeerAccount, USD.val_add, USD.val_zero, wrap64]; omega
  · apply USD.ext
    simp only [NewPeer2PeerAccount, USD.val_add, USD.val_sub, USD.val_zero, wrap64]; omega

theorem Peer2PeerAccount.Append_balanced (a : Peer2PeerAccount) (tx : Transaction)
    (h : a.Balanced) : (a.Append tx).1.Balanced := by
  have hc := congrArg USD.val h.cash
  have hv := congrArg USD.val h.value
  simp only [USD.val_add, USD.val_sub, wrap64] at hc hv
  unfold Peer2PeerAccount.Append
  split
  · constructor <;> apply USD.ext <;> simp only [USD.val_add, USD.val_sub, wrap64] <;> omega
  · split
    · split
      · exact h
      · constructor <;> apply USD.ext <;> simp only [USD.val_add, USD.val_sub, wrap64] <;> omega
    · split
      · exact ⟨h.cash, h.value⟩
      · exact h

theorem Peer2PeerAccount.originateOne_balanced (a : Peer2PeerAccount) (date : Time)
    (rnd : OriginationDraw) (h : a.Balanced) : (a.originateOne date rnd).Balanced := by
  have hc := congrArg USD.val h.cash
  simp only [USD.val_add, USD.val_sub, wrap64] at hc
  constructor
  · apply USD.ext
    simp only [Peer2PeerAccount.originateOne, USD.val_add, USD.val_sub, wrap64]; omega
  · exact h.value

theorem Peer2PeerAccount.originate_balanced (date : Time) (rnd : UpdateDraws) (n : Nat)
    (a : Peer2PeerAccount) (h : a.Balanced) : (originate date rnd n a).Balanced := by
  induction n generalizing a with
  | zero => exact h
  | succ k ih =>
    unfold Peer2PeerAccount.originate
    split
    · exact ih _ (Peer2PeerAccount.originateOne_balanced a date _ h)
    · exact h

theorem MicroLoan.chargeOff_balanced (m : MicroLoan) (date : Time) (acct : Peer2PeerAccount)
    (h : acct.Balanced) : (m.chargeOff date acct).2.1.Balanced := by
  have hc := congrArg USD.val h.cash
  have hv := congrArg USD.val h.value
  simp only [USD.val_add, USD.val_sub, wrap64] at hc hv
  unfold MicroLoan.chargeOff
  rw [Peer2PeerAccount.Append_MonthlyPayment _ _ rfl]
  constructor <;> apply USD.ext <;> simp only [USD.val_add, USD.val_sub, wrap64] <;> omega

theorem MicroLoan.Process_balanced (m : MicroLoan) (date : Time) (acct : Peer2PeerAccount)
    (rnd : PaymentDraw) (h : acct.Balanced) : (m.Process date acct rnd).2.1.Balanced := by
  have hc := congrArg USD.val h.cash
  have hv := congrArg USD.val h.value
  simp only [USD.val_add, USD.val_sub, wrap64] at hc hv
  unfold MicroLoan.Process
  split
  · split
    · split
      · exact MicroLoan.chargeOff_balanced m date acct h
      · rw [Peer2PeerAccount.Append_MonthlyPayment _ _ rfl]
        constructor <;> apply USD.ext <;> simp only [USD.val_add, USD.val_sub, wrap64] <;> omega
    · exact h
  · exact h

theorem Peer2PeerAccount.processLoans_balanced (date : Time) (rnd : UpdateDraws)
    (loans : List MicroLoan) (i : Nat) (acct : Peer2PeerAccount) (h : acct.Balanced) :
    (processLoans date rnd i loans acct).2.Balanced := by
  induction loans generalizing i acct with
  | nil => exact h
  | cons loan rest ih =>
    unfold Peer2PeerAccount.processLoans
    exact ih _ _ (MicroLoan.Process_balanced loan date acct _ h)

theorem Peer2PeerAccount.Update_balanced (a : Peer2PeerAccount) (date : Time) (rnd : UpdateDraws)
    (h : a.Balanced) : (a.Update date rnd).1.Balanced := by
  have h1 : (a.broadcastMonthly date).1.Balanced := by
    unfold Peer2PeerAccount.broadcastMonthly
    split
    · exact ⟨h.cash, h.value⟩
    · exact h
  have h2 : ((a.broadcastMonthly date).1.broadcastDaily date).1.Balanced :=
    ⟨h1.cash, h1.value⟩
  have h3 := Peer2PeerAccount.originate_balanced date rnd 85 _ h2
  have h4 := Peer2PeerAccount.processLoans_balanced date rnd
    (originate date rnd 85 ((a.broadcastMonthly date).1.broadcastDaily date).1).MicroLoans 0 _ h3
  unfold Peer2PeerAccount.Update
  simp only
  split
  · exact ⟨h4.cash, h4.value⟩
  · exact ⟨h4.cash, h4.value⟩

theorem Peer2PeerAccount.run_balanced (ops : List InvestorOp) (a : Peer2PeerAccount)
    (h : a.Balanced) : (a.run ops).Balanced := by
  induction ops generalizing a with
  | nil => exact h
  | cons op rest ih =>
    refine ih _ ?_
    cases op with
    | append tx => exact Peer2PeerAccount.Append_balanced a tx h
    | update date rnd => exact Peer2PeerAccount.Update_balanced a date rnd h

/-- C2. For every investor account reached from `NewPeer2PeerAccount` by any
sequence of `Append` calls and `Update` ticks (origination, micro-loan
payments and charge-offs, whatever the random draws), after each completed
operation `AvailableCash + OutstandingPrincipal = AccountValue`, the sum
taken in `USD` arithmetic as the program computes it. -/
theorem C2_cash_plus_outstanding_is_account_value (name : String) (date : Time)
    (init perInvestment : USD) (ops : List InvestorOp) :
    ((NewPeer2PeerAccount name date init perInvestment).run ops).AvailableCash +
        ((NewPeer2PeerAccount name date init perInvestment).run ops).OutstandingPrincipal =
      ((NewPeer2PeerAccount name date init perInvestment).run ops).AccountValue :=
  (Peer2PeerAccount.run_balanced ops _
    (NewPeer2PeerAccount_balanced name date init perInvestment)).cash

/-- C3. For every investor account reached from `NewPeer2PeerAccount` by any
sequence of `Append` calls and `Update` ticks, after each completed operation
`AccountValue = Deposits - Withdrawals + Interest`, the right-hand side taken
in `USD` arithmetic as the program computes it. -/
theorem C3_account_value_is_net_deposits_plus_interest (name : String) (date : Time)
    (init perInvestment : USD) (ops : List InvestorOp) :
    ((NewPeer2PeerAccount name date init perInvestment).run ops).AccountValue =
      ((NewPeer2PeerAccount name date init perInvestment).run ops).Deposits -
        ((NewPeer2PeerAccount name date init perInvestment).run ops).Withdrawals +
        ((NewPeer2PeerAccount name date init perInvestment).run ops).Interest :=
  (Peer2PeerAccount.run_balanced ops _
    (NewPeer2PeerAccount_balanced name date init perInvestment)).value

/-! ## Account maps -/

theorem AccountMap.get_set_self (m : AccountMap) (name : String) (acct : Account)
    (h : (m.get name).isSome) : (m.set name acct).get name = some acct := by
  induction m with
  | nil => simp [AccountMap.get] at h
  | cons e rest ih =>
    obtain ⟨k, v⟩ := e
    by_cases hk : k = name
    · simp [AccountMap.set, AccountMap.get, hk]
    · simp only [AccountMap.get, hk, if_false] at h
      simp only [AccountMap.set, AccountMap.get, hk, if_false]
      exact ih h

theorem AccountMap.get_set_other (m : AccountMap) (name other : String) (acct : Account)
    (h : other ≠ name) : (m.set name acct).get other = m.get other := by
  induction m with
  | nil => rfl
  | cons e rest ih =>
    obtain ⟨k, v⟩ := e
    by_cases hk : k = name
    · have hko : ¬ k = other := fun h2 => h (h2 ▸ hk)
      simp only [AccountMap.set, AccountMap.get, hk, if_true]
      rw [← hk, if_neg hko, if_neg hko]
    · by_cases hko : k = other
      · subst hko
        simp only [AccountMap.set, AccountMap.get, h, if_true, if_false]
      · simp only [AccountMap.set, AccountMap.get, hk, hko, if_false]
        exact ih

theorem AccountMap.set_get_self (m : AccountMap) (name : String) (acct : Account)
    (h : m.get name = some acct) : m.set name acct = m := by
  induction m with
  | nil => rfl
  | cons e rest ih =>
    obtain ⟨k, v⟩ := e
    by_cases hk : k = name
    · simp only [AccountMap.get, hk, if_true, Option.some.injEq] at h
      simp only [AccountMap.set, hk, if_true, h]
    · simp only [AccountMap.get, hk, if_false] at h
      simp only [AccountMap.set, hk, if_false, ih h]

/-! ## Transfers between basic accounts -/

theorem BankAccount.Validate_withdrawal (a : BankAccount) (date : Time) (desc : String)
    (x : USD) : a.Validate ⟨date, Withdrawal, desc, x⟩ = decide (a.Balance > x) := by
  have hwd : ¬ Withdrawal = Deposit := Ne.symm Deposit_ne_Withdrawal
  by_cases h : a.Balance > x <;> simp [BankAccount.Validate, hwd, h]

theorem BankAccount.Validate_deposit (a : BankAccount) (date : Time) (desc : String)
    (x : USD) : a.Validate ⟨date, Deposit, desc, x⟩ = true := by
  simp [BankAccount.Validate]

theorem BankAccount.Append_withdrawal (a : BankAccount) (date : Time) (desc : String)
    (x : USD) :
    a.Append ⟨date, Withdrawal, desc, x⟩ =
      if x > a.Balance then (a, some ErrInsufficientFunds)
      else ({ a with Ledger := a.Ledger ++ [⟨date, Withdrawal, desc, x⟩],
                     Balance := a.Balance - x }, none) := by
  have hwd : ¬ Withdrawal = Deposit := Ne.symm Deposit_ne_Withdrawal
  simp only [BankAccount.Append, hwd, if_true, if_false]

theorem BankAccount.Append_deposit (a : BankAccount) (date : Time) (desc : String)
    (x : USD) :
    a.Append ⟨date, Deposit, desc, x⟩ =
      ({ a with Ledger := a.Ledger ++ [⟨date, Deposit, desc, x⟩],
                Balance := a.Balance + x }, none) := by
  simp only [BankAccount.Append, if_true]

/-- What `Transfer` does between two distinct basic accounts. -/
theorem Bank.Transfer_basic (b : Bank) (date : Time) (A B : String) (a0 b0 : BankAccount)
    (x : USD) (hAB : A ≠ B) (hA : b.Accounts.get A = some (.basic a0))
    (hB : b.Accounts.get B = some (.basic b0)) :
    b.Transfer date A B x =
      if a0.Balance < x then (b, some ErrInsufficientFunds)
      else if a0.Balance > x then
        ({ b with Accounts := (b.Accounts.set A (.basic
              { a0 with Ledger := a0.Ledger ++ [⟨date, Withdrawal, Bank.transferDescription A B, x⟩],
                        Balance := a0.Balance - x })).set B (.basic
              { b0 with Ledger := b0.Ledger ++ [⟨date, Deposit, Bank.transferDescription A B, x⟩],
                        Balance := b0.Balance + x }) }, none)
      else (b, some ErrInvalidTransfer) := by
  have hBA : ¬ B = A := fun h => hAB h.symm
  unfold Bank.Transfer
  simp only [hA, hB, Account.CurrentBalance, BankAccount.CurrentBalance, Account.Validate,
    Account.Append, BankAccount.Validate_withdrawal, BankAccount.Validate_deposit,
    BankAccount.Append_withdrawal, BankAccount.Append_deposit, hBA, if_false]
  by_cases h1 : a0.Balance < x
  · simp only [h1, if_true]
  · by_cases h2 : a0.Balance > x
    · have h3 : ¬ x > a0.Balance := fun h => h1 h
      simp [h1, h2, h3]
    · simp [h1, h2]

/-- What `Transfer` does from a basic account to itself. -/
theorem Bank.Transfer_basic_self (b : Bank) (date : Time) (A : String) (a0 : BankAccount)
    (x : USD) (hA : b.Accounts.get A = some (.basic a0)) :
    b.Transfer date A A x =
      if a0.Balance < x then (b, some ErrInsufficientFunds)
      else if a0.Balance > x then
        ({ b with Accounts := (b.Accounts.set A (.basic
              { a0 with Ledger := a0.Ledger ++ [⟨date, Withdrawal, Bank.transferDescription A A, x⟩],
                        Balance := a0.Balance - x })).set A (.basic
              { a0 with Ledger := a0.Ledger ++ [⟨date, Withdrawal, Bank.transferDescription A A, x⟩]
                          ++ [⟨date, Deposit, Bank.transferDescription A A, x⟩],
                        Balance := a0.Balance - x + x }) }, none)
      else (b, some ErrInvalidTransfer) := by
  unfold Bank.Transfer
  simp only [hA, Account.CurrentBalance, BankAccount.CurrentBalance, Account.Validate,
    Account.Append, BankAccount.Validate_withdrawal, BankAccount.Validate_deposit,
    BankAccount.Append_withdrawal, BankAccount.Append_deposit, if_true]
  by_cases h1 : a0.Balance < x
  · simp only [h1, if_true]
  · by_cases h2 : a0.Balance > x
    · have h3 : ¬ x > a0.Balance := fun h => h1 h
      simp [h1, h2, h3]
    · simp [h1, h2]

theorem Bank.AllBasic_get (b : Bank) (h : b.AllBasic) (name : String) (acct : Account)
    (hg : b.Accounts.get name = some acct) : ∃ a, acct = Account.basic a := by
  unfold Bank.AllBasic at h
  generalize b.Accounts = m at h hg
  induction m with
  | nil => simp [AccountMap.get] at hg
  | cons e rest ih =>
    obtain ⟨k, v⟩ := e
    simp only [List.all_cons, Bool.and_eq_true] at h
    by_cases hk : k = name
    · simp only [AccountMap.get, hk, if_true, Option.some.injEq] at hg
      subst hg
      cases v with
      | basic a => exact ⟨a, rfl⟩
      | loan a => simp [Account.isBasic] at h
      | investor a => simp [Account.isBasic] at h
    · simp only [AccountMap.get, hk, if_false] at hg
      exact ih h.2 hg

/-- C4. In a bank holding two distinct basic accounts `A` and `B`, for every
amount `x` with `0 ≤ x < balance(A)`, `Transfer(date, A, B, x)` returns no
error; afterwards `A` has balance `balance(A) - x` (exactly) and one more
ledger entry, a withdrawal, `B` has balance `balance(B) + x` (in `USD`
arithmetic, exactly whenever the sum fits in 64 bits) and one more ledger
entry, a deposit, both entries carrying the same description, date and amount
`x`; the sum of the two balances is unchanged and every other account and the
line items are untouched. -/
theorem C4_transfer_moves_amount (b : Bank) (date : Time) (A B : String)
    (a0 b0 : BankAccount) (x : USD) (hAB : A ≠ B)
    (hA : b.Accounts.get A = some (.basic a0)) (hB : b.Accounts.get B = some (.basic b0))
    (hx0 : 0 ≤ x) (hx : x < a0.Balance) :
    (b.Transfer date A B x).2 = none ∧
      (b.Transfer date A B x).1.Accounts.get A = some (.basic
        { Name := a0.Name
          Balance := a0.Balance - x
          Ledger := a0.Ledger ++ [⟨date, Withdrawal, Bank.transferDescription A B, x⟩] }) ∧
      (b.Transfer date A B x).1.Accounts.get B = some (.basic
        { Name := b0.Name
          Balance := b0.Balance + x
          Ledger := b0.Ledger ++ [⟨date, Deposit, Bank.transferDescription A B, x⟩] }) ∧
      (a0.Balance - x).val = a0.Balance.val - x.val ∧
      (b0.Balance.val + x.val ≤ 9223372036854775807 →
        (b0.Balance + x).val = b0.Balance.val + x.val) ∧
      (a0.Balance - x) + (b0.Balance + x) = a0.Balance + b0.Balance ∧
      (∀ n, n ≠ A → n ≠ B → (b.Transfer date A B x).1.Accounts.get n = b.Accounts.get n) ∧
      (b.Transfer date A B x).1.LineItems = b.LineItems := by
  have h1 : ¬ a0.Balance < x := by
    rw [USD.lt_iff] at hx ⊢; omega
  have h2 : a0.Balance > x := hx
  have hx0v : (0 : Int) ≤ x.val := by
    have := (USD.le_iff 0 x).mp hx0
    rwa [USD.val_zero] at this
  have hxv := (USD.lt_iff _ _).mp hx
  have ha1 := a0.Balance.lo
  have ha2 := a0.Balance.hi
  have hb1 := b0.Balance.lo
  have hb2 := b0.Balance.hi
  have hx2 := x.hi
  rw [Bank.Transfer_basic b date A B a0 b0 x hAB hA hB, if_neg h1, if_pos h2]
  refine ⟨rfl, ?_, ?_, ?_, ?_, ?_, ?_, rfl⟩
  · rw [AccountMap.get_set_other _ _ _ _ hAB]
    exact AccountMap.get_set_self _ _ _ (by rw [hA]; rfl)
  · apply AccountMap.get_set_self
    rw [AccountMap.get_set_other _ _ _ _ (Ne.symm hAB), hB]; rfl
  · simp only [USD.val_sub, wrap64]; omega
  · intro h
    simp only [USD.val_add, wrap64]; omega
  · apply USD.ext
    simp only [USD.val_add, USD.val_sub, wrap64]; omega
  · intro n hnA hnB
    rw [AccountMap.get_set_other _ _ _ _ hnB, AccountMap.get_set_other _ _ _ _ hnA]

/-- Witness of C4: with `A` at $100 and `B` at $0, transferring $99 succeeds
and leaves `A` at $1 and `B` at $99. -/
theorem C4_transfer_moves_amount_witness :
    (transferScenario.Transfer (Time.Date 2018 1 2) "A" "B" (Dollars 99)).2 = none ∧
      (transferScenario.Transfer (Time.Date 2018 1 2) "A" "B" (Dollars 99)).1.balanceOf "A" =
        some (Dollars 1) ∧
      (transferScenario.Transfer (Time.Date 2018 1 2) "A" "B" (Dollars 99)).1.balanceOf "B" =
        some (Dollars 99) :=
  have h := C4_transfer_moves_amount transferScenario (Time.Date 2018 1 2) "A" "B"
    (NewBankAccount "A" (Time.Date 2018 1 1) (Dollars 100))
    (NewBankAccount "B" (Time.Date 2018 1 1) (Dollars 0)) (Dollars 99)
    (by decide) (by decide) (by decide) (by decide) (by decide)
  ⟨h.1, by rw [Bank.balanceOf, h.2.1]; decide, by rw [Bank.balanceOf, h.2.2.1]; decide⟩

/-- C5. In a bank of basic accounts, `Transfer(date, from, to, x)` returns
`ErrAccountDoesNotExist` when `from` or `to` names no account,
`ErrInsufficientFunds` when both exist and `balance(from) < x`,
`ErrInvalidTransfer` when both exist and `balance(from) = x`; and whenever it
returns an error the bank (every account, with its balance and ledger) is
exactly as before the call. -/
theorem C5_transfer_errors (b : Bank) (date : Time) (src dst : String) (x : USD)
    (hb : b.AllBasic) :
    ((b.Accounts.get src = none ∨ b.Accounts.get dst = none) →
        (b.Transfer date src dst x).2 = some ErrAccountDoesNotExist) ∧
      (∀ a0 d0, b.Accounts.get src = some (.basic a0) → b.Accounts.get dst = some d0 →
        a0.Balance < x → (b.Transfer date src dst x).2 = some ErrInsufficientFunds) ∧
      (∀ a0 d0, b.Accounts.get src = some (.basic a0) → b.Accounts.get dst = some d0 →
        a0.Balance = x → (b.Transfer date src dst x).2 = some ErrInvalidTransfer) ∧
      (∀ e, (b.Transfer date src dst x).2 = some e → (b.Transfer date src dst x).1 = b) := by
  have key : ∀ a0 d0, b.Accounts.get src = some (.basic a0) →
      b.Accounts.get dst = some (.basic d0) →
      (a0.Balance < x → b.Transfer date src dst x = (b, some ErrInsufficientFunds)) ∧
      (a0.Balance = x → b.Transfer date src dst x = (b, some ErrInvalidTransfer)) ∧
      (a0.Balance > x → (b.Transfer date src dst x).2 = none) := by
    intro a0 d0 hA hB
    have hform : b.Transfer date src dst x =
        if a0.Balance < x then (b, some ErrInsufficientFunds)
        else if a0.Balance > x then ((b.Transfer date src dst x).1, none)
        else (b, some ErrInvalidTransfer) := by
      by_cases hsd : src = dst
      · subst hsd
        rw [Bank.Transfer_basic_self b date src a0 x hA]
        split
        · rfl
        · split <;> rfl
      · rw [Bank.Transfer_basic b date src dst a0 d0 x hsd hA hB]
        split
        · rfl
        · split <;> rfl
    refine ⟨fun h => ?_, fun h => ?_, fun h => ?_⟩
    · rw [hform, if_pos h]
    · have h1 : ¬ a0.Balance < x := by rw [USD.lt_iff, h]; omega
      have h2 : ¬ a0.Balance > x := by
        show ¬ x < a0.Balance
        rw [USD.lt_iff, h]; omega
      rw [hform, if_neg h1, if_neg h2]
    · have h1 : ¬ a0.Balance < x := by
        have := (USD.lt_iff _ _).mp h
        rw [USD.lt_iff]; omega
      rw [hform, if_neg h1, if_pos h]
  refine ⟨?_, ?_, ?_, ?_⟩
  · intro h
    unfold Bank.Transfer
    rcases h with h | h
    · simp only [h]
    · cases hs : b.Accounts.get src with
      | none => rfl
      | some fa => simp only [h]
  · intro a0 d0 hA hB hlt
    obtain ⟨d1, rfl⟩ := Bank.AllBasic_get b hb dst d0 hB
    rw [(key a0 d1 hA hB).1 hlt]
  · intro a0 d0 hA hB heq
    obtain ⟨d1, rfl⟩ := Bank.AllBasic_get b hb dst d0 hB
    rw [(key a0 d1 hA hB).2.1 heq]
  · intro e he
    cases hs : b.Accounts.get src with
    | none =>
      unfold Bank.Transfer; simp only [hs]
    | some fa =>
      cases hd : b.Accounts.get dst with
      | none => unfold Bank.Transfer; simp only [hs, hd]
      | some ta =>
        obtain ⟨a0, rfl⟩ := Bank.AllBasic_get b hb src fa hs
        obtain ⟨d0, rfl⟩ := Bank.AllBasic_get b hb dst ta hd
        have k := key a0 d0 hs hd
        by_cases h1 : a0.Balance < x
        · rw [k.1 h1]
        · by_cases h2 : a0.Balance > x
          · rw [k.2.2 h2] at he; cases he
          · have h3 : a0.Balance = x := by
              apply USD.ext
              rw [USD.lt_iff] at h1
              have : ¬ x.val < a0.Balance.val := h2
              omega
            rw [k.2.1 h3]

/-- Witness of C5: with `A` at $100 and `B` at $0, transferring $100 is
rejected with `ErrInvalidTransfer` and the bank is unchanged. -/
theorem C5_transfer_errors_witness :
    (transferScenario.Transfer (Time.Date 2018 1 2) "A" "B" (Dollars 100)).2 =
        some ErrInvalidTransfer ∧
      (transferScenario.Transfer (Time.Date 2018 1 2) "A" "B" (Dollars 100)).1 =
        transferScenario :=
  have h := C5_transfer_errors transferScenario (Time.Date 2018 1 2) "A" "B" (Dollars 100)
    (by decide)
  have h1 := h.2.2.1 (NewBankAccount "A" (Time.Date 2018 1 1) (Dollars 100))
    (.basic (NewBankAccount "B" (Time.Date 2018 1 1) (Dollars 0))) (by decide) (by decide)
    (by decide)
  ⟨h1, h.2.2.2 _ h1⟩

theorem Bank.Transfer_basic_success (b : Bank) (date : Time) (A B : String)
    (a0 b0 : BankAccount) (x : USD) (hAB : A ≠ B)
    (hA : b.Accounts.get A = some (.basic a0)) (hB : b.Accounts.get B = some (.basic b0))
    (h : (b.Transfer date A B x).2 = none) :
    (b.Transfer date A B x).1.Accounts.get A = some (.basic
        { Name := a0.Name
          Balance := a0.Balance - x
          Ledger := a0.Ledger ++ [⟨date, Withdrawal, Bank.transferDescription A B, x⟩] }) ∧
      (b.Transfer date A B x).1.Accounts.get B = some (.basic
        { Name := b0.Name
          Balance := b0.Balance + x
          Ledger := b0.Ledger ++ [⟨date, Deposit, Bank.transferDescription A B, x⟩] }) ∧
      (∀ n, n ≠ A → n ≠ B → (b.Transfer date A B x).1.Accounts.get n = b.Accounts.get n) := by
  rw [Bank.Transfer_basic b date A B a0 b0 x hAB hA hB] at h ⊢
  by_cases h1 : a0.Balance < x
  · rw [if_pos h1] at h; cases h
  · by_cases h2 : a0.Balance > x
    · rw [if_neg h1, if_pos h2]
      refine ⟨?_, ?_, ?_⟩
      · rw [AccountMap.get_set_other _ _ _ _ hAB]
        exact AccountMap.get_set_self _ _ _ (by rw [hA]; rfl)
      · apply AccountMap.get_set_self
        rw [AccountMap.get_set_other _ _ _ _ (Ne.symm hAB), hB]; rfl
      · intro n hnA hnB
        rw [AccountMap.get_set_other _ _ _ _ hnB, AccountMap.get_set_other _ _ _ _ hnA]
    · rw [if_neg h1, if_neg h2] at h; cases h

/-- C8. In a bank with two distinct basic accounts `A` and `B`, for every
amount `x`: if `Transfer(A, B, x)` succeeds and the following
`Transfer(B, A, x)` succeeds too, then the balance of every account (`A`, `B`
and all others) equals its value before the first transfer. -/
theorem C8_transfer_round_trip (b : Bank) (date1 date2 : Time) (A B : String)
    (a0 b0 : BankAccount) (x : USD) (hAB : A ≠ B)
    (hA : b.Accounts.get A = some (.basic a0)) (hB : b.Accounts.get B = some (.basic b0))
    (h1 : (b.Transfer date1 A B x).2 = none)
    (h2 : ((b.Transfer date1 A B x).1.Transfer date2 B A x).2 = none) (n : String) :
    ((b.Transfer date1 A B x).1.Transfer date2 B A x).1.balanceOf n = b.balanceOf n := by
  obtain ⟨fA, fB, fO⟩ := Bank.Transfer_basic_success b date1 A B a0 b0 x hAB hA hB h1
  obtain ⟨gB, gA, gO⟩ := Bank.Transfer_basic_success _ date2 B A _ _ x (Ne.symm hAB) fB fA h2
  have ha1 := a0.Balance.lo
  have ha2 := a0.Balance.hi
  have hb1 := b0.Balance.lo
  have hb2 := b0.Balance.hi
  unfold Bank.balanceOf
  by_cases hnA : n = A
  · subst hnA
    rw [gA, hA]
    simp only [Option.map_some', Account.CurrentBalance, BankAccount.CurrentBalance,
      Option.some.injEq]
    apply USD.ext
    simp only [USD.val_add, USD.val_sub, wrap64]; omega
  · by_cases hnB : n = B
    · subst hnB
      rw [gB, hB]
      simp only [Option.map_some', Account.CurrentBalance, BankAccount.CurrentBalance,
        Option.some.injEq]
      apply USD.ext
      simp only [USD.val_add, USD.val_sub, wrap64]; omega
    · rw [gO n hnB hnA, fO n hnA hnB]

/-- Witness of C8: $40 from `A` ($100) to `B` ($50) and back. -/
theorem C8_transfer_round_trip_witness :
    ((roundTripScenario.Transfer (Time.Date 2018 1 2) "A" "B" (Dollars 40)).1.Transfer
        (Time.Date 2018 1 3) "B" "A" (Dollars 40)).1.balanceOf "A" =
      roundTripScenario.balanceOf "A" :=
  C8_transfer_round_trip roundTripScenario (Time.Date 2018 1 2) (Time.Date 2018 1 3) "A" "B"
    (NewBankAccount "A" (Time.Date 2018 1 1) (Dollars 100))
    (NewBankAccount "B" (Time.Date 2018 1 1) (Dollars 50)) (Dollars 40)
    (by decide) (by decide) (by decide) (by decide) (by decide) "A"

/-! ## Withdrawals and validation on a basic account -/

/-- C9. For every basic account and every withdrawal of a non-negative
amount, `Append` returns `ErrInsufficientFunds` exactly when the amount
exceeds the balance; a rejected call leaves the account as it was; an accepted
call (which includes the amount equal to the balance) makes the transaction
the last ledger entry after the untouched earlier ones, and the new balance is
the old balance minus the amount, exactly, and is not negative. -/
theorem C9_withdrawal_append (a : BankAccount) (tx : Transaction)
    (hw : tx.Typ = Withdrawal) (h0 : 0 ≤ tx.Amount) :
    ((a.Append tx).2 = some ErrInsufficientFunds ↔ tx.Amount > a.Balance) ∧
      ((a.Append tx).2 = none ↔ tx.Amount ≤ a.Balance) ∧
      (∀ e, (a.Append tx).2 = some e → (a.Append tx).1 = a) ∧
      ((a.Append tx).2 = none →
        (a.Append tx).1.Ledger = a.Ledger ++ [tx] ∧
        (a.Append tx).1.Name = a.Name ∧
        (a.Append tx).1.Balance = a.Balance - tx.Amount ∧
        (a.Append tx).1.Balance.val = a.Balance.val - tx.Amount.val ∧
        0 ≤ (a.Append tx).1.Balance) := by
  have hwd : ¬ Withdrawal = Deposit := Ne.symm Deposit_ne_Withdrawal
  have h0v : (0 : Int) ≤ tx.Amount.val := by
    have := (USD.le_iff 0 tx.Amount).mp h0
    rwa [USD.val_zero] at this
  have ha2 := a.Balance.hi
  by_cases hgt : tx.Amount > a.Balance
  · have hle : ¬ tx.Amount ≤ a.Balance := by
      have : a.Balance.val < tx.Amount.val := hgt
      rw [USD.le_iff]; omega
    have happ : a.Append tx = (a, some ErrInsufficientFunds) := by
      simp only [BankAccount.Append, hw, hwd, hgt, if_true, if_false]
    rw [happ]
    refine ⟨⟨fun _ => hgt, fun _ => rfl⟩, ⟨fun h => (by cases h), fun h => absurd h hle⟩,
      fun _ _ => rfl, fun h => (by cases h)⟩
  · have hle : tx.Amount ≤ a.Balance := by
      have : ¬ a.Balance.val < tx.Amount.val := hgt
      rw [USD.le_iff]; omega
    have hlev := (USD.le_iff _ _).mp hle
    have happ : a.Append tx =
        ({ a with Ledger := a.Ledger ++ [tx], Balance := a.Balance - tx.Amount }, none) := by
      simp only [BankAccount.Append, hw, hwd, hgt, if_true, if_false]
    rw [happ]
    refine ⟨⟨fun h => (by cases h), fun h => absurd h hgt⟩, ⟨fun _ => hle, fun _ => rfl⟩,
      fun e h => (by cases h), fun _ => ⟨rfl, rfl, rfl, ?_, ?_⟩⟩
    · simp only [USD.val_sub, wrap64]; omega
    · rw [USD.le_iff, USD.val_zero]
      simp only [USD.val_sub, wrap64]; omega

/-- Witness of C9: from $10.00 a withdrawal of $20 fails and the account is
unchanged; from $500, after a deposit of $100, a withdrawal of $50 leaves
$550 and a ledger of length 3. -/
theorem C9_withdrawal_append_witness :
    (((NewBankAccount "Checking" (Time.Date 2018 1 1) (Dollars 10)).Append
          ⟨Time.Date 2018 1 2, Withdrawal, "Rent", Dollars 20⟩).2 = some ErrInsufficientFunds ∧
        ((NewBankAccount "Checking" (Time.Date 2018 1 1) (Dollars 10)).Append
          ⟨Time.Date 2018 1 2, Withdrawal, "Rent", Dollars 20⟩).1 =
          NewBankAccount "Checking" (Time.Date 2018 1 1) (Dollars 10)) ∧
      (((((NewBankAccount "Checking" (Time.Date 2018 1 1) (Dollars 500)).Append
            ⟨Time.Date 2018 1 2, Deposit, "Salary", Dollars 100⟩).1.Append
          ⟨Time.Date 2018 1 3, Withdrawal, "Rent", Dollars 50⟩).1.Balance = Dollars 550) ∧
        ((((NewBankAccount "Checking" (Time.Date 2018 1 1) (Dollars 500)).Append
            ⟨Time.Date 2018 1 2, Deposit, "Salary", Dollars 100⟩).1.Append
          ⟨Time.Date 2018 1 3, Withdrawal, "Rent", Dollars 50⟩).1.Ledger.length = 3)) :=
  have h1 := C9_withdrawal_append (NewBankAccount "Checking" (Time.Date 2018 1 1) (Dollars 10))
    ⟨Time.Date 2018 1 2, Withdrawal, "Rent", Dollars 20⟩ rfl (by decide)
  have h2 := C9_withdrawal_append
    ((NewBankAccount "Checking" (Time.Date 2018 1 1) (Dollars 500)).Append
      ⟨Time.Date 2018 1 2, Deposit, "Salary", Dollars 100⟩).1
    ⟨Time.Date 2018 1 3, Withdrawal, "Rent", Dollars 50⟩ rfl (by decide)
  have e1 := h1.1.mpr (by decide)
  have e2 := h2.2.1.mpr (by decide)
  ⟨⟨e1, h1.2.2.1 _ e1⟩,
    ⟨by rw [(h2.2.2.2 e2).2.2.1]; decide, by rw [(h2.2.2.2 e2).1]; decide⟩⟩

/-- C10. For every basic account and transaction, `Validate` is true exactly
when the transaction is a deposit, or a withdrawal with the balance strictly
above the amount; so a withdrawal of the whole balance is rejected by
`Validate` although `Append` accepts it, and every other kind is rejected.
`Validate` is a function of the account that returns only the verdict: its
Go body assigns no field. -/
theorem C10_validate_rule (a : BankAccount) (tx : Transaction) :
    (a.Validate tx = true ↔
        (tx.Typ = Deposit ∨ (tx.Typ = Withdrawal ∧ a.Balance > tx.Amount))) ∧
      (tx.Typ = Withdrawal → tx.Amount = a.Balance →
        a.Validate tx = false ∧ (a.Append tx).2 = none) ∧
      (tx.Typ ≠ Deposit → tx.Typ ≠ Withdrawal → a.Validate tx = false) := by
  have hwd : ¬ Withdrawal = Deposit := Ne.symm Deposit_ne_Withdrawal
  refine ⟨?_, ?_, ?_⟩
  · unfold BankAccount.Validate
    by_cases hd : tx.Typ = Deposit
    · simp [hd]
    · by_cases hc : tx.Typ = Withdrawal ∧ a.Balance > tx.Amount
      · simp [hd, hc]
      · simp only [hd, hc, if_false, false_or]
        simp
  · intro hw he
    have h1 : ¬ a.Balance > tx.Amount := by
      show ¬ tx.Amount < a.Balance
      rw [USD.lt_iff, he]; omega
    have h2 : ¬ tx.Amount > a.Balance := by
      show ¬ a.Balance < tx.Amount
      rw [USD.lt_iff, he]; omega
    constructor
    · simp only [BankAccount.Validate, hw, hwd, h1, and_false, if_false]
    · simp only [BankAccount.Append, hw, hwd, h2, if_true, if_false]
  · intro hd hw
    simp only [BankAccount.Validate, hd, hw, false_and, if_false]

/-- Witness of C10: at a balance of $100 a withdrawal of $100 fails
`Validate` and passes `Append`. -/
theorem C10_validate_rule_witness :
    (NewBankAccount "A" (Time.Date 2018 1 1) (Dollars 100)).Validate
        ⟨Time.Date 2018 1 2, Withdrawal, "all", Dollars 100⟩ = false ∧
      ((NewBankAccount "A" (Time.Date 2018 1 1) (Dollars 100)).Append
        ⟨Time.Date 2018 1 2, Withdrawal, "all", Dollars 100⟩).2 = none :=
  (C10_validate_rule (NewBankAccount "A" (Time.Date 2018 1 1) (Dollars 100))
    ⟨Time.Date 2018 1 2, Withdrawal, "all", Dollars 100⟩).2.1 rfl (by decide)

/-! ## Deposits that pass validation -/

theorem LoanAccount.Validate_of_months (l : LoanAccount) (tx : Transaction)
    (hd : tx.Typ = Deposit) (hm : l.MonthsPaid < l.Periods) : l.Validate tx = true := by
  simp only [LoanAccount.Validate, hd, hm, if_true]

theorem LoanAccount.Append_paid_off (l : LoanAccount) (tx : Transaction)
    (hr : l.RemainingBalance ≤ 0) : l.Append tx = (l, some ErrLoanPaidOff) := by
  simp only [LoanAccount.Append, hr, if_true]

/-- C6, at the input where it fails. A deposit that `Validate` accepts is
accepted by `Append` on every basic account and on every investor account;
on a loan account it is not: the loan that `NewLoan` builds for a principal
of zero (6% over 5 years) validates a deposit of $1, since
`MonthsPaid < Periods`, and `Append` then rejects it with the paid-off error,
since `RemainingBalance ≤ 0`. The same holds for every loan state with
`MonthsPaid < Periods` and `RemainingBalance ≤ 0`. -/
theorem C6_validated_deposit_rejected_by_loan :
    (∀ (a : BankAccount) (tx : Transaction), tx.Typ = Deposit → a.Validate tx = true →
        (a.Append tx).2 = none) ∧
      (∀ (a : Peer2PeerAccount) (tx : Transaction), tx.Typ = Deposit → a.Validate tx = true →
        (a.Append tx).2 = none) ∧
      (∀ (l : LoanAccount) (tx : Transaction), tx.Typ = Deposit → l.MonthsPaid < l.Periods →
        l.RemainingBalance ≤ 0 →
        l.Validate tx = true ∧ l.Append tx = (l, some ErrLoanPaidOff)) ∧
      (NewLoan "Loan" 0 6 5 0).Validate ⟨Time.Date 2018 1 2, Deposit, "Payment", Dollars 1⟩ =
        true ∧
      ((NewLoan "Loan" 0 6 5 0).Append ⟨Time.Date 2018 1 2, Deposit, "Payment", Dollars 1⟩).2 =
        some ErrLoanPaidOff := by
  refine ⟨?_, ?_, ?_, ?_, ?_⟩
  · intro a tx hd _
    simp only [BankAccount.Append, hd, if_true]
  · intro a tx hd _
    simp only [Peer2PeerAccount.Append, hd, if_true]
  · intro l tx hd hm hr
    exact ⟨LoanAccount.Validate_of_months l tx hd hm, LoanAccount.Append_paid_off l tx hr⟩
  · decide!
  · decide!

/-- C7. `Transfer` is not atomic across account variants: there are a bank
with a basic source account and a loan destination account, and an amount,
for which `Transfer` returns an error although the withdrawal has been applied
to the source (lower balance, one more ledger entry) while the loan account is
unchanged. The bank is `loanScenario`, the amount $1. -/
theorem C7_transfer_not_atomic :
    ∃ (b : Bank) (date : Time) (src dst : String) (x : USD) (a0 a1 : BankAccount)
      (l0 : LoanAccount) (e : Error),
      b.Accounts.get src = some (.basic a0) ∧
        b.Accounts.get dst = some (.loan l0) ∧
        (b.Transfer date src dst x).2 = some e ∧
        (b.Transfer date src dst x).1.Accounts.get src = some (.basic a1) ∧
        a1.Balance < a0.Balance ∧
        a1.Balance = a0.Balance - x ∧
        a1.Ledger = a0.Ledger ++ [⟨date, Withdrawal, Bank.transferDescription src dst, x⟩] ∧
        (b.Transfer date src dst x).1.Accounts.get dst = some (.loan l0) := by
  refine ⟨loanScenario, Time.Date 2018 1 2, "Checking", "Loan", Dollars 1,
    NewBankAccount "Checking" (Time.Date 2018 1 1) (Dollars 100),
    { Name := "Checking"
      Balance := Dollars 99
      Ledger := (NewBankAccount "Checking" (Time.Date 2018 1 1) (Dollars 100)).Ledger ++
        [⟨Time.Date 2018 1 2, Withdrawal, Bank.transferDescription "Checking" "Loan",
          Dollars 1⟩] },
    NewLoan "Loan" 0 6 5 0, ErrLoanPaidOff, ?_, ?_, ?_, ?_, ?_, ?_, ?_, ?_⟩
  · decide
  · decide!
  · decide!
  · decide!
  · decide
  · decide
  · decide
  · decide!

/-! ## Loan accounts: postings -/

/-- C14. `LoanAccount.Append` returns the paid-off error for every
transaction when `RemainingBalance ≤ 0`, returns `ErrUnknownTransactionType`
for every transaction that is not a deposit when `RemainingBalance > 0`, and
leaves the account unchanged in both cases; a deposit when
`RemainingBalance > 0` is accepted and increases `MonthsPaid` by exactly 1. -/
theorem C14_loan_append_outcomes (l : LoanAccount) (tx : Transaction) :
    (l.RemainingBalance ≤ 0 → l.Append tx = (l, some ErrLoanPaidOff)) ∧
      (l.RemainingBalance > 0 → tx.Typ ≠ Deposit →
        l.Append tx = (l, some ErrUnknownTransactionType)) ∧
      (l.RemainingBalance > 0 → tx.Typ = Deposit →
        (l.Append tx).2 = none ∧ (l.Append tx).1.MonthsPaid = l.MonthsPaid + 1) := by
  refine ⟨fun h => LoanAccount.Append_paid_off l tx h, fun h hd => ?_, fun h hd => ?_⟩
  · have h' : ¬ l.RemainingBalance ≤ 0 := by
      have : (0 : USD).val < l.RemainingBalance.val := h
      rw [USD.le_iff]; omega
    simp only [LoanAccount.Append, h', hd, if_false]
  · have h' : ¬ l.RemainingBalance ≤ 0 := by
      have : (0 : USD).val < l.RemainingBalance.val := h
      rw [USD.le_iff]; omega
    unfold LoanAccount.Append
    simp only [h', hd, if_true, if_false]
    constructor
    · trivial
    · split <;> rfl

/-- Witness of C14: the zero-principal loan rejects a deposit and is
unchanged. -/
theorem C14_loan_append_outcomes_witness :
    (NewLoan "Loan" 0 6 5 0).Append scheduleDeposit =
      (NewLoan "Loan" 0 6 5 0, some ErrLoanPaidOff) :=
  (C14_loan_append_outcomes (NewLoan "Loan" 0 6 5 0) scheduleDeposit).1 (by decide!)

theorem LoanAccount.appendAll_paid_off (txs : List Transaction) (l : LoanAccount)
    (hr : l.RemainingBalance ≤ 0) : l.appendAll txs = l := by
  induction txs with
  | nil => rfl
  | cons tx rest ih =>
    show LoanAccount.appendAll (l.Append tx).1 rest = l
    rw [LoanAccount.Append_paid_off l tx hr]
    exact ih

set_option maxRecDepth 1000000 in
/-- C11. The loan that `NewLoan` builds for $10,000 at 6% over 5 years with no
payment made has a monthly payment of 19333 cents and 60 periods; each of the
first 60 deposits of $193.33 is accepted, the remaining balance is positive
before each of them and is not positive after the 60th, and from then on every
`Append`, after any further calls, fails with the paid-off error. -/
theorem C11_loan_schedule :
    scheduleLoan.MonthlyPayment.val = 19333 ∧
      scheduleLoan.Periods = 60 ∧
      (∀ k, k < 60 →
        ((scheduleLoan.appendAll (List.replicate k scheduleDeposit)).Append
          scheduleDeposit).2 = none) ∧
      (∀ k, k < 60 →
        0 < (scheduleLoan.appendAll (List.replicate k scheduleDeposit)).RemainingBalance) ∧
      (scheduleLoan.appendAll (List.replicate 60 scheduleDeposit)).RemainingBalance ≤ 0 ∧
      (∀ (txs : List Transaction) (tx : Transaction),
        (((scheduleLoan.appendAll (List.replicate 60 scheduleDeposit)).appendAll txs).Append
          tx).2 = some ErrLoanPaidOff) := by
  have h60 : (scheduleLoan.appendAll (List.replicate 60 scheduleDeposit)).RemainingBalance ≤ 0 := by
    decide!
  refine ⟨by decide!, by decide!, by decide!, by decide!, h60, fun txs tx => ?_⟩
  rw [LoanAccount.appendAll_paid_off txs _ h60, LoanAccount.Append_paid_off _ tx h60]

/-- What an accepted deposit does to the remaining balance of a loan. -/
theorem LoanAccount.Append_deposit_balance (l : LoanAccount) (tx : Transaction)
    (hd : tx.Typ = Deposit) (hok : (l.Append tx).2 = none) :
    0 < l.RemainingBalance ∧
      (l.Append tx).1.RemainingBalance =
        if l.MonthsPaid < l.Periods then l.RemainingBalance - l.MonthlyPayment
        else l.RemainingBalance - tx.Amount := by
  by_cases hr : l.RemainingBalance ≤ 0
  · rw [LoanAccount.Append_paid_off l tx hr] at hok; cases hok
  · have hpos : 0 < l.RemainingBalance := by
      rw [USD.le_iff] at hr
      show (0 : USD).val < l.RemainingBalance.val
      omega
    refine ⟨hpos, ?_⟩
    unfold LoanAccount.Append
    simp only [hr, hd, if_true, if_false]
    split <;> rfl

/-- C13, as amended. For every loan account and every deposit that `Append`
accepts, the remaining balance falls by `MonthlyPayment` while
`MonthsPaid < Periods` and by the amount of the deposit afterwards; so it is
strictly less than before when `MonthlyPayment > 0`, respectively when the
amount is positive. -/
theorem C13_remaining_balance_decreases (l : LoanAccount) (tx : Transaction)
    (hd : tx.Typ = Deposit) (hok : (l.Append tx).2 = none) :
    (l.MonthsPaid < l.Periods →
        (l.Append tx).1.RemainingBalance = l.RemainingBalance - l.MonthlyPayment ∧
        (0 < l.MonthlyPayment → (l.Append tx).1.RemainingBalance < l.RemainingBalance)) ∧
      (¬ l.MonthsPaid < l.Periods →
        (l.Append tx).1.RemainingBalance = l.RemainingBalance - tx.Amount ∧
        (0 < tx.Amount → (l.Append tx).1.RemainingBalance < l.RemainingBalance)) := by
  obtain ⟨hpos, hbal⟩ := LoanAccount.Append_deposit_balance l tx hd hok
  have hposv : (0 : USD).val < l.RemainingBalance.val := hpos
  rw [USD.val_zero] at hposv
  have hhi := l.RemainingBalance.hi
  constructor
  · intro hm
    rw [if_pos hm] at hbal
    refine ⟨hbal, fun hp => ?_⟩
    have hpv : (0 : USD).val < l.MonthlyPayment.val := hp
    rw [USD.val_zero] at hpv
    have := l.MonthlyPayment.hi
    rw [hbal, USD.lt_iff]
    simp only [USD.val_sub, wrap64]; omega
  · intro hm
    rw [if_neg hm] at hbal
    refine ⟨hbal, fun hp => ?_⟩
    have hpv : (0 : USD).val < tx.Amount.val := hp
    rw [USD.val_zero] at hpv
    have := tx.Amount.hi
    rw [hbal, USD.lt_iff]
    simp only [USD.val_sub, wrap64]; omega

set_option maxRecDepth 1000000 in
/-- Witness of C13: the 60th deposit of the schedule scenario lowers the
remaining balance. -/
theorem C13_remaining_balance_decreases_witness :
    ((scheduleLoan.appendAll (List.replicate 59 scheduleDeposit)).Append
        scheduleDeposit).1.RemainingBalance <
      (scheduleLoan.appendAll (List.replicate 59 scheduleDeposit)).RemainingBalance :=
  ((C13_remaining_balance_decreases
    (scheduleLoan.appendAll (List.replicate 59 scheduleDeposit)) scheduleDeposit rfl
    (by decide!)).2 (by decide!)).2 (by decide)

set_option maxRecDepth 1000000 in
/-- C13 as stated fails: after 59 deposits on the schedule loan a deposit of
$0.00 is accepted and leaves the remaining balance at $193.21; and on the
one-cent loan, whose monthly payment is zero, a deposit of $193.33 is accepted
and leaves the remaining balance at one cent. -/
theorem C13_counterexample :
    (zeroDeposit.Typ = Deposit ∧ 0 ≤ zeroDeposit.Amount ∧
        ((scheduleLoan.appendAll (List.replicate 59 scheduleDeposit)).Append zeroDeposit).2 =
          none ∧
        ¬ ((scheduleLoan.appendAll (List.replicate 59 scheduleDeposit)).Append
              zeroDeposit).1.RemainingBalance <
            (scheduleLoan.appendAll (List.replicate 59 scheduleDeposit)).RemainingBalance) ∧
      (scheduleDeposit.Typ = Deposit ∧ 0 ≤ scheduleDeposit.Amount ∧
        (centLoan.Append scheduleDeposit).2 = none ∧
        ¬ (centLoan.Append scheduleDeposit).1.RemainingBalance < centLoan.RemainingBalance) := by
  refine ⟨⟨rfl, by decide, by decide!, by decide!⟩, ⟨rfl, by decide, by decide!, by decide!⟩⟩

/-! ## The calendar -/

/-- Bounds on the year of the era and the day of the year that `Time.civil`
computes from a day of the era. -/
theorem civil_year_bounds (a b c d e f g : Int) (h0 : 0 ≤ a) (h1 : a ≤ 146096)
    (he : e = a / 1460) (hf : f = a / 36524) (hg : g = a / 146096)
    (hb : b = (a - e + f - g) / 365) (hc : c = b / 4) (hd : d = b / 100) :
    0 ≤ b ∧ b ≤ 399 ∧ 0 ≤ a - (365 * b + c - d) ∧ a - (365 * b + c - d) ≤ 365 := by
  have hb1 : 0 ≤ b := by omega
  have hb2 : b ≤ 399 := by omega
  have hce : c ≤ e := by omega
  have hec : e ≤ c + 1 := by omega
  have hdf : d ≤ f := by omega
  have hfd : f ≤ d + 1 := by omega
  have hf4 : f ≤ 4 := by omega
  refine ⟨hb1, hb2, ?_, ?_⟩
  · omega
  · omega

/-- Building the date of the civil fields of a day gives the day back. -/
theorem Time.Date_civil (t : Time) : Time.Date t.Year t.Month t.Day = t := by
  obtain ⟨z⟩ := t
  have key := civil_year_bounds ((z + 719468) - (z + 719468) / 146097 * 146097) _ _ _ _ _ _
    (by omega) (by omega) rfl rfl rfl rfl rfl rfl
  obtain ⟨k1, k2, k3, k4⟩ := key
  simp only [Time.Date, Time.Year, Time.Month, Time.Day, Time.civil]
  congr 1
  generalize hera : (z + 719468) / 146097 = era at *
  generalize hdoe : z + 719468 - era * 146097 = doe at *
  generalize hyoe : (doe - doe / 1460 + doe / 36524 - doe / 146096) / 365 = yoe at *
  generalize hdoy : doe - (365 * yoe + yoe / 4 - yoe / 100) = doy at *
  have hmp1 : 0 ≤ (5 * doy + 2) / 153 := by omega
  have hmp2 : (5 * doy + 2) / 153 ≤ 11 := by omega
  generalize hmp : (5 * doy + 2) / 153 = mp at *
  by_cases h10 : mp < 10
  · have e1 : (mp + 3 - 1) / 12 = 0 := by omega
    have e2 : (mp + 3 - 1) % 12 = mp + 2 := by omega
    have h3 : ¬ (mp + 3 ≤ 2) := by omega
    have h4 : ¬ (mp + 2 + 1 ≤ 2) := by omega
    have h5 : (mp + 2 + 1 > 2) := by omega
    simp only [h10, if_true, e1, e2, h3, h4, h5, if_false, add_zero]
    have e3 : (yoe + era * 400) / 400 = era := by omega
    have e4 : yoe + era * 400 - era * 400 = yoe := by omega
    have e5 : mp + 2 + 1 - 3 = mp := by omega
    simp only [e3, e4, e5]
    omega
  · have e1 : (mp - 9 - 1) / 12 = 0 := by omega
    have e2 : (mp - 9 - 1) % 12 = mp - 10 := by omega
    have h3 : (mp - 9 ≤ 2) := by omega
    have h4 : (mp - 10 + 1 ≤ 2) := by omega
    have h5 : ¬ (mp - 10 + 1 > 2) := by omega
    simp only [h10, if_true, e1, e2, h3, h4, h5, if_false, add_zero]
    have e3 : (yoe + era * 400 + 1 - 1) / 400 = era := by omega
    have e4 : yoe + era * 400 + 1 - 1 - era * 400 = yoe := by omega
    have e5 : mp - 10 + 1 + 9 = mp := by omega
    simp only [e3, e4, e5]
    omega

theorem Time.Date_add_days (y m d k : Int) :
    Time.Date y m (d + k) = ⟨(Time.Date y m d).days + k⟩ := by
  simp only [Time.Date]
  congr 1
  omega

/-- Go `AddDate(0, 0, k)` moves a date by `k` days. -/
theorem Time.AddDate_days (t : Time) (k : Int) : t.AddDate 0 0 k = ⟨t.days + k⟩ := by
  unfold Time.AddDate
  rw [add_zero, add_zero, Time.Date_add_days, Time.Date_civil]

/-- Two days with the same civil fields are the same day. -/
theorem equalDates_iff (d1 d2 : Time) : equalDates d1 d2 = true ↔ d1 = d2 := by
  constructor
  · intro h
    simp only [equalDates, Bool.and_eq_true, beq_iff_eq] at h
    rw [← Time.Date_civil d1, ← Time.Date_civil d2, h.1.1, h.1.2, h.2]
  · intro h
    subst h
    simp [equalDates]

/-- The month is between 1 and 12, the day of the month between 1 and 31, and
at most 30 in February, April, June, September and November. -/
theorem Time.civil_ranges (t : Time) :
    1 ≤ t.Month ∧ t.Month ≤ 12 ∧ 1 ≤ t.Day ∧ t.Day ≤ 31 ∧
      ((t.Month = 2 ∨ t.Month = 4 ∨ t.Month = 6 ∨ t.Month = 9 ∨ t.Month = 11) →
        t.Day ≤ 30) := by
  obtain ⟨z⟩ := t
  have key := civil_year_bounds ((z + 719468) - (z + 719468) / 146097 * 146097) _ _ _ _ _ _
    (by omega) (by omega) rfl rfl rfl rfl rfl rfl
  obtain ⟨k1, k2, k3, k4⟩ := key
  simp only [Time.Month, Time.Day, Time.civil]
  generalize hera : (z + 719468) / 146097 = era at *
  generalize hdoe : z + 719468 - era * 146097 = doe at *
  generalize hyoe : (doe - doe / 1460 + doe / 36524 - doe / 146096) / 365 = yoe at *
  generalize hdoy : doe - (365 * yoe + yoe / 4 - yoe / 100) = doy at *
  have hmp1 : 0 ≤ (5 * doy + 2) / 153 := by omega
  have hmp2 : (5 * doy + 2) / 153 ≤ 11 := by omega
  have hmp3 : 153 * ((5 * doy + 2) / 153) ≤ 5 * doy + 2 := by omega
  have hmp4 : 5 * doy + 2 < 153 * ((5 * doy + 2) / 153) + 153 := by omega
  generalize hmp : (5 * doy + 2) / 153 = mp at *
  by_cases h10 : mp < 10
  · simp only [h10, if_true]
    omega
  · simp only [h10, if_false]
    omega

theorem truncQ_of_nonneg (x : ℚ) (h : 0 ≤ x) : truncQ x = ⌊x⌋ := by
  unfold truncQ
  rw [Rat.floor_def, Int.tdiv_eq_ediv (Rat.num_nonneg.mpr h) (Int.natCast_nonneg _)]

/-! ## float64 products -/

theorem log2Fuel_spec (fuel n : Nat) (h : n ≤ fuel) (hn : n ≠ 0) :
    2 ^ log2Fuel fuel n ≤ n ∧ n < 2 ^ (log2Fuel fuel n + 1) := by
  induction fuel generalizing n with
  | zero => omega
  | succ fuel ih =>
    unfold log2Fuel
    by_cases h2 : n < 2
    · rw [if_pos h2]
      simp only [pow_zero, zero_add, pow_one]
      omega
    · rw [if_neg h2]
      obtain ⟨k1, k2⟩ := ih (n / 2) (by omega) (by omega)
      rw [pow_succ, pow_succ]
      rw [pow_succ] at k2
      constructor <;> omega

theorem natLog2_spec (n : Nat) (hn : n ≠ 0) :
    2 ^ natLog2 n ≤ n ∧ n < 2 ^ (natLog2 n + 1) :=
  log2Fuel_spec n n (le_refl n) hn

theorem floorLog2_aux (x : ℚ) (N D a b : Nat) (hD : 0 < D) (hx : (N : ℚ) / (D : ℚ) = x)
    (a1 : 2 ^ a ≤ N) (a2 : N < 2 ^ (a + 1)) (b1 : 2 ^ b ≤ D) (b2 : D < 2 ^ (b + 1)) :
    (2 : ℚ) ^ ((a : Int) - (b : Int) - 1) ≤ x ∧ x < (2 : ℚ) ^ ((a : Int) - (b : Int) + 1) := by
  have hdq : (0 : ℚ) < (D : ℚ) := by exact_mod_cast hD
  have two_pos : ∀ k : Int, (0 : ℚ) < 2 ^ k := fun k => zpow_pos (by norm_num) k
  have A1 : ((2 : ℚ) ^ (a : Int)) ≤ (N : ℚ) := by
    rw [zpow_natCast]; exact_mod_cast a1
  have A2 : (N : ℚ) < (2 : ℚ) ^ ((a : Int) + 1) := by
    have : ((a : Int) + 1) = ((a + 1 : ℕ) : Int) := by push_cast; rfl
    rw [this, zpow_natCast]; exact_mod_cast a2
  have B1 : ((2 : ℚ) ^ (b : Int)) ≤ (D : ℚ) := by
    rw [zpow_natCast]; exact_mod_cast b1
  have B2 : (D : ℚ) < (2 : ℚ) ^ ((b : Int) + 1) := by
    have : ((b : Int) + 1) = ((b + 1 : ℕ) : Int) := by push_cast; rfl
    rw [this, zpow_natCast]; exact_mod_cast b2
  have hNq : (0 : ℚ) ≤ (N : ℚ) := by positivity
  subst hx
  constructor
  · have e : ((a : Int) - (b : Int) - 1) = (a : Int) - ((b : Int) + 1) := by ring
    rw [e, zpow_sub₀ (by norm_num : (2 : ℚ) ≠ 0), div_le_div_iff₀ (two_pos _) hdq]
    calc (2 : ℚ) ^ (a : Int) * (D : ℚ) ≤ (N : ℚ) * (D : ℚ) :=
          mul_le_mul_of_nonneg_right A1 hdq.le
      _ ≤ (N : ℚ) * 2 ^ ((b : Int) + 1) := mul_le_mul_of_nonneg_left B2.le hNq
  · have e : ((a : Int) - (b : Int) + 1) = ((a : Int) + 1) - (b : Int) := by ring
    rw [e, zpow_sub₀ (by norm_num : (2 : ℚ) ≠ 0), div_lt_div_iff₀ hdq (two_pos _)]
    calc (N : ℚ) * 2 ^ (b : Int) ≤ (N : ℚ) * (D : ℚ) := mul_le_mul_of_nonneg_left B1 hNq
      _ < 2 ^ ((a : Int) + 1) * (D : ℚ) := mul_lt_mul_of_pos_right A2 hdq

theorem floorLog2_spec (x : ℚ) (hx : 0 < x) :
    (2 : ℚ) ^ floorLog2 x ≤ x ∧ x < (2 : ℚ) ^ (floorLog2 x + 1) := by
  have hnum : 0 < x.num := Rat.num_pos.mpr hx
  have hden : 0 < x.den := x.den_pos
  obtain ⟨a1, a2⟩ := natLog2_spec x.num.natAbs (by omega)
  obtain ⟨b1, b2⟩ := natLog2_spec x.den (by omega)
  have hN : (x.num.natAbs : ℚ) = (x.num : ℚ) := by
    rw [← Int.cast_natCast, Int.natAbs_of_nonneg hnum.le]
  have hxe : (x.num.natAbs : ℚ) / (x.den : ℚ) = x := by
    rw [hN]; exact Rat.num_div_den x
  obtain ⟨hlo, hup⟩ := floorLog2_aux x _ _ _ _ hden hxe a1 a2 b1 b2
  unfold floorLog2
  split
  · rename_i h
    exact ⟨h, hup⟩
  · rename_i h
    refine ⟨hlo, ?_⟩
    have e : ((natLog2 x.num.natAbs : Int) - (natLog2 x.den : Int) - 1 + 1) =
        (natLog2 x.num.natAbs : Int) - (natLog2 x.den : Int) := by ring
    rw [e]
    exact lt_of_not_le h

theorem two_zpow_lt_iff (a b : Int) : (2 : ℚ) ^ a < 2 ^ b ↔ a < b :=
  zpow_lt_zpow_iff_right₀ (by norm_num)

theorem two_zpow_le_iff (a b : Int) : (2 : ℚ) ^ a ≤ 2 ^ b ↔ a ≤ b :=
  zpow_le_zpow_iff_right₀ (by norm_num)

theorem roundEven_bounds (q : ℚ) : ⌊q⌋ ≤ roundEven q ∧ roundEven q ≤ ⌊q⌋ + 1 := by
  unfold roundEven
  split
  · omega
  · split
    · omega
    · split <;> omega

theorem roundEven_ge (q : ℚ) (N : Int) (h : (N : ℚ) ≤ q) : N ≤ roundEven q :=
  le_trans (Int.le_floor.mpr h) (roundEven_bounds q).1

theorem roundEven_nonneg (q : ℚ) (h : 0 ≤ q) : 0 ≤ roundEven q :=
  roundEven_ge q 0 (by simpa using h)

theorem roundEven_le_of_lt_half (q : ℚ) (N : Int) (h : q < (N : ℚ) + 1 / 2) :
    roundEven q ≤ N := by
  have hf : ⌊q⌋ ≤ N := by
    have : ⌊q⌋ < N + 1 := by
      rw [Int.floor_lt]
      push_cast
      linarith
    omega
  by_cases hN : ⌊q⌋ = N
  · have : q - (⌊q⌋ : ℚ) < 1 / 2 := by rw [hN]; linarith
    unfold roundEven
    rw [if_pos this, hN]
  · have := (roundEven_bounds q).2
    omega

theorem roundEven_le (q : ℚ) (N : Int) (h : q ≤ (N : ℚ)) : roundEven q ≤ N :=
  roundEven_le_of_lt_half q N (by linarith)

theorem roundEven_intCast (n : Int) : roundEven (n : ℚ) = n :=
  le_antisymm (roundEven_le _ n (le_refl _)) (roundEven_ge _ n (le_refl _))

theorem roundEven_sub_half_le (q : ℚ) : (roundEven q : ℚ) - 1 / 2 ≤ q := by
  have h1 : (⌊q⌋ : ℚ) ≤ q := Int.floor_le q
  unfold roundEven
  split
  · linarith
  · rename_i h
    have h2 : (1 : ℚ) / 2 ≤ q - (⌊q⌋ : ℚ) := not_lt.mp h
    split
    · push_cast; linarith
    · split
      · linarith
      · push_cast; linarith

theorem Float64.round_nonneg (x : ℚ) (h : 0 ≤ x) : 0 ≤ Float64.round x := by
  unfold Float64.round
  split
  · exact le_refl _
  · have hp : (0 : ℚ) < 2 ^ Float64.ulpExp x := zpow_pos (by norm_num) _
    have : 0 ≤ roundEven (x / 2 ^ Float64.ulpExp x) :=
      roundEven_nonneg _ (div_nonneg h hp.le)
    have : (0 : ℚ) ≤ (roundEven (x / 2 ^ Float64.ulpExp x) : ℚ) := by exact_mod_cast this
    positivity

/-- The scale of a positive rational: `u = 2 ^ ulpExp x` with
`2 ^ 52 * u ≤ x < 2 ^ 53 * u` unless `x` is below the normal range. -/
theorem Float64.ulpExp_spec (x : ℚ) (hx : 0 < x) :
    x < 2 ^ 53 * 2 ^ Float64.ulpExp x ∧
    (-1022 ≤ floorLog2 x → 2 ^ 52 * 2 ^ Float64.ulpExp x ≤ x) ∧
    Float64.ulpExp x = max (floorLog2 x) (-1022) - 52 := by
  obtain ⟨h1, h2⟩ := floorLog2_spec x hx
  have habs : |x| = x := abs_of_pos hx
  have he : Float64.ulpExp x = max (floorLog2 x) (-1022) - 52 := by
    unfold Float64.ulpExp; rw [habs]
  have e53 : (2 : ℚ) ^ (53 : Int) = 2 ^ 53 := by norm_num
  have e52 : (2 : ℚ) ^ (52 : Int) = 2 ^ 52 := by norm_num
  refine ⟨?_, ?_, he⟩
  · rw [← e53, ← zpow_add₀ (by norm_num : (2 : ℚ) ≠ 0), he]
    refine lt_of_lt_of_le h2 ?_
    rw [two_zpow_le_iff]
    have := le_max_left (floorLog2 x) (-1022)
    omega
  · intro hn
    rw [← e52, ← zpow_add₀ (by norm_num : (2 : ℚ) ≠ 0), he, max_eq_left hn]
    have : (52 : Int) + (floorLog2 x - 52) = floorLog2 x := by ring
    rw [this]
    exact h1

/-- The float64 product of a float64 below 1 (at most `1 - 2 ^ (-53)`) and
the float64 of an integer `M ≥ 1` stays below `M`. -/
theorem Float64.mul_ofInt_lt (b : ℚ) (M : Int) (hb0 : 0 ≤ b)
    (hb1 : b * 2 ^ 53 ≤ 2 ^ 53 - 1) (hM : 1 ≤ M) :
    Float64.mul b (Float64.ofInt M) < (M : ℚ) := by
  have hMq : (1 : ℚ) ≤ (M : ℚ) := by exact_mod_cast hM
  have hM0 : (0 : ℚ) < (M : ℚ) := by linarith
  -- the scale of `M`
  obtain ⟨m1, m2, m3⟩ := Float64.ulpExp_spec (M : ℚ) hM0
  obtain ⟨l1, l2⟩ := floorLog2_spec (M : ℚ) hM0
  have hL : 0 ≤ floorLog2 (M : ℚ) := by
    have : (2 : ℚ) ^ (0 : Int) < 2 ^ (floorLog2 (M : ℚ) + 1) := by
      rw [zpow_zero]; linarith
    rw [two_zpow_lt_iff] at this
    omega
  have m2 := m2 (by omega)
  have he : Float64.ulpExp (M : ℚ) = floorLog2 (M : ℚ) - 52 := by
    rw [m3, max_eq_left (by omega)]
  have hu : (0 : ℚ) < 2 ^ Float64.ulpExp (M : ℚ) := zpow_pos (by norm_num) _
  -- the float64 of `M`
  have hF : Float64.ofInt M =
      (roundEven ((M : ℚ) / 2 ^ Float64.ulpExp (M : ℚ)) : ℚ) * 2 ^ Float64.ulpExp (M : ℚ) := by
    unfold Float64.ofInt Float64.round
    rw [if_neg hM0.ne.symm]
  have hμ1 : (2 : ℚ) ^ 52 ≤ (M : ℚ) / 2 ^ Float64.ulpExp (M : ℚ) := by
    rw [le_div_iff₀ hu]; exact m2
  have hμ2 : (M : ℚ) / 2 ^ Float64.ulpExp (M : ℚ) < 2 ^ 53 := by
    rw [div_lt_iff₀ hu]; exact m1
  have hn1 : (2 ^ 52 : Int) ≤ roundEven ((M : ℚ) / 2 ^ Float64.ulpExp (M : ℚ)) :=
    roundEven_ge _ _ (by push_cast; exact hμ1)
  have hn2 : roundEven ((M : ℚ) / 2 ^ Float64.ulpExp (M : ℚ)) ≤ (2 ^ 53 : Int) :=
    roundEven_le _ _ (by push_cast; exact hμ2.le)
  have hn3 := roundEven_sub_half_le ((M : ℚ) / 2 ^ Float64.ulpExp (M : ℚ))
  generalize hn : roundEven ((M : ℚ) / 2 ^ Float64.ulpExp (M : ℚ)) = n at hF hn1 hn2 hn3
  generalize hue : (2 : ℚ) ^ Float64.ulpExp (M : ℚ) = u at hF hu hμ1 hμ2 hn3 m1 m2 hn
  have hn1q : (2 : ℚ) ^ 52 ≤ (n : ℚ) := by exact_mod_cast hn1
  have hn2q : (n : ℚ) ≤ 2 ^ 53 := by exact_mod_cast hn2
  have hMu : (M : ℚ) = (M : ℚ) / u * u := by field_simp
  -- the product
  unfold Float64.mul
  rw [hF]
  by_cases hx0 : b * ((n : ℚ) * u) = 0
  · rw [hx0]
    unfold Float64.round
    rw [if_pos rfl]
    exact hM0
  have hxpos : 0 < b * ((n : ℚ) * u) :=
    lt_of_le_of_ne (mul_nonneg hb0 (by positivity)) (Ne.symm hx0)
  have hxF : b * ((n : ℚ) * u) ≤ ((n : ℚ) - (n : ℚ) / 2 ^ 53) * u := by
    have hb : b ≤ 1 - 1 / 2 ^ 53 := by
      have : b * 2 ^ 53 / 2 ^ 53 ≤ (2 ^ 53 - 1) / 2 ^ 53 :=
        div_le_div_of_nonneg_right hb1 (by positivity)
      rw [mul_div_assoc, div_self (by positivity), mul_one] at this
      linarith [this, show ((2 : ℚ) ^ 53 - 1) / 2 ^ 53 = 1 - 1 / 2 ^ 53 by field_simp]
    calc b * ((n : ℚ) * u) ≤ (1 - 1 / 2 ^ 53) * ((n : ℚ) * u) :=
          mul_le_mul_of_nonneg_right hb (by positivity)
      _ = ((n : ℚ) - (n : ℚ) / 2 ^ 53) * u := by ring
  generalize hxe : b * ((n : ℚ) * u) = x at hx0 hxpos hxF
  obtain ⟨x1, x2, x3⟩ := Float64.ulpExp_spec x hxpos
  obtain ⟨k1, k2⟩ := floorLog2_spec x hxpos
  have hv : (0 : ℚ) < 2 ^ Float64.ulpExp x := zpow_pos (by norm_num) _
  have hround : Float64.round x =
      (roundEven (x / 2 ^ Float64.ulpExp x) : ℚ) * 2 ^ Float64.ulpExp x := by
    unfold Float64.round
    rw [if_neg hxpos.ne.symm]
  rw [hround]
  -- the scale of the product is at most that of `M`
  have hxlt : x < 2 ^ 53 * u := by
    have : ((n : ℚ) - (n : ℚ) / 2 ^ 53) * u < 2 ^ 53 * u := by
      apply mul_lt_mul_of_pos_right _ hu
      have : (0 : ℚ) < (n : ℚ) / 2 ^ 53 := by positivity
      linarith
    linarith
  have hex : Float64.ulpExp x ≤ Float64.ulpExp (M : ℚ) := by
    have h53 : (2 : ℚ) ^ 53 * u = 2 ^ (floorLog2 (M : ℚ) + 1) := by
      have e53 : (2 : ℚ) ^ (53 : Int) = 2 ^ 53 := by norm_num
      rw [← hue, ← e53, ← zpow_add₀ (by norm_num : (2 : ℚ) ≠ 0), he]
      congr 1; ring
    have : (2 : ℚ) ^ floorLog2 x < 2 ^ (floorLog2 (M : ℚ) + 1) := by
      rw [← h53]; exact lt_of_le_of_lt k1 hxlt
    rw [two_zpow_lt_iff] at this
    rw [x3, he]
    have := max_le (show floorLog2 x ≤ floorLog2 (M : ℚ) by omega)
      (show (-1022 : Int) ≤ floorLog2 (M : ℚ) by omega)
    omega
  have hq53 : x / 2 ^ Float64.ulpExp x < 2 ^ 53 := by
    rw [div_lt_iff₀ hv]; exact x1
  by_cases hcase : Float64.ulpExp x = Float64.ulpExp (M : ℚ)
  · -- same scale
    have hLx : -1022 ≤ floorLog2 x := by
      rw [x3, he] at hcase
      by_contra hc
      rw [max_eq_right (by omega)] at hcase
      omega
    have x2 := x2 hLx
    rw [hcase, hue] at x2 ⊢
    have hn52 : (2 ^ 52 : Int) < n := by
      by_contra hc
      have hn_eq : n = 2 ^ 52 := by omega
      have : (n : ℚ) = 2 ^ 52 := by rw [hn_eq]; norm_num
      rw [this] at hxF
      have : ((2 : ℚ) ^ 52 - 2 ^ 52 / 2 ^ 53) * u < 2 ^ 52 * u := by
        apply mul_lt_mul_of_pos_right _ hu
        norm_num
      linarith
    have hn52q : (2 : ℚ) ^ 52 + 1 ≤ (n : ℚ) := by
      have : (2 ^ 52 + 1 : Int) ≤ n := by omega
      exact_mod_cast this
    have hq : x / u < ((n - 1 : Int) : ℚ) + 1 / 2 := by
      rw [div_lt_iff₀ hu]
      push_cast
      have : ((n : ℚ) - (n : ℚ) / 2 ^ 53) * u < ((n : ℚ) - 1 + 1 / 2) * u := by
        apply mul_lt_mul_of_pos_right _ hu
        have : (1 : ℚ) / 2 < (n : ℚ) / 2 ^ 53 := by
          rw [lt_div_iff₀ (by positivity)]
          linarith
        linarith
      linarith
    have hr := roundEven_le_of_lt_half _ _ hq
    have hrq : (roundEven (x / u) : ℚ) ≤ (n : ℚ) - 1 := by
      have : (roundEven (x / u) : ℚ) ≤ ((n - 1 : Int) : ℚ) := by exact_mod_cast hr
      push_cast at this
      exact this
    calc (roundEven (x / u) : ℚ) * u ≤ ((n : ℚ) - 1) * u :=
          mul_le_mul_of_nonneg_right hrq hu.le
      _ < ((M : ℚ) / u) * u := by
          apply mul_lt_mul_of_pos_right _ hu
          linarith
      _ = (M : ℚ) := hMu.symm
  · -- a smaller scale
    have hlt : Float64.ulpExp x + 1 ≤ Float64.ulpExp (M : ℚ) := by omega
    have hr53 : (roundEven (x / 2 ^ Float64.ulpExp x) : ℚ) ≤ 2 ^ 53 := by
      have := roundEven_le (x / 2 ^ Float64.ulpExp x) (2 ^ 53 : Int)
        (by push_cast; exact hq53.le)
      exact_mod_cast this
    -- `u = 2 ^ (j + 1) * v`
    obtain ⟨j, hj⟩ : ∃ j : Nat, Float64.ulpExp (M : ℚ) = Float64.ulpExp x + ((j : Int) + 1) :=
      ⟨(Float64.ulpExp (M : ℚ) - Float64.ulpExp x - 1).toNat, by omega⟩
    have huv : u = 2 * (2 ^ j * 2 ^ Float64.ulpExp x) := by
      have e1 : ((j : Int) + 1) = ((j + 1 : ℕ) : Int) := by push_cast; rfl
      rw [← hue, hj, zpow_add₀ (by norm_num : (2 : ℚ) ≠ 0), e1, zpow_natCast, pow_succ]
      ring
    generalize hve : (2 : ℚ) ^ Float64.ulpExp x = v at hv hr53 hq53 huv ⊢
    have hj1 : (1 : ℚ) ≤ 2 ^ j := one_le_pow₀ (by norm_num)
    have hvw : v ≤ 2 ^ j * v := le_mul_of_one_le_left hv.le hj1
    have hw : (0 : ℚ) < 2 ^ j * v := by positivity
    by_cases hμ : (2 : ℚ) ^ 52 < (M : ℚ) / u
    · calc (roundEven (x / v) : ℚ) * v ≤ 2 ^ 53 * v := mul_le_mul_of_nonneg_right hr53 hv.le
        _ ≤ 2 ^ 53 * (2 ^ j * v) := mul_le_mul_of_nonneg_left hvw (by norm_num)
        _ = 2 ^ 52 * u := by rw [huv]; ring
        _ < ((M : ℚ) / u) * u := mul_lt_mul_of_pos_right hμ hu
        _ = (M : ℚ) := hMu.symm
    · have hμe : (M : ℚ) / u = 2 ^ 52 := le_antisymm (not_lt.mp hμ) hμ1
      have hn52 : n = 2 ^ 52 := by
        rw [← hn]
        have : (M : ℚ) / u = ((2 ^ 52 : Int) : ℚ) := by
          rw [hμe]; norm_num
        rw [this, roundEven_intCast]
      have hnq : (n : ℚ) = 2 ^ 52 := by rw [hn52]; norm_num
      rw [hnq] at hxF
      have hx' : x ≤ 9007199254740991 * 2 ^ j * v := by
        calc x ≤ ((2 : ℚ) ^ 52 - 2 ^ 52 / 2 ^ 53) * u := hxF
          _ = 9007199254740991 * 2 ^ j * v := by rw [huv]; ring
      have hq : x / v ≤ ((9007199254740991 * 2 ^ j : Int) : ℚ) := by
        rw [div_le_iff₀ hv]
        push_cast
        exact hx'
      have hr := roundEven_le _ _ hq
      have hrq : (roundEven (x / v) : ℚ) ≤ 9007199254740991 * 2 ^ j := by
        have : (roundEven (x / v) : ℚ) ≤ ((9007199254740991 * 2 ^ j : Int) : ℚ) := by
          exact_mod_cast hr
        push_cast at this
        exact this
      have hMe : (M : ℚ) = 2 ^ 52 * u := by rw [← hμe]; exact hMu
      calc (roundEven (x / v) : ℚ) * v ≤ 9007199254740991 * 2 ^ j * v :=
            mul_le_mul_of_nonneg_right hrq hv.le
        _ = 9007199254740992 * (2 ^ j * v) - 2 ^ j * v := by ring
        _ < 9007199254740992 * (2 ^ j * v) := by linarith
        _ = 2 ^ 52 * u := by rw [huv]; ring
        _ = (M : ℚ) := hMe.symm

/-- A float64 in `[0, 1)` is at most `1 - 2 ^ (-53)`. -/
theorem Float64.lt_one (b : ℚ) (hb1 : b < 1) (hf : Float64.round b = b) :
    b * 2 ^ 53 ≤ 2 ^ 53 - 1 := by
  by_cases h : b < 1 / 2
  · have : b * 2 ^ 53 < 1 / 2 * 2 ^ 53 := mul_lt_mul_of_pos_right h (by norm_num)
    norm_num at this ⊢
    linarith
  · have hhalf : (1 : ℚ) / 2 ≤ b := not_lt.mp h
    have hpos : 0 < b := by linarith
    obtain ⟨k1, k2⟩ := floorLog2_spec b hpos
    have hL1 : floorLog2 b < 0 := by
      have : (2 : ℚ) ^ floorLog2 b < 2 ^ (0 : Int) := by rw [zpow_zero]; linarith
      rwa [two_zpow_lt_iff] at this
    have hL2 : -1 < floorLog2 b + 1 := by
      have : (2 : ℚ) ^ (-1 : Int) < 2 ^ (floorLog2 b + 1) := by
        have e : (2 : ℚ) ^ (-1 : Int) = 1 / 2 := by norm_num
        rw [e]; linarith
      rwa [two_zpow_lt_iff] at this
    have hL : floorLog2 b = -1 := by omega
    have he : Float64.ulpExp b = -53 := by
      rw [(Float64.ulpExp_spec b hpos).2.2, hL]; rfl
    unfold Float64.round at hf
    rw [if_neg hpos.ne.symm, he] at hf
    have e53 : (2 : ℚ) ^ (-53 : Int) = 1 / 2 ^ 53 := by
      rw [zpow_neg, one_div]; norm_num
    rw [e53] at hf
    have hm : b * 2 ^ 53 = (roundEven (b / (1 / 2 ^ 53)) : ℚ) := by
      have h2 : (roundEven (b / (1 / 2 ^ 53)) : ℚ) * (1 / 2 ^ 53) * 2 ^ 53 = b * 2 ^ 53 := by
        rw [hf]
      rw [← h2]
      field_simp
    have hlt : (roundEven (b / (1 / 2 ^ 53)) : ℚ) < ((2 ^ 53 : Int) : ℚ) := by
      rw [← hm]
      push_cast
      have : b * 2 ^ 53 < 1 * 2 ^ 53 := mul_lt_mul_of_pos_right hb1 (by norm_num)
      linarith
    have hle : roundEven (b / (1 / 2 ^ 53)) ≤ 2 ^ 53 - 1 := by
      have : roundEven (b / (1 / 2 ^ 53)) < 2 ^ 53 := by exact_mod_cast hlt
      omega
    rw [hm]
    have : (roundEven (b / (1 / 2 ^ 53)) : ℚ) ≤ ((2 ^ 53 - 1 : Int) : ℚ) := by
      exact_mod_cast hle
    push_cast at this
    linarith

/-! ## Random business days -/

/-- Claim C18, as the code has it. For every date, every float64 draw `beta`
in `[0, 1)` and every `max ≥ 1`, `randBetaDate` returns
`d0 = date + 1 day + ⌊p⌋ days`, where `p` is the float64 product of `beta`
and `float64(max)`, moved forward 2 days when `d0` is a Saturday and 1 day
when it is a Sunday; the result is a Monday-to-Friday date, at least 1 day and
at most `max + 2` days after `date`. -/
theorem C18_randBetaDate (date : Time) (beta : ℚ) (max : Int)
    (h0 : 0 ≤ beta) (h1 : beta < 1) (hf : Float64.round beta = beta) (hmax : 1 ≤ max) :
    randBetaDate beta date max =
        (if (⟨date.days + 1 + ⌊Float64.mul beta (Float64.ofInt max)⌋⟩ : Time).Weekday = 6 then
          ⟨date.days + 1 + ⌊Float64.mul beta (Float64.ofInt max)⌋ + 2⟩
        else if (⟨date.days + 1 + ⌊Float64.mul beta (Float64.ofInt max)⌋⟩ : Time).Weekday = 0 then
          ⟨date.days + 1 + ⌊Float64.mul beta (Float64.ofInt max)⌋ + 1⟩
        else ⟨date.days + 1 + ⌊Float64.mul beta (Float64.ofInt max)⌋⟩) ∧
      1 ≤ (randBetaDate beta date max).Weekday ∧
      (randBetaDate beta date max).Weekday ≤ 5 ∧
      date.days + 1 ≤ (randBetaDate beta date max).days ∧
      (randBetaDate beta date max).days ≤ date.days + max + 2 := by
  have hF0 : 0 ≤ Float64.ofInt max :=
    Float64.round_nonneg _ (by exact_mod_cast (by omega : (0 : Int) ≤ max))
  have hx0 : 0 ≤ Float64.mul beta (Float64.ofInt max) :=
    Float64.round_nonneg _ (mul_nonneg h0 hF0)
  have hx1 : Float64.mul beta (Float64.ofInt max) < (max : ℚ) :=
    Float64.mul_ofInt_lt beta max h0 (Float64.lt_one beta h1 hf) hmax
  have hk0 : 0 ≤ ⌊Float64.mul beta (Float64.ofInt max)⌋ := Int.floor_nonneg.mpr hx0
  have hk1 : ⌊Float64.mul beta (Float64.ofInt max)⌋ < max := Int.floor_lt.mpr hx1
  have hform : randBetaDate beta date max =
      (if (⟨date.days + 1 + ⌊Float64.mul beta (Float64.ofInt max)⌋⟩ : Time).Weekday = 6 then
        ⟨date.days + 1 + ⌊Float64.mul beta (Float64.ofInt max)⌋ + 2⟩
      else if (⟨date.days + 1 + ⌊Float64.mul beta (Float64.ofInt max)⌋⟩ : Time).Weekday = 0 then
        ⟨date.days + 1 + ⌊Float64.mul beta (Float64.ofInt max)⌋ + 1⟩
      else ⟨date.days + 1 + ⌊Float64.mul beta (Float64.ofInt max)⌋⟩) := by
    unfold randBetaDate
    simp only [Time.AddDate_days, truncQ_of_nonneg _ hx0]
  refine ⟨hform, ?_⟩
  rw [hform]
  generalize ⌊Float64.mul beta (Float64.ofInt max)⌋ = k at hk0 hk1
  simp only [Time.Weekday]
  split_ifs with ha hb
  · refine ⟨?_, ?_, ?_, ?_⟩ <;> dsimp only at ha ⊢ <;> omega
  · refine ⟨?_, ?_, ?_, ?_⟩ <;> dsimp only at ha hb ⊢ <;> omega
  · refine ⟨?_, ?_, ?_, ?_⟩ <;> dsimp only at ha hb ⊢ <;> omega

set_option maxRecDepth 1000000 in
/-- Witness of C18: from Thursday 2018-01-04 with the draw 3/8 and `max = 7`
the product is 2.625, `d0` is Sunday the 7th and the result Monday the 8th. -/
theorem C18_randBetaDate_witness :
    randBetaDate (3 / 8) (Time.Date 2018 1 4) 7 = Time.Date 2018 1 8 ∧
      1 ≤ (randBetaDate (3 / 8) (Time.Date 2018 1 4) 7).Weekday ∧
      (randBetaDate (3 / 8) (Time.Date 2018 1 4) 7).Weekday ≤ 5 ∧
      (Time.Date 2018 1 4).days + 1 ≤ (randBetaDate (3 / 8) (Time.Date 2018 1 4) 7).days ∧
      (randBetaDate (3 / 8) (Time.Date 2018 1 4) 7).days ≤ (Time.Date 2018 1 4).days + 7 + 2 :=
  ⟨by decide!, (C18_randBetaDate (Time.Date 2018 1 4) (3 / 8) 7 (by norm_num) (by norm_num)
    (by decide!) (by norm_num)).2⟩

set_option maxRecDepth 1000000 in
/-- Claim C18 fails as stated, with the product taken over the reals: the
float64 nearest to 1/7 is `2573485501354569 / 2 ^ 54`, just below 1/7, so that
`⌊beta * 7⌋ = 0`, but its float64 product with 7 rounds to exactly 1. From
Monday 2018-01-01 the claim gives Tuesday the 2nd and `randBetaDate`
returns Wednesday the 3rd. -/
theorem C18_counterexample :
    (0 : ℚ) ≤ 2573485501354569 / 18014398509481984 ∧
    (2573485501354569 / 18014398509481984 : ℚ) < 1 ∧
    Float64.round (2573485501354569 / 18014398509481984) =
      2573485501354569 / 18014398509481984 ∧
    ⌊(2573485501354569 / 18014398509481984 : ℚ) * 7⌋ = 0 ∧
    Float64.mul (2573485501354569 / 18014398509481984) (Float64.ofInt 7) = 1 ∧
    (⟨(Time.Date 2018 1 1).days + 1 + ⌊(2573485501354569 / 18014398509481984 : ℚ) * 7⌋⟩ : Time) =
      Time.Date 2018 1 2 ∧
    (Time.Date 2018 1 2).Weekday = 2 ∧
    randBetaDate (2573485501354569 / 18014398509481984) (Time.Date 2018 1 1) 7 =
      Time.Date 2018 1 3 := by
  decide!

/-! ## Charge-offs -/

theorem USD.add_comm (a b : USD) : a + b = b + a := by
  apply USD.ext
  simp only [USD.val_add, Int.add_comm]

/-- C17. `MicroLoan.chargeOff` on a loan with outstanding principal `q` and
monthly interest `i` returns no error, appends exactly one `MONTHLYPAYMENT`
transaction of amount `q` to the ledger of the account, increases
`AvailableCash` by `q + i`, `AccountValue` and `Interest` by `i`, decreases
the `OutstandingPrincipal` of the account by `q`, increases the `TotalPaid` of
the loan by `q + i` and sets the `OutstandingPrincipal` of the loan to 0;
after that `MicroLoan.Process` changes nothing for the loan on any date, with
any account and any draws. -/
theorem C17_charge_off (m : MicroLoan) (date : Time) (acct : Peer2PeerAccount) :
    (m.chargeOff date acct).2.2 = none ∧
      (m.chargeOff date acct).2.1.Ledger = acct.Ledger ++
        [{ Date := date, Typ := MonthlyPayment
           Description := "Charge-off for loan #" ++ toString m.ID
           Amount := m.OutstandingPrincipal }] ∧
      (m.chargeOff date acct).2.1.AvailableCash =
        acct.AvailableCash + (m.OutstandingPrincipal + m.MonthlyInterest) ∧
      (m.chargeOff date acct).2.1.AccountValue = acct.AccountValue + m.MonthlyInterest ∧
      (m.chargeOff date acct).2.1.Interest = acct.Interest + m.MonthlyInterest ∧
      (m.chargeOff date acct).2.1.OutstandingPrincipal =
        acct.OutstandingPrincipal - m.OutstandingPrincipal ∧
      (m.chargeOff date acct).1.TotalPaid =
        m.TotalPaid + (m.OutstandingPrincipal + m.MonthlyInterest) ∧
      (m.chargeOff date acct).1.OutstandingPrincipal = 0 ∧
      (∀ (later : Time) (acct1 : Peer2PeerAccount) (rnd : PaymentDraw),
        (m.chargeOff date acct).1.Process later acct1 rnd =
          ((m.chargeOff date acct).1, acct1, none)) := by
  have hform : m.chargeOff date acct =
      ({ m with
         TotalPaid := m.TotalPaid + (m.OutstandingPrincipal + m.MonthlyInterest)
         OutstandingPrincipal := 0 },
       { acct with
         Ledger := acct.Ledger ++
           [{ Date := date, Typ := MonthlyPayment
              Description := "Charge-off for loan #" ++ toString m.ID
              Amount := m.OutstandingPrincipal }]
         Interest := acct.Interest + m.MonthlyInterest
         AccountValue := acct.AccountValue + m.MonthlyInterest
         AvailableCash := acct.AvailableCash + (m.MonthlyInterest + m.OutstandingPrincipal)
         OutstandingPrincipal := acct.OutstandingPrincipal - m.OutstandingPrincipal
         MonthlyCashFlow := acct.MonthlyCashFlow + (m.MonthlyInterest + m.MonthlyPrincipal)
         MonthlyInterest := acct.MonthlyInterest + m.MonthlyInterest
         DailyCashFlow := acct.DailyCashFlow + (m.MonthlyInterest + m.MonthlyPrincipal)
         DailyInterest := acct.DailyInterest + m.MonthlyInterest }, none) := by
    unfold MicroLoan.chargeOff
    rw [Peer2PeerAccount.Append_MonthlyPayment _ _ rfl]
  rw [hform]
  refine ⟨rfl, rfl, ?_, rfl, rfl, rfl, rfl, rfl, ?_⟩
  · show acct.AvailableCash + (m.MonthlyInterest + m.OutstandingPrincipal) =
      acct.AvailableCash + (m.OutstandingPrincipal + m.MonthlyInterest)
    rw [USD.add_comm m.MonthlyInterest]
  · intro later acct1 rnd
    have h0 : ¬ (0 : USD) > 0 := by decide
    simp only [MicroLoan.Process, h0, if_false]

/-! ## Line items -/

/-- C19. `LoanPayment.Process(date, bank)`: on a day of the month other than
`DayOfMonth` it returns nil and leaves the bank unchanged; otherwise it
returns `ErrAccountDoesNotExist` when `To` names no account and
`ErrInvalidTransfer` when `To` is not a loan account; otherwise it is
`Transfer(date, From, To, RemainingBalance)` when `MonthsPaid ≥ Periods` and
`RemainingBalance > 0`, `Transfer(date, From, To, MonthlyPayment)` when
`MonthsPaid < Periods`, and nil with the bank unchanged in the remaining
case. -/
theorem C19_loan_payment_process (l : LoanPayment) (date : Time) (bank : Bank) :
    (date.Day ≠ l.DayOfMonth → l.Process date bank = (bank, none)) ∧
      (date.Day = l.DayOfMonth → bank.Accounts.get l.To = none →
        l.Process date bank = (bank, some ErrAccountDoesNotExist)) ∧
      (date.Day = l.DayOfMonth → ∀ acct, bank.Accounts.get l.To = some acct →
        (∀ loan, acct ≠ Account.loan loan) →
        l.Process date bank = (bank, some ErrInvalidTransfer)) ∧
      (date.Day = l.DayOfMonth → ∀ loan, bank.Accounts.get l.To = some (.loan loan) →
        (loan.MonthsPaid ≥ loan.Periods → loan.RemainingBalance > 0 →
          l.Process date bank = bank.Transfer date l.From l.To loan.RemainingBalance) ∧
        (loan.MonthsPaid < loan.Periods →
          l.Process date bank = bank.Transfer date l.From l.To loan.MonthlyPayment) ∧
        (loan.MonthsPaid ≥ loan.Periods → ¬ loan.RemainingBalance > 0 →
          l.Process date bank = (bank, none))) := by
  refine ⟨fun hday => ?_, fun hday hnone => ?_, fun hday acct hget hnl => ?_,
    fun hday loan hget => ⟨fun hm hr => ?_, fun hm => ?_, fun hm hr => ?_⟩⟩
  · simp [LoanPayment.Process, hday]
  · simp [LoanPayment.Process, LoanPayment.getLoan, hday, hnone]
  · cases acct with
    | basic a => simp [LoanPayment.Process, LoanPayment.getLoan, hday, hget]
    | loan a => exact absurd rfl (hnl a)
    | investor a => simp [LoanPayment.Process, LoanPayment.getLoan, hday, hget]
  · simp [LoanPayment.Process, LoanPayment.getLoan, hday, hget, hm, hr]
  · have hm' : ¬ loan.MonthsPaid ≥ loan.Periods := by omega
    simp [LoanPayment.Process, LoanPayment.getLoan, hday, hget, hm]
  · have hm' : ¬ loan.MonthsPaid < loan.Periods := by omega
    simp [LoanPayment.Process, LoanPayment.getLoan, hday, hget, hm, hr, hm']

theorem civil_year_unique (a b c d e f g b' doy : Int) (hb0 : 0 ≤ b) (hb1 : b ≤ 399)
    (hd0 : 0 ≤ doy) (hd1 : doy ≤ 364)
    (hc : c = b / 4) (hd : d = b / 100)
    (ha : a = 365 * b + c - d + doy)
    (he : e = a / 1460) (hf : f = a / 36524) (hg : g = a / 146096)
    (hb' : b' = (a - e + f - g) / 365) : b' = b := by
  have h1 : 0 ≤ a := by omega
  have h2 : a ≤ 146096 := by omega
  have hg0 : g = 0 ∨ g = 1 := by omega
  have hf4 : 0 ≤ f ∧ f ≤ 4 := by omega
  have hdf : d ≤ f := by omega
  have hfd : f ≤ d + 1 := by omega
  have hce : c ≤ e := by omega
  have hec : e ≤ c + 1 := by omega
  omega

/-- The civil fields of a date built from a valid year, month and day (29
February apart) are that year, month and day. -/
theorem Time.civil_Date (y m d : Int) (hm1 : 1 ≤ m) (hm2 : m ≤ 12) (hd1 : 1 ≤ d)
    (hd : d ≤ 28 ∨ (m ≠ 2 ∧ d ≤ 30) ∨
      ((m = 1 ∨ m = 3 ∨ m = 5 ∨ m = 7 ∨ m = 8 ∨ m = 10 ∨ m = 12) ∧ d ≤ 31)) :
    (Time.Date y m d).civil = (y, m, d) := by
  have e1 : (m - 1) / 12 = 0 := by omega
  have e2 : (m - 1) % 12 + 1 = m := by omega
  simp only [Time.Date, Time.civil, e1, e2, add_zero]
  generalize hy1 : (if m ≤ 2 then y - 1 else y) = y1
  generalize hmp : (if m > 2 then m - 3 else m + 9) = mp
  have hmp0 : 0 ≤ mp ∧ mp ≤ 11 := by split_ifs at hmp <;> omega
  generalize hera : y1 / 400 = era
  generalize hyoe : y1 - era * 400 = yoe
  have hyoe0 : 0 ≤ yoe ∧ yoe ≤ 399 := by omega
  generalize hdoy0 : (153 * mp + 2) / 5 = doy0
  have hdoy : 0 ≤ doy0 + (d - 1) ∧ doy0 + (d - 1) ≤ 364 := by
    split_ifs at hmp <;> omega
  have hmpd : (5 * (doy0 + (d - 1)) + 2) / 153 = mp := by
    split_ifs at hmp <;> omega
  have hz : era * 146097 + (yoe * 365 + yoe / 4 - yoe / 100 + doy0) - 719468 + (d - 1) + 719468
      = era * 146097 + (365 * yoe + yoe / 4 - yoe / 100 + (doy0 + (d - 1))) := by omega
  rw [hz]
  generalize hdoe : 365 * yoe + yoe / 4 - yoe / 100 + (doy0 + (d - 1)) = doe
  have hdoe0 : 0 ≤ doe ∧ doe ≤ 146096 := by omega
  have e3 : (era * 146097 + doe) / 146097 = era := by omega
  have e4 : era * 146097 + doe - era * 146097 = doe := by omega
  simp only [e3, e4]
  have e5 : (doe - doe / 1460 + doe / 36524 - doe / 146096) / 365 = yoe :=
    civil_year_unique doe yoe _ _ _ _ _ _ (doy0 + (d - 1)) hyoe0.1 hyoe0.2 hdoy.1 hdoy.2
      rfl rfl hdoe.symm rfl rfl rfl rfl
  simp only [e5]
  have e6 : doe - (365 * yoe + yoe / 4 - yoe / 100) = doy0 + (d - 1) := by omega
  simp only [e6, hmpd]
  have e7 : doy0 + (d - 1) - (153 * mp + 2) / 5 + 1 = d := by omega
  simp only [e7]
  split_ifs at hmp hy1 ⊢
  all_goals simp only [Prod.mk.injEq, and_true]
  all_goals omega

set_option maxRecDepth 1000000 in
/-- Witness of C19: on 2018-02-01 the payment into the zero-principal loan,
which is within its term, is the transfer of its monthly payment. -/
theorem C19_loan_payment_process_witness :
    scenarioLoanPayment.Process (Time.Date 2018 2 1) loanScenario =
      loanScenario.Transfer (Time.Date 2018 2 1) "Checking" "Loan"
        (NewLoan "Loan" 0 6 5 0).MonthlyPayment :=
  ((C19_loan_payment_process scenarioLoanPayment (Time.Date 2018 2 1) loanScenario).2.2.2
    (by decide) (NewLoan "Loan" 0 6 5 0) (by decide!)).2.1 (by decide!)

/-- The method `MonthlyTransaction.Process` posts exactly on the days of the window whose
day of the month is `DayOfMonth`. -/
theorem MonthlyTransaction.Process_posting_days (m : MonthlyTransaction) (date : Time) (bank : Bank) :
    m.Process date bank =
      if m.StartDate.days ≤ date.days ∧ date.days ≤ m.EndDate.days ∧ date.Day = m.DayOfMonth then
        bank.Append m.Account
          { Date := date, Typ := m.Typ, Description := m.Name, Amount := m.Amount }
      else (bank, none) := by
  unfold MonthlyTransaction.Process
  simp only [Time.After, Time.Equal, Bool.or_eq_true, decide_eq_true_eq, bne_iff_ne, ne_eq]
  by_cases h1 : m.EndDate.days < date.days
  · have h5 : ¬ (m.StartDate.days ≤ date.days ∧ date.days ≤ m.EndDate.days ∧
        date.Day = m.DayOfMonth) := by omega
    rw [if_neg h5]
    simp only [h1, true_or, if_true]
  · by_cases h2 : date.Day = m.DayOfMonth
    · by_cases h3 : m.StartDate.days ≤ date.days
      · have h4 : m.StartDate.days < date.days ∨ date.days = m.StartDate.days := by omega
        have h5 : m.StartDate.days ≤ date.days ∧ date.days ≤ m.EndDate.days ∧
            date.Day = m.DayOfMonth := ⟨h3, by omega, h2⟩
        rw [if_pos h5]
        have h6 : ¬ (m.EndDate.days < date.days ∨ ¬ date.Day = m.DayOfMonth) := by
          intro h; rcases h with h | h
          · exact h1 h
          · exact h h2
        rw [if_neg h6, if_pos h4]
      · have h4 : ¬ (m.StartDate.days < date.days ∨ date.days = m.StartDate.days) := by omega
        have h5 : ¬ (m.StartDate.days ≤ date.days ∧ date.days ≤ m.EndDate.days ∧
            date.Day = m.DayOfMonth) := by omega
        rw [if_neg h5, if_neg h4]
        simp only [ite_self]
    · have h5 : ¬ (m.StartDate.days ≤ date.days ∧ date.days ≤ m.EndDate.days ∧
          date.Day = m.DayOfMonth) := fun h => h2 h.2.2
      have h6 : m.EndDate.days < date.days ∨ ¬ date.Day = m.DayOfMonth := Or.inr h2
      rw [if_neg h5, if_pos h6]

/-- The method `MonthlyTransfer.Process` transfers exactly on the days of the window
whose day of the month is `DayOfMonth`. -/
theorem MonthlyTransfer.Process_transfer_days (m : MonthlyTransfer) (date : Time) (bank : Bank) :
    m.Process date bank =
      if m.StartDate.days ≤ date.days ∧ date.days ≤ m.EndDate.days ∧ date.Day = m.DayOfMonth then
        bank.Transfer date m.From m.To m.Amount
      else (bank, none) := by
  unfold MonthlyTransfer.Process
  simp only [Time.After, Time.Equal, Bool.or_eq_true, decide_eq_true_eq, bne_iff_ne, ne_eq]
  by_cases h1 : m.EndDate.days < date.days
  · have h5 : ¬ (m.StartDate.days ≤ date.days ∧ date.days ≤ m.EndDate.days ∧
        date.Day = m.DayOfMonth) := by omega
    rw [if_neg h5]
    simp only [h1, true_or, if_true]
  · by_cases h2 : date.Day = m.DayOfMonth
    · by_cases h3 : m.StartDate.days ≤ date.days
      · have h4 : m.StartDate.days < date.days ∨ date.days = m.StartDate.days := by omega
        have h5 : m.StartDate.days ≤ date.days ∧ date.days ≤ m.EndDate.days ∧
            date.Day = m.DayOfMonth := ⟨h3, by omega, h2⟩
        rw [if_pos h5]
        have h6 : ¬ (m.EndDate.days < date.days ∨ ¬ date.Day = m.DayOfMonth) := by
          intro h; rcases h with h | h
          · exact h1 h
          · exact h h2
        rw [if_neg h6, if_pos h4]
      · have h4 : ¬ (m.StartDate.days < date.days ∨ date.days = m.StartDate.days) := by omega
        have h5 : ¬ (m.StartDate.days ≤ date.days ∧ date.days ≤ m.EndDate.days ∧
            date.Day = m.DayOfMonth) := by omega
        rw [if_neg h5, if_neg h4]
        simp only [ite_self]
    · have h5 : ¬ (m.StartDate.days ≤ date.days ∧ date.days ≤ m.EndDate.days ∧
          date.Day = m.DayOfMonth) := fun h => h2 h.2.2
      have h6 : m.EndDate.days < date.days ∨ ¬ date.Day = m.DayOfMonth := Or.inr h2
      rw [if_neg h5, if_pos h6]

/-- C20. `MonthlyTransaction.Process` and `MonthlyTransfer.Process` act (they
are the one call of `Bank.Append`, respectively `Bank.Transfer`) exactly when
`StartDate ≤ date ≤ EndDate` and the day of the month of `date` is
`DayOfMonth`; on every other date they return nil and leave the bank
unchanged. An item with `DayOfMonth = 31` acts on the 31st of every month of 31
days inside the window, and never acts in February, April, June, September or
November. -/
theorem C20_monthly_items (date : Time) (bank : Bank) :
    (∀ m : MonthlyTransaction,
      ((m.StartDate.days ≤ date.days ∧ date.days ≤ m.EndDate.days ∧ date.Day = m.DayOfMonth) →
        m.Process date bank = bank.Append m.Account
          { Date := date, Typ := m.Typ, Description := m.Name, Amount := m.Amount }) ∧
      (¬ (m.StartDate.days ≤ date.days ∧ date.days ≤ m.EndDate.days ∧
          date.Day = m.DayOfMonth) → m.Process date bank = (bank, none)) ∧
      (m.DayOfMonth = 31 → ∀ y mo : Int,
        (mo = 1 ∨ mo = 3 ∨ mo = 5 ∨ mo = 7 ∨ mo = 8 ∨ mo = 10 ∨ mo = 12) →
        m.StartDate.days ≤ (Time.Date y mo 31).days →
        (Time.Date y mo 31).days ≤ m.EndDate.days →
        m.Process (Time.Date y mo 31) bank = bank.Append m.Account
          { Date := Time.Date y mo 31, Typ := m.Typ, Description := m.Name,
            Amount := m.Amount }) ∧
      (m.DayOfMonth = 31 →
        (date.Month = 2 ∨ date.Month = 4 ∨ date.Month = 6 ∨ date.Month = 9 ∨
          date.Month = 11) → m.Process date bank = (bank, none))) ∧
      (∀ m : MonthlyTransfer,
        ((m.StartDate.days ≤ date.days ∧ date.days ≤ m.EndDate.days ∧
            date.Day = m.DayOfMonth) →
          m.Process date bank = bank.Transfer date m.From m.To m.Amount) ∧
        (¬ (m.StartDate.days ≤ date.days ∧ date.days ≤ m.EndDate.days ∧
            date.Day = m.DayOfMonth) → m.Process date bank = (bank, none)) ∧
        (m.DayOfMonth = 31 → ∀ y mo : Int,
          (mo = 1 ∨ mo = 3 ∨ mo = 5 ∨ mo = 7 ∨ mo = 8 ∨ mo = 10 ∨ mo = 12) →
          m.StartDate.days ≤ (Time.Date y mo 31).days →
          (Time.Date y mo 31).days ≤ m.EndDate.days →
          m.Process (Time.Date y mo 31) bank =
            bank.Transfer (Time.Date y mo 31) m.From m.To m.Amount) ∧
        (m.DayOfMonth = 31 →
          (date.Month = 2 ∨ date.Month = 4 ∨ date.Month = 6 ∨ date.Month = 9 ∨
            date.Month = 11) → m.Process date bank = (bank, none))) := by
  have hday31 : ∀ y mo : Int,
      (mo = 1 ∨ mo = 3 ∨ mo = 5 ∨ mo = 7 ∨ mo = 8 ∨ mo = 10 ∨ mo = 12) →
      (Time.Date y mo 31).Day = 31 := by
    intro y mo hmo
    have h := Time.civil_Date y mo 31 (by omega) (by omega) (by omega)
      (Or.inr (Or.inr ⟨hmo, le_refl _⟩))
    simp only [Time.Day, h]
  have hshort : (date.Month = 2 ∨ date.Month = 4 ∨ date.Month = 6 ∨ date.Month = 9 ∨
      date.Month = 11) → date.Day ≠ 31 := by
    intro hmo
    have := (Time.civil_ranges date).2.2.2.2 hmo
    omega
  constructor
  · intro m
    refine ⟨fun h => ?_, fun h => ?_, fun h31 y mo hmo hs he => ?_, fun h31 hmo => ?_⟩
    · rw [MonthlyTransaction.Process_posting_days, if_pos h]
    · rw [MonthlyTransaction.Process_posting_days, if_neg h]
    · rw [MonthlyTransaction.Process_posting_days, if_pos ⟨hs, he, by rw [hday31 y mo hmo, h31]⟩]
    · rw [MonthlyTransaction.Process_posting_days, if_neg]
      intro h
      exact hshort hmo (by rw [h.2.2, h31])
  · intro m
    refine ⟨fun h => ?_, fun h => ?_, fun h31 y mo hmo hs he => ?_, fun h31 hmo => ?_⟩
    · rw [MonthlyTransfer.Process_transfer_days, if_pos h]
    · rw [MonthlyTransfer.Process_transfer_days, if_neg h]
    · rw [MonthlyTransfer.Process_transfer_days, if_pos ⟨hs, he, by rw [hday31 y mo hmo, h31]⟩]
    · rw [MonthlyTransfer.Process_transfer_days, if_neg]
      intro h
      exact hshort hmo (by rw [h.2.2, h31])

/-- Witness of C20: the posting due on the 31st acts on 2018-01-31 and does
not act on 2018-02-28. -/
theorem C20_monthly_items_witness :
    lastDayPosting.Process (Time.Date 2018 1 31) transferScenario =
        transferScenario.Append "A"
          { Date := Time.Date 2018 1 31, Typ := Withdrawal, Description := "Fee",
            Amount := Dollars 10 } ∧
      lastDayPosting.Process (Time.Date 2018 2 28) transferScenario =
        (transferScenario, none) :=
  ⟨((C20_monthly_items (Time.Date 2018 1 31) transferScenario).1 lastDayPosting).1
      (by decide),
    ((C20_monthly_items (Time.Date 2018 2 28) transferScenario).1 lastDayPosting).2.2.2
      (by decide) (by decide)⟩

/-! ## Origination of micro-loans -/

theorem USD.sub_ofInt_zero (x : USD) : x - USD.ofInt 0 = x := by
  apply USD.ext
  have := x.lo; have := x.hi
  simp only [USD.val_sub, USD.val_ofInt, wrap64]; omega

theorem USD.add_ofInt_zero (x : USD) : x + USD.ofInt 0 = x := by
  apply USD.ext
  have := x.lo; have := x.hi
  simp only [USD.val_add, USD.val_ofInt, wrap64]; omega

theorem USD.sub_sub_ofInt (x p : USD) (j : Nat) :
    x - p - USD.ofInt ((j : Int) * p.val) = x - USD.ofInt (((j + 1 : Nat) : Int) * p.val) := by
  apply USD.ext
  have h : ((j + 1 : Nat) : Int) * p.val = (j : Int) * p.val + p.val := by push_cast; ring
  rw [h]
  simp only [USD.val_sub, USD.val_ofInt, wrap64]; omega

theorem USD.add_add_ofInt (x p : USD) (j : Nat) :
    x + p + USD.ofInt ((j : Int) * p.val) = x + USD.ofInt (((j + 1 : Nat) : Int) * p.val) := by
  apply USD.ext
  have h : ((j + 1 : Nat) : Int) * p.val = (j : Int) * p.val + p.val := by push_cast; ring
  rw [h]
  simp only [USD.val_add, USD.val_ofInt, wrap64]; omega

/-- The origination loop with `n` rounds left: what it changes. -/
theorem Peer2PeerAccount.originate_spec (date : Time) (rnd : UpdateDraws) (n : Nat)
    (a : Peer2PeerAccount) :
    ∃ k : Nat, k ≤ n ∧
      (originate date rnd n a).MicroLoans.length = a.MicroLoans.length + k ∧
      (originate date rnd n a).PerInvestment = a.PerInvestment ∧
      (originate date rnd n a).AvailableCash =
        a.AvailableCash - USD.ofInt ((k : Int) * a.PerInvestment.val) ∧
      (originate date rnd n a).OutstandingPrincipal =
        a.OutstandingPrincipal + USD.ofInt ((k : Int) * a.PerInvestment.val) ∧
      (originate date rnd n a).Invested =
        a.Invested + USD.ofInt ((k : Int) * a.PerInvestment.val) ∧
      (∀ j : Nat, j < k →
        a.AvailableCash - USD.ofInt ((j : Int) * a.PerInvestment.val) > a.PerInvestment) ∧
      (k < n → ¬ (originate date rnd n a).AvailableCash > a.PerInvestment) ∧
      (0 ≤ a.PerInvestment → (originate date rnd n a).AvailableCash.val =
        a.AvailableCash.val - (k : Int) * a.PerInvestment.val) := by
  induction n generalizing a with
  | zero =>
    refine ⟨0, le_refl _, ?_, rfl, ?_, ?_, ?_, ?_, ?_, ?_⟩
    · simp [Peer2PeerAccount.originate]
    · simp [Peer2PeerAccount.originate, USD.sub_ofInt_zero]
    · simp [Peer2PeerAccount.originate, USD.add_ofInt_zero]
    · simp [Peer2PeerAccount.originate, USD.add_ofInt_zero]
    · intro j hj; omega
    · intro h; omega
    · intro _; simp [Peer2PeerAccount.originate]
  | succ n ih =>
    by_cases hc : a.AvailableCash > a.PerInvestment
    · obtain ⟨k, hk, h1, h2, h3, h4, h5, h6, h7, h8⟩ :=
        ih (a.originateOne date (rnd.origination a.MicroLoans.length))
      have hstep : originate date rnd (n + 1) a =
          originate date rnd n (a.originateOne date (rnd.origination a.MicroLoans.length)) := by
        simp only [Peer2PeerAccount.originate, hc, if_true]
      have hper : (a.originateOne date (rnd.origination a.MicroLoans.length)).PerInvestment =
          a.PerInvestment := rfl
      have hac : (a.originateOne date (rnd.origination a.MicroLoans.length)).AvailableCash =
          a.AvailableCash - a.PerInvestment := rfl
      have hop : (a.originateOne date (rnd.origination a.MicroLoans.length)).OutstandingPrincipal =
          a.OutstandingPrincipal + a.PerInvestment := rfl
      have hinv : (a.originateOne date (rnd.origination a.MicroLoans.length)).Invested =
          a.Invested + a.PerInvestment := rfl
      have hlen : (a.originateOne date (rnd.origination a.MicroLoans.length)).MicroLoans.length =
          a.MicroLoans.length + 1 := by
        simp [Peer2PeerAccount.originateOne]
      rw [hper] at h2 h3 h4 h5 h6 h7 h8
      rw [hac] at h3 h6 h8
      rw [hop] at h4
      rw [hinv] at h5
      rw [hlen] at h1
      refine ⟨k + 1, by omega, ?_, ?_, ?_, ?_, ?_, ?_, ?_, ?_⟩
      · rw [hstep, h1]; omega
      · rw [hstep, h2]
      · rw [hstep, h3, USD.sub_sub_ofInt]
      · rw [hstep, h4, USD.add_add_ofInt]
      · rw [hstep, h5, USD.add_add_ofInt]
      · intro j hj
        cases j with
        | zero =>
          rw [show ((0 : Nat) : Int) * a.PerInvestment.val = 0 by simp, USD.sub_ofInt_zero]
          exact hc
        | succ i =>
          rw [← USD.sub_sub_ofInt]
          exact h6 i (by omega)
      · intro hlt
        rw [hstep]
        exact h7 (by omega)
      · intro hp
        rw [hstep, h8 hp]
        have hcv : a.PerInvestment.val < a.AvailableCash.val := hc
        have hpv : (0 : USD).val ≤ a.PerInvestment.val := hp
        rw [USD.val_zero] at hpv
        have := a.AvailableCash.hi
        have e : (a.AvailableCash - a.PerInvestment).val =
            a.AvailableCash.val - a.PerInvestment.val := by
          simp only [USD.val_sub, wrap64]; omega
        rw [e]; push_cast; ring
    · have hstep : originate date rnd (n + 1) a = a := by
        simp only [Peer2PeerAccount.originate, hc, if_false]
      refine ⟨0, by omega, ?_, ?_, ?_, ?_, ?_, ?_, ?_, ?_⟩
      · rw [hstep]; rfl
      · rw [hstep]
      · rw [hstep]; simp [USD.sub_ofInt_zero]
      · rw [hstep]; simp [USD.add_ofInt_zero]
      · rw [hstep]; simp [USD.add_ofInt_zero]
      · intro j hj; omega
      · intro _; rw [hstep]; exact hc
      · intro _; rw [hstep]; simp

theorem Peer2PeerAccount.processLoans_length (date : Time) (rnd : UpdateDraws)
    (loans : List MicroLoan) (i : Nat) (acct : Peer2PeerAccount) :
    (processLoans date rnd i loans acct).1.length = loans.length := by
  induction loans generalizing i acct with
  | nil => rfl
  | cons loan rest ih =>
    unfold Peer2PeerAccount.processLoans
    simp only [List.length_cons, ih]

theorem Peer2PeerAccount.Update_loans_length (a : Peer2PeerAccount) (date : Time)
    (rnd : UpdateDraws) :
    (a.Update date rnd).1.MicroLoans.length = (a.afterOrigination date rnd).MicroLoans.length := by
  unfold Peer2PeerAccount.Update Peer2PeerAccount.afterOrigination
  simp only
  split <;> exact Peer2PeerAccount.processLoans_length _ _ _ _ _

/-- C15. For every investor account and date, one `Update` originates
`k ≤ 85` new micro-loans; the origination loop runs exactly while
`AvailableCash > PerInvestment` (strictly) and fewer than 85 loans were
originated in this call; at the end of the loop `AvailableCash` is lower by
`k * PerInvestment`, `OutstandingPrincipal` and `Invested` are higher by
`k * PerInvestment` each (in `USD` arithmetic; the cash exactly, as integers,
when `PerInvestment ≥ 0`). -/
theorem C15_origination (a : Peer2PeerAccount) (date : Time) (rnd : UpdateDraws) :
    a.originated date rnd ≤ 85 ∧
      (a.Update date rnd).1.MicroLoans.length =
        a.MicroLoans.length + a.originated date rnd ∧
      (a.afterOrigination date rnd).MicroLoans.length =
        a.MicroLoans.length + a.originated date rnd ∧
      (a.afterOrigination date rnd).PerInvestment = a.PerInvestment ∧
      (a.afterOrigination date rnd).AvailableCash =
        a.AvailableCash - USD.ofInt ((a.originated date rnd : Int) * a.PerInvestment.val) ∧
      (a.afterOrigination date rnd).OutstandingPrincipal =
        a.OutstandingPrincipal +
          USD.ofInt ((a.originated date rnd : Int) * a.PerInvestment.val) ∧
      (a.afterOrigination date rnd).Invested =
        a.Invested + USD.ofInt ((a.originated date rnd : Int) * a.PerInvestment.val) ∧
      (∀ j : Nat, j < a.originated date rnd →
        a.AvailableCash - USD.ofInt ((j : Int) * a.PerInvestment.val) > a.PerInvestment) ∧
      (a.originated date rnd < 85 →
        ¬ (a.afterOrigination date rnd).AvailableCash > a.PerInvestment) ∧
      (0 ≤ a.PerInvestment → (a.afterOrigination date rnd).AvailableCash.val =
        a.AvailableCash.val - (a.originated date rnd : Int) * a.PerInvestment.val) := by
  obtain ⟨k, hk, h1, h2, h3, h4, h5, h6, h7, h8⟩ :=
    Peer2PeerAccount.originate_spec date rnd 85
      ((a.broadcastMonthly date).1.broadcastDaily date).1
  have hb : ∀ (f : Peer2PeerAccount → USD),
      (f = Peer2PeerAccount.PerInvestment ∨ f = Peer2PeerAccount.AvailableCash ∨
        f = Peer2PeerAccount.OutstandingPrincipal ∨ f = Peer2PeerAccount.Invested) →
      f ((a.broadcastMonthly date).1.broadcastDaily date).1 = f a := by
    intro f hf
    unfold Peer2PeerAccount.broadcastDaily Peer2PeerAccount.broadcastMonthly
    rcases hf with rfl | rfl | rfl | rfl <;> split <;> rfl
  have hbl : ((a.broadcastMonthly date).1.broadcastDaily date).1.MicroLoans = a.MicroLoans := by
    unfold Peer2PeerAccount.broadcastDaily Peer2PeerAccount.broadcastMonthly
    split <;> rfl
  rw [hb _ (Or.inl rfl)] at h2 h3 h4 h5 h6 h7 h8
  rw [hb _ (Or.inr (Or.inl rfl))] at h3 h6 h8
  rw [hb _ (Or.inr (Or.inr (Or.inl rfl)))] at h4
  rw [hb _ (Or.inr (Or.inr (Or.inr rfl)))] at h5
  rw [hbl] at h1
  have hk' : a.originated date rnd = k := by
    unfold Peer2PeerAccount.originated
    rw [Peer2PeerAccount.Update_loans_length]
    unfold Peer2PeerAccount.afterOrigination
    rw [h1]; omega
  rw [hk']
  refine ⟨hk, ?_, h1, h2, h3, h4, h5, h6, h7, h8⟩
  rw [Peer2PeerAccount.Update_loans_length]
  exact h1

set_option maxRecDepth 1000000 in
/-- Witness of C15: a fresh account with $100,000 in cash and $25 per
investment originates 85 loans in one `Update`; the cash falls by exactly
$2,125 and the outstanding principal rises by $2,125, also at the end of the
`Update`. -/
theorem C15_origination_witness :
    originationScenario.originated (Time.Date 2018 1 1) halfDraws = 85 ∧
      (originationScenario.afterOrigination (Time.Date 2018 1 1) halfDraws).AvailableCash.val =
        originationScenario.AvailableCash.val - 212500 ∧
      (originationScenario.Update (Time.Date 2018 1 1) halfDraws).1.AvailableCash =
        Dollars 100000 - Dollars 2125 ∧
      (originationScenario.Update (Time.Date 2018 1 1) halfDraws).1.OutstandingPrincipal =
        Dollars 2125 :=
  have h := C15_origination originationScenario (Time.Date 2018 1 1) halfDraws
  have hk : originationScenario.originated (Time.Date 2018 1 1) halfDraws = 85 := by decide!
  ⟨hk, by rw [h.2.2.2.2.2.2.2.2.2 (by decide), hk]; decide, by decide!, by decide!⟩

/-! ## Repayment of a micro-loan -/

/-- A payment on the pay day of a loan with positive outstanding principal,
when the draw rules out a charge-off. -/
theorem MicroLoan.Process_on_pay_day (m : MicroLoan) (acct : Peer2PeerAccount)
    (rnd : PaymentDraw) (hpos : 0 < m.OutstandingPrincipal)
    (hno : ¬ rnd.chargeOff < 5 / 1000) :
    (m.Process m.PayDay acct rnd).1.OutstandingPrincipal =
        m.OutstandingPrincipal - m.MonthlyPrincipal ∧
      (m.Process m.PayDay acct rnd).1.MonthlyPrincipal = m.MonthlyPrincipal ∧
      (m.Process m.PayDay acct rnd).2.1.Ledger = acct.Ledger ++
        [{ Date := m.PayDay, Typ := MonthlyPayment
           Description := "Payment on loan #" ++ toString m.ID
           Amount := m.MonthlyInterest + m.MonthlyPrincipal }] ∧
      (m.Process m.PayDay acct rnd).2.1.OutstandingPrincipal =
        acct.OutstandingPrincipal - m.MonthlyPrincipal := by
  have hd : equalDates m.PayDay m.PayDay = true := (equalDates_iff _ _).mpr rfl
  have hpos' : m.OutstandingPrincipal > 0 := hpos
  unfold MicroLoan.Process
  simp only [hpos', hd, hno, if_true, if_false]
  rw [Peer2PeerAccount.Append_MonthlyPayment _ _ rfl]
  exact ⟨rfl, rfl, rfl, rfl⟩

/-- Payments of 69 cents in a row, while the outstanding principal stays
positive before each of them. -/
theorem MicroLoan.payOnTime_spec (rnd : PaymentDraw) (hno : ¬ rnd.chargeOff < 5 / 1000)
    (n : Nat) (m : MicroLoan) (acct : Peer2PeerAccount) (x : Int)
    (hmp : m.MonthlyPrincipal.val = 69) (hx : m.OutstandingPrincipal.val = x)
    (hn : 69 * (n : Int) < x + 69) :
    (MicroLoan.payOnTime rnd n (m, acct)).1.OutstandingPrincipal.val = x - 69 * (n : Int) ∧
      (MicroLoan.payOnTime rnd n (m, acct)).2.Ledger.length = acct.Ledger.length + n := by
  induction n generalizing m acct x with
  | zero => simp [MicroLoan.payOnTime, hx]
  | succ k ih =>
    have hxpos : 0 < x := by push_cast at hn; omega
    have hpos : 0 < m.OutstandingPrincipal := by
      show (0 : USD).val < m.OutstandingPrincipal.val
      rw [USD.val_zero, hx]; exact hxpos
    obtain ⟨p1, p2, p3, _⟩ := MicroLoan.Process_on_pay_day m acct rnd hpos hno
    have hhi := m.OutstandingPrincipal.hi
    have hx' : (m.Process m.PayDay acct rnd).1.OutstandingPrincipal.val = x - 69 := by
      rw [p1]
      simp only [USD.val_sub, wrap64, hmp]; omega
    have := ih (m.Process m.PayDay acct rnd).1 (m.Process m.PayDay acct rnd).2.1 (x - 69)
      (by rw [p2]; exact hmp) hx' (by push_cast at hn; omega)
    simp only [MicroLoan.payOnTime]
    refine ⟨by rw [this.1]; push_cast; ring, ?_⟩
    rw [this.2, p3]
    simp only [List.length_append, List.length_singleton]
    omega

set_option maxRecDepth 1000000 in
/-- C16, at the input where it fails. A micro-loan originated with a
per-investment amount of $25.00 has a monthly principal of 69 cents
(`USD(25 / 36 * 100)`, truncated) and an outstanding principal of 2500 cents;
paid on every pay day without a charge-off, its outstanding principal is 16
cents after the 36th payment, a 37th payment is posted, and the outstanding
principal is then -53 cents. -/
theorem C16_principal_left_after_36_payments :
    (∀ (a : Peer2PeerAccount) (date : Time) (d : OriginationDraw),
        a.PerInvestment = Dollars 25 →
        ∃ m : MicroLoan, (a.originateOne date d).MicroLoans = a.MicroLoans ++ [m] ∧
          m.MonthlyPrincipal.val = 69 ∧ m.OutstandingPrincipal.val = 2500) ∧
      (∀ (m : MicroLoan) (acct : Peer2PeerAccount) (rnd : PaymentDraw),
        m.MonthlyPrincipal.val = 69 → m.OutstandingPrincipal.val = 2500 →
        ¬ rnd.chargeOff < 5 / 1000 →
        (MicroLoan.payOnTime rnd 36 (m, acct)).1.OutstandingPrincipal.val = 16 ∧
          (MicroLoan.payOnTime rnd 37 (m, acct)).1.OutstandingPrincipal.val = -53 ∧
          (MicroLoan.payOnTime rnd 37 (m, acct)).2.Ledger.length = acct.Ledger.length + 37) ∧
      ((originationScenario.originateOne (Time.Date 2018 1 1)
          (halfDraws.origination 0)).MicroLoans.map
            (fun m => ((MicroLoan.payOnTime (halfDraws.payment 0) 36
                (m, originationScenario)).1.OutstandingPrincipal.val,
              (MicroLoan.payOnTime (halfDraws.payment 0) 37
                (m, originationScenario)).1.OutstandingPrincipal.val))) = [(16, -53)] := by
  refine ⟨?_, ?_, ?_⟩
  · intro a date d hp
    refine ⟨_, rfl, ?_, ?_⟩
    · simp only [hp]
      decide!
    · simp only [hp]
      decide!
  · intro m acct rnd hmp hop hno
    have h36 := MicroLoan.payOnTime_spec rnd hno 36 m acct 2500 hmp hop (by norm_num)
    have h37 := MicroLoan.payOnTime_spec rnd hno 37 m acct 2500 hmp hop (by norm_num)
    refine ⟨by rw [h36.1]; norm_num, by rw [h37.1]; norm_num, h37.2⟩
  · decide!

/-! ## Loan accounts: the repayment schedule -/

theorem roundQ_close (x : ℚ) : (roundQ x : ℚ) - x ≤ 1 / 2 ∧ x - (roundQ x : ℚ) ≤ 1 / 2 := by
  unfold roundQ
  split
  · have h1 := Int.floor_le (x + 1 / 2)
    have h2 := Int.lt_floor_add_one (x + 1 / 2)
    constructor <;> linarith
  · have h1 := Int.floor_le (-x + 1 / 2)
    have h2 := Int.lt_floor_add_one (-x + 1 / 2)
    push_cast
    constructor <;> linarith

/-- Two amounts that add up to a whole number of cents round to cents that
add up to it within one cent. -/
theorem roundQ_pair (N : Int) (y z : ℚ) (h : y + z = (N : ℚ)) :
    -1 ≤ roundQ y + roundQ z - N ∧ roundQ y + roundQ z - N ≤ 1 := by
  obtain ⟨a1, a2⟩ := roundQ_close y
  obtain ⟨b1, b2⟩ := roundQ_close z
  constructor
  · have : ((-1 : Int) : ℚ) ≤ ((roundQ y + roundQ z - N : Int) : ℚ) := by
      push_cast; linarith
    exact_mod_cast this
  · have : ((roundQ y + roundQ z - N : Int) : ℚ) ≤ ((1 : Int) : ℚ) := by
      push_cast; linarith
    exact_mod_cast this

/-- Rounding `k` times an amount against `k` times the rounded amount, for
`k = 2 * h`: the difference is at most `h` cents. -/
theorem roundQ_mul_even (x : ℚ) (h : Int) (h0 : 0 ≤ h) :
    -h ≤ roundQ (x * ((2 * h : Int) : ℚ)) - 2 * h * roundQ x ∧
      roundQ (x * ((2 * h : Int) : ℚ)) - 2 * h * roundQ x ≤ h := by
  obtain ⟨a1, a2⟩ := roundQ_close x
  obtain ⟨b1, b2⟩ := roundQ_close (x * ((2 * h : Int) : ℚ))
  have hq : (0 : ℚ) ≤ (h : ℚ) := by exact_mod_cast h0
  have e1 : ((roundQ x : ℚ) - x) * (2 * (h : ℚ)) ≤ 1 / 2 * (2 * (h : ℚ)) :=
    mul_le_mul_of_nonneg_right a1 (by linarith)
  have e2 : (x - (roundQ x : ℚ)) * (2 * (h : ℚ)) ≤ 1 / 2 * (2 * (h : ℚ)) :=
    mul_le_mul_of_nonneg_right a2 (by linarith)
  push_cast at b1 b2
  constructor
  · have : ((-h - 1 : Int) : ℚ) < ((roundQ (x * ((2 * h : Int) : ℚ)) - 2 * h * roundQ x : Int) : ℚ) := by
      push_cast; nlinarith
    have := Int.cast_lt.mp this
    omega
  · have : ((roundQ (x * ((2 * h : Int) : ℚ)) - 2 * h * roundQ x : Int) : ℚ) < ((h + 1 : Int) : ℚ) := by
      push_cast; nlinarith
    have := Int.cast_lt.mp this
    omega

/-- Rounded parts of `p` payments against `p` rounded payments, for
`p ≤ 2 * h - 1`: within `h` cents. -/
theorem roundQ_parts (x : ℚ) (p h : Int) (y z : ℚ) (hp0 : 0 ≤ p) (hp : p ≤ 2 * h - 1)
    (hyz : y + z = x * (p : ℚ)) :
    -h ≤ roundQ y + roundQ z - p * roundQ x ∧ roundQ y + roundQ z - p * roundQ x ≤ h := by
  obtain ⟨a1, a2⟩ := roundQ_close x
  obtain ⟨b1, b2⟩ := roundQ_close y
  obtain ⟨c1, c2⟩ := roundQ_close z
  have hq : (0 : ℚ) ≤ (p : ℚ) := by exact_mod_cast hp0
  have hpq : (p : ℚ) ≤ 2 * (h : ℚ) - 1 := by exact_mod_cast hp
  have e1 : ((roundQ x : ℚ) - x) * (p : ℚ) ≤ 1 / 2 * (p : ℚ) :=
    mul_le_mul_of_nonneg_right a1 hq
  have e2 : (x - (roundQ x : ℚ)) * (p : ℚ) ≤ 1 / 2 * (p : ℚ) :=
    mul_le_mul_of_nonneg_right a2 hq
  constructor
  · have : ((-h - 1 : Int) : ℚ) < ((roundQ y + roundQ z - p * roundQ x : Int) : ℚ) := by
      push_cast; nlinarith
    have := Int.cast_lt.mp this
    omega
  · have : ((roundQ y + roundQ z - p * roundQ x : Int) : ℚ) < ((h + 1 : Int) : ℚ) := by
      push_cast; nlinarith
    have := Int.cast_lt.mp this
    omega

theorem LoanAccount.Append_onSchedule (c : ℚ) (years : Int) (l : LoanAccount)
    (tx : Transaction) (hy : 1 ≤ years)
    (hfit : |roundQ (c * ((years * 12 : Int) : ℚ) * 100)| + 12 * years ≤ 9000000000000000000)
    (h : l.OnSchedule c years) : (l.Append tx).1.OnSchedule c years := by
  by_cases hr : l.RemainingBalance ≤ 0
  · rw [LoanAccount.Append_paid_off l tx hr]; exact h
  · by_cases hd : tx.Typ = Deposit
    · have hR := roundQ_mul_even (c * 100) (6 * years) (by omega)
      have e12 : (2 * (6 * years) : Int) = years * 12 := by ring
      have exn : c * 100 * ((2 * (6 * years) : Int) : ℚ) =
          c * ((years * 12 : Int) : ℚ) * 100 := by rw [e12]; ring
      rw [exn] at hR
      have hfit' := abs_le.mp (show |roundQ (c * ((years * 12 : Int) : ℚ) * 100)| ≤
        9000000000000000000 - 12 * years by omega)
      by_cases hm : l.MonthsPaid < l.Periods
      · have hform : (l.Append tx).1 =
            { l with
              Ledger := l.Ledger ++ [tx]
              RemainingBalance := l.RemainingBalance - l.MonthlyPayment
              InterestPaid := USD.ofInt (roundQ (((l.LoanAmount.Float64 * l.MonthlyInterestRate -
                l.MonthlyPayment.Float64) * ((1 + l.MonthlyInterestRate) ^ l.MonthsPaid - 1) /
                l.MonthlyInterestRate + l.MonthlyPayment.Float64 * (l.MonthsPaid : ℚ)) * 100))
              PrincipalPaid := USD.ofInt (roundQ ((l.MonthlyPayment.Float64 * (l.MonthsPaid : ℚ) -
                ((l.LoanAmount.Float64 * l.MonthlyInterestRate -
                l.MonthlyPayment.Float64) * ((1 + l.MonthlyInterestRate) ^ l.MonthsPaid - 1) /
                l.MonthlyInterestRate + l.MonthlyPayment.Float64 * (l.MonthsPaid : ℚ))) * 100))
              MonthsPaid := l.MonthsPaid + 1 } := by
          simp only [LoanAccount.Append, hr, hd, hm, if_true, if_false]
        rw [hform]
        generalize hI : ((l.LoanAmount.Float64 * l.MonthlyInterestRate -
                l.MonthlyPayment.Float64) * ((1 + l.MonthlyInterestRate) ^ l.MonthsPaid - 1) /
                l.MonthlyInterestRate + l.MonthlyPayment.Float64 * (l.MonthsPaid : ℚ)) = I
        have hpair := roundQ_pair (l.MonthlyPayment.val * l.MonthsPaid)
          ((l.MonthlyPayment.Float64 * (l.MonthsPaid : ℚ) - I) * 100) (I * 100)
          (by simp only [USD.Float64]; push_cast; ring)
        have htrack := h.track hm
        have hpay := h.payment
        have hrb : (l.RemainingBalance - l.MonthlyPayment) =
            USD.ofInt (roundQ (c * ((years * 12 : Int) : ℚ) * 100) -
              roundQ (c * 100) * (l.MonthsPaid + 1 - 1)) := by
          rw [htrack]
          apply USD.ext
          have e : roundQ (c * 100) * (l.MonthsPaid + 1 - 1) =
              roundQ (c * 100) * (l.MonthsPaid - 1) + roundQ (c * 100) := by ring
          rw [e]
          simp only [USD.val_sub, USD.val_ofInt, wrap64, hpay]; omega
        refine ⟨h.periods, hpay, ?_, ?_, fun _ => hrb⟩
        · simp only [LoanAccount.scheduleGap, hrb, h.periods, hpay]
          have e : roundQ (c * 100) * (l.MonthsPaid + 1 - 1) =
              l.MonthlyPayment.val * l.MonthsPaid := by rw [hpay]; ring
          rw [e]
          have e2 : roundQ (c * 100) * (years * 12) = 2 * (6 * years) * roundQ (c * 100) := by
            ring
          rw [e2]
          simp only [USD.val_add, USD.val_ofInt, wrap64]
          omega
        · simp only [LoanAccount.scheduleGap, hrb, h.periods, hpay]
          have e : roundQ (c * 100) * (l.MonthsPaid + 1 - 1) =
              l.MonthlyPayment.val * l.MonthsPaid := by rw [hpay]; ring
          rw [e]
          have e2 : roundQ (c * 100) * (years * 12) = 2 * (6 * years) * roundQ (c * 100) := by
            ring
          rw [e2]
          simp only [USD.val_add, USD.val_ofInt, wrap64]
          omega
      · have hform : (l.Append tx).1 =
            { l with
              RemainingBalance := l.RemainingBalance - tx.Amount
              PrincipalPaid := l.PrincipalPaid + tx.Amount
              MonthsPaid := l.MonthsPaid + 1 } := by
          simp only [LoanAccount.Append, hr, hd, hm, if_true, if_false]
        rw [hform]
        have hgap : ({ l with
              RemainingBalance := l.RemainingBalance - tx.Amount
              PrincipalPaid := l.PrincipalPaid + tx.Amount
              MonthsPaid := l.MonthsPaid + 1 } : LoanAccount).scheduleGap = l.scheduleGap := by
          simp only [LoanAccount.scheduleGap]
          congr 1
          simp only [USD.val_add, USD.val_sub, wrap64]; omega
        refine ⟨h.periods, h.payment, by rw [hgap]; exact h.gapLow,
          by rw [hgap]; exact h.gapHigh, fun hlt => ?_⟩
        exfalso
        have : l.MonthsPaid + 1 < l.Periods := hlt
        omega
    · have hr' : ¬ l.RemainingBalance ≤ 0 := hr
      have : l.Append tx = (l, some ErrUnknownTransactionType) := by
        simp only [LoanAccount.Append, hr', hd, if_false]
      rw [this]; exact h

theorem bound_of_mul_bound (m y B : Int) (hy : 1 ≤ y) (h1 : -B ≤ 2 * (6 * y) * m)
    (h2 : 2 * (6 * y) * m ≤ B) : -B ≤ m ∧ m ≤ B := by
  constructor <;> nlinarith

theorem NewLoan_onSchedule (name : String) (P : USD) (apr : ℚ) (years payments : Int)
    (hy : 1 ≤ years) (hp : payments < 12 * years)
    (hfit : |roundQ (loanPaymentQ P apr years * ((years * 12 : Int) : ℚ) * 100)| + 12 * years ≤
      9000000000000000000) :
    (NewLoan name P apr years payments).OnSchedule (loanPaymentQ P apr years) years := by
  generalize hc : loanPaymentQ P apr years = c at hfit ⊢
  have hR := roundQ_mul_even (c * 100) (6 * years) (by omega)
  have e12 : (2 * (6 * years) : Int) = years * 12 := by ring
  have exn : c * 100 * ((2 * (6 * years) : Int) : ℚ) =
      c * ((years * 12 : Int) : ℚ) * 100 := by rw [e12]; ring
  rw [exn] at hR
  have hfit' := abs_le.mp (show |roundQ (c * ((years * 12 : Int) : ℚ) * 100)| ≤
    9000000000000000000 - 12 * years by omega)
  have hm := bound_of_mul_bound (roundQ (c * 100)) years 9000000000000000000 hy
    (by omega) (by omega)
  have hmp : (USD.ofInt (roundQ (c * 100))).val = roundQ (c * 100) := by
    rw [USD.val_ofInt]; exact wrap64_of_range (by omega) (by omega)
  have e2 : roundQ (c * 100) * (years * 12) = 2 * (6 * years) * roundQ (c * 100) := by ring
  by_cases hpos : payments > 0
  · have hform : NewLoan name P apr years payments =
        { Name := name
          LoanAmount := P
          Periods := years * 12
          MonthlyPayment := USD.ofInt (roundQ (c * 100))
          MonthlyInterestRate := apr / 100 / 12
          InterestRate := apr
          InterestPaid := USD.ofInt (roundQ (((apr / 100 / 12 * P.Float64 - c) *
            ((1 + apr / 100 / 12) ^ payments - 1) / (apr / 100 / 12) + c * (payments : ℚ)) * 100))
          PrincipalPaid := USD.ofInt (roundQ ((c * (payments : ℚ) -
            ((apr / 100 / 12 * P.Float64 - c) *
            ((1 + apr / 100 / 12) ^ payments - 1) / (apr / 100 / 12) + c * (payments : ℚ))) * 100))
          MonthsPaid := 1 + payments
          RemainingBalance := USD.ofInt (roundQ (c * ((years * 12 : Int) : ℚ) * 100)) -
            USD.ofInt ((USD.ofInt (roundQ (c * 100))).val * payments)
          Ledger := [] } := by
      rw [← hc]
      simp only [NewLoan, loanPaymentQ, hpos, if_true]
    rw [hform]
    generalize ((apr / 100 / 12 * P.Float64 - c) *
            ((1 + apr / 100 / 12) ^ payments - 1) / (apr / 100 / 12) + c * (payments : ℚ)) = I
    have hparts := roundQ_parts (c * 100) payments (6 * years)
      ((c * (payments : ℚ) - I) * 100) (I * 100) (by omega) (by omega) (by ring)
    refine ⟨rfl, hmp, ?_, ?_, fun _ => ?_⟩
    · simp only [LoanAccount.scheduleGap, hmp, e2]
      have e3 : payments * roundQ (c * 100) = roundQ (c * 100) * payments := by ring
      rw [e3] at hparts
      simp only [USD.val_add, USD.val_sub, USD.val_ofInt, wrap64]
      omega
    · simp only [LoanAccount.scheduleGap, hmp, e2]
      have e3 : payments * roundQ (c * 100) = roundQ (c * 100) * payments := by ring
      rw [e3] at hparts
      simp only [USD.val_add, USD.val_sub, USD.val_ofInt, wrap64]
      omega
    · apply USD.ext
      have e4 : roundQ (c * 100) * (1 + payments - 1) = roundQ (c * 100) * payments := by ring
      simp only [e4, hmp]
      simp only [USD.val_sub, USD.val_ofInt, wrap64]
      omega
  · have hform : NewLoan name P apr years payments =
        { Name := name
          LoanAmount := P
          Periods := years * 12
          MonthlyPayment := USD.ofInt (roundQ (c * 100))
          MonthlyInterestRate := apr / 100 / 12
          InterestRate := apr
          InterestPaid := 0
          PrincipalPaid := 0
          MonthsPaid := 1
          RemainingBalance := USD.ofInt (roundQ (c * ((years * 12 : Int) : ℚ) * 100))
          Ledger := [] } := by
      rw [← hc]
      simp only [NewLoan, loanPaymentQ, hpos, if_false]
    rw [hform]
    refine ⟨rfl, hmp, ?_, ?_, fun _ => ?_⟩
    · simp only [LoanAccount.scheduleGap, hmp, e2]
      simp only [USD.val_add, USD.val_ofInt, USD.val_zero, wrap64]
      omega
    · simp only [LoanAccount.scheduleGap, hmp, e2]
      simp only [USD.val_add, USD.val_ofInt, USD.val_zero, wrap64]
      omega
    · apply USD.ext
      simp only [USD.val_ofInt, wrap64]
      have e4 : roundQ (c * 100) * ((1 : Int) - 1) = 0 := by ring
      rw [e4]
      omega

theorem LoanAccount.appendAll_onSchedule (c : ℚ) (years : Int) (txs : List Transaction)
    (l : LoanAccount) (hy : 1 ≤ years)
    (hfit : |roundQ (c * ((years * 12 : Int) : ℚ) * 100)| + 12 * years ≤ 9000000000000000000)
    (h : l.OnSchedule c years) : (l.appendAll txs).OnSchedule c years := by
  induction txs generalizing l with
  | nil => exact h
  | cons tx rest ih => exact ih _ (LoanAccount.Append_onSchedule c years l tx hy hfit h)

/-- The schedule with `float64` taken as exact. For every loan built by
`NewLoan` for at least one year, with fewer payments already made than the
loan has periods and a total repayment that fits in 64 bits, in its initial
state and after every sequence of `Append` calls,
`PrincipalPaid + InterestPaid + RemainingBalance` differs from
`MonthlyPayment * Periods` by at most `Periods` cents. -/
theorem NewLoan_schedule_gap_bound (name : String) (P : USD) (apr : ℚ) (years payments : Int)
    (txs : List Transaction) (hy : 1 ≤ years) (hp : payments < 12 * years)
    (hfit : |roundQ (loanPaymentQ P apr years * ((years * 12 : Int) : ℚ) * 100)| + 12 * years ≤
      9000000000000000000) :
    |((NewLoan name P apr years payments).appendAll txs).scheduleGap| ≤
      ((NewLoan name P apr years payments).appendAll txs).Periods := by
  have h := LoanAccount.appendAll_onSchedule (loanPaymentQ P apr years) years txs _ hy hfit
    (NewLoan_onSchedule name P apr years payments hy hp hfit)
  rw [h.periods, abs_le]
  exact ⟨h.gapLow, h.gapHigh⟩

set_option maxRecDepth 1000000 in
/-- The schedule beyond the term, with `float64` taken as exact: `NewLoan` for
$10,000 at 6% over 5 years with 1000 payments already made gives a loan of 60
periods whose sum of principal paid, interest paid and remaining balance is
210 cents below `MonthlyPayment * Periods`. -/
theorem NewLoan_gap_beyond_term :
    (NewLoan "Loan" (Dollars 10000) 6 5 1000).Periods = 60 ∧
      (NewLoan "Loan" (Dollars 10000) 6 5 1000).scheduleGap = -210 ∧
      ¬ |(NewLoan "Loan" (Dollars 10000) 6 5 1000).scheduleGap| ≤
        (NewLoan "Loan" (Dollars 10000) 6 5 1000).Periods := by
  refine ⟨by decide!, by decide!, by decide!⟩

/-! ## Transfers and the sign of amounts -/

theorem Account.Append_ledger_cases (a : Account) (tx : Transaction) :
    (a.Append tx).1.Ledger = a.Ledger ∨ (a.Append tx).1.Ledger = a.Ledger ++ [tx] := by
  cases a with
  | basic a =>
    simp only [Account.Append, Account.Ledger, BankAccount.Append]
    split
    · exact Or.inr rfl
    · split
      · split
        · exact Or.inl rfl
        · exact Or.inr rfl
      · exact Or.inl rfl
  | loan a =>
    simp only [Account.Append, Account.Ledger, LoanAccount.Append]
    split
    · exact Or.inl rfl
    · split
      · split
        · exact Or.inr rfl
        · exact Or.inl rfl
      · exact Or.inl rfl
  | investor a =>
    simp only [Account.Append, Account.Ledger, Peer2PeerAccount.Append]
    split
    · exact Or.inr rfl
    · split
      · split
        · exact Or.inl rfl
        · exact Or.inr rfl
      · split
        · exact Or.inr rfl
        · exact Or.inl rfl

theorem Account.Append_nonNegative (a : Account) (tx : Transaction)
    (h : a.NonNegative = true) (hx : (0 : USD) ≤ tx.Amount) :
    (a.Append tx).1.NonNegative = true := by
  unfold Account.NonNegative at h ⊢
  rcases Account.Append_ledger_cases a tx with e | e
  · rw [e]; exact h
  · rw [e, List.all_append, h]
    simp [hx]

theorem AccountMap.all_get (p : Account → Bool) (m : AccountMap) (name : String)
    (acct : Account) (h : List.all m (fun e => p e.2) = true) (hg : m.get name = some acct) :
    p acct = true := by
  induction m with
  | nil => simp [AccountMap.get] at hg
  | cons e rest ih =>
    obtain ⟨k, v⟩ := e
    simp only [List.all_cons, Bool.and_eq_true] at h
    by_cases hk : k = name
    · simp only [AccountMap.get, hk, if_true, Option.some.injEq] at hg
      rw [← hg]; exact h.1
    · simp only [AccountMap.get, hk, if_false] at hg
      exact ih h.2 hg

theorem AccountMap.all_set (p : Account → Bool) (m : AccountMap) (name : String)
    (acct : Account) (h : List.all m (fun e => p e.2) = true) (ha : p acct = true) :
    List.all (m.set name acct) (fun e => p e.2) = true := by
  induction m with
  | nil => rfl
  | cons e rest ih =>
    obtain ⟨k, v⟩ := e
    simp only [List.all_cons, Bool.and_eq_true] at h
    by_cases hk : k = name
    · simp only [AccountMap.set, hk, if_true, List.all_cons, Bool.and_eq_true]
      exact ⟨ha, h.2⟩
    · simp only [AccountMap.set, hk, if_false, List.all_cons, Bool.and_eq_true]
      exact ⟨h.1, ih h.2⟩

/-- Claim C24, as the code has it. `Transfer` with an amount of at least zero
keeps every ledger free of negative amounts: for every bank whose ledgers hold
only amounts of at least zero, every date, every pair of account names and
every `x ≥ 0`, every ledger entry of every account after
`Transfer(date, src, dst, x)` has an amount of at least zero. -/
theorem C24_transfer_keeps_amounts_non_negative (b : Bank) (date : Time) (src dst : String)
    (x : USD) (hb : b.LedgersNonNegative) (hx : (0 : USD) ≤ x) :
    (b.Transfer date src dst x).1.LedgersNonNegative := by
  unfold Bank.LedgersNonNegative at hb ⊢
  unfold Bank.Transfer
  cases hs : b.Accounts.get src with
  | none => exact hb
  | some fromAccount =>
    cases hd : b.Accounts.get dst with
    | none => exact hb
    | some toAccount =>
      have hf := AccountMap.all_get Account.NonNegative _ _ _ hb hs
      have ht := AccountMap.all_get Account.NonNegative _ _ _ hb hd
      simp only
      split
      · exact hb
      · split
        · exact hb
        · have hw := Account.Append_nonNegative fromAccount
            ⟨date, Withdrawal, Bank.transferDescription src dst, x⟩ hf hx
          have h1 := AccountMap.all_set Account.NonNegative b.Accounts src _ hb hw
          split
          · exact h1
          · apply AccountMap.all_set Account.NonNegative _ dst _ h1
            apply Account.Append_nonNegative _ _ _ hx
            split
            · exact hw
            · exact ht

/-- Witness of C24: the transfer of $40 from `A` to `B`. -/
theorem C24_transfer_keeps_amounts_non_negative_witness :
    (transferScenario.Transfer (Time.Date 2018 3 1) "A" "B" (Dollars 40)).1.LedgersNonNegative :=
  C24_transfer_keeps_amounts_non_negative transferScenario (Time.Date 2018 3 1) "A" "B"
    (Dollars 40) (by decide) (by decide)

/-- Claim C24 fails as stated: in a bank whose ledgers hold only amounts of at
least zero, `Transfer(date, "A", "B", -$50)` passes the funds check and both
validations, returns no error, and leaves a withdrawal of -$50 in the ledger
of `A` and a deposit of -$50 in the ledger of `B`; `A` ends with $150 and `B`
with -$50. -/
theorem C24_counterexample :
    transferScenario.LedgersNonNegative ∧
    (transferScenario.Transfer (Time.Date 2018 3 1) "A" "B" (USD.ofInt (-5000))).2 = none ∧
    ¬ (transferScenario.Transfer (Time.Date 2018 3 1) "A" "B"
        (USD.ofInt (-5000))).1.LedgersNonNegative ∧
    (transferScenario.Transfer (Time.Date 2018 3 1) "A" "B" (USD.ofInt (-5000))).1.balanceOf "A" =
      some (Dollars 150) ∧
    (transferScenario.Transfer (Time.Date 2018 3 1) "A" "B" (USD.ofInt (-5000))).1.balanceOf "B" =
      some (USD.ofInt (-5000)) := by
  decide

/-! ## Investor accounts: outstanding principal -/

theorem loanPrincipal_append_single (l : List MicroLoan) (m : MicroLoan) (x p : USD)
    (h : x = loanPrincipal l) (hp : m.OutstandingPrincipal = p) :
    x + p = loanPrincipal (l ++ [m]) := by
  subst hp
  induction l generalizing x with
  | nil =>
    subst h
    have := m.OutstandingPrincipal.lo; have := m.OutstandingPrincipal.hi
    apply USD.ext
    show (loanPrincipal [] + m.OutstandingPrincipal).val =
      (m.OutstandingPrincipal + loanPrincipal []).val
    rw [USD.add_comm]
  | cons a rest ih =>
    subst h
    have e := congrArg USD.val (ih (loanPrincipal rest) rfl)
    apply USD.ext
    show (a.OutstandingPrincipal + loanPrincipal rest + m.OutstandingPrincipal).val =
      (a.OutstandingPrincipal + loanPrincipal (rest ++ [m])).val
    simp only [USD.val_add, wrap64] at e ⊢; omega

theorem Peer2PeerAccount.Append_principal (a : Peer2PeerAccount) (tx : Transaction) :
    (a.Append tx).1.OutstandingPrincipal = a.OutstandingPrincipal ∧
    (a.Append tx).1.MicroLoans = a.MicroLoans := by
  unfold Peer2PeerAccount.Append
  split
  · exact ⟨rfl, rfl⟩
  · split
    · split
      · exact ⟨rfl, rfl⟩
      · exact ⟨rfl, rfl⟩
    · split
      · exact ⟨rfl, rfl⟩
      · exact ⟨rfl, rfl⟩

theorem Peer2PeerAccount.originate_principal (date : Time) (rnd : UpdateDraws) (n : Nat)
    (a : Peer2PeerAccount) (h : a.OutstandingPrincipal = loanPrincipal a.MicroLoans) :
    (originate date rnd n a).OutstandingPrincipal =
      loanPrincipal (originate date rnd n a).MicroLoans := by
  induction n generalizing a with
  | zero => exact h
  | succ n ih =>
    unfold Peer2PeerAccount.originate
    split
    · apply ih
      unfold Peer2PeerAccount.originateOne
      exact loanPrincipal_append_single a.MicroLoans _ a.OutstandingPrincipal _ h rfl
    · exact h

theorem MicroLoan.chargeOff_principal (m : MicroLoan) (date : Time) (acct : Peer2PeerAccount) :
    (m.chargeOff date acct).2.1.OutstandingPrincipal + m.OutstandingPrincipal =
      acct.OutstandingPrincipal + (m.chargeOff date acct).1.OutstandingPrincipal := by
  have := acct.OutstandingPrincipal.lo; have := acct.OutstandingPrincipal.hi
  have := m.OutstandingPrincipal.lo; have := m.OutstandingPrincipal.hi
  unfold MicroLoan.chargeOff
  rw [Peer2PeerAccount.Append_MonthlyPayment _ _ rfl]
  apply USD.ext
  simp only [USD.val_add, USD.val_sub, USD.val_zero, wrap64]; omega

theorem MicroLoan.Process_principal (m : MicroLoan) (date : Time) (acct : Peer2PeerAccount)
    (rnd : PaymentDraw) :
    (m.Process date acct rnd).2.1.OutstandingPrincipal + m.OutstandingPrincipal =
      acct.OutstandingPrincipal + (m.Process date acct rnd).1.OutstandingPrincipal := by
  unfold MicroLoan.Process
  split
  · split
    · split
      · exact MicroLoan.chargeOff_principal m date acct
      · rw [Peer2PeerAccount.Append_MonthlyPayment _ _ rfl]
        apply USD.ext
        simp only [USD.val_add, USD.val_sub, wrap64]; omega
    · rfl
  · rfl

theorem Peer2PeerAccount.processLoans_principal (date : Time) (rnd : UpdateDraws)
    (loans : List MicroLoan) (i : Nat) (acct : Peer2PeerAccount) :
    (processLoans date rnd i loans acct).2.OutstandingPrincipal + loanPrincipal loans =
      acct.OutstandingPrincipal + loanPrincipal (processLoans date rnd i loans acct).1 := by
  induction loans generalizing i acct with
  | nil => rfl
  | cons loan rest ih =>
    unfold Peer2PeerAccount.processLoans
    have e1 := congrArg USD.val (MicroLoan.Process_principal loan date acct (rnd.payment i))
    have e2 := congrArg USD.val (ih (i + 1) (loan.Process date acct (rnd.payment i)).2.1)
    apply USD.ext
    simp only [loanPrincipal, USD.val_add, wrap64] at e1 e2 ⊢
    omega

theorem Peer2PeerAccount.Update_principal (a : Peer2PeerAccount) (date : Time) (rnd : UpdateDraws)
    (h : a.OutstandingPrincipal = loanPrincipal a.MicroLoans) :
    (a.Update date rnd).1.OutstandingPrincipal = loanPrincipal (a.Update date rnd).1.MicroLoans := by
  have h1 : (a.broadcastMonthly date).1.OutstandingPrincipal =
      loanPrincipal (a.broadcastMonthly date).1.MicroLoans := by
    unfold Peer2PeerAccount.broadcastMonthly
    split
    · exact h
    · exact h
  have h2 : ((a.broadcastMonthly date).1.broadcastDaily date).1.OutstandingPrincipal =
      loanPrincipal ((a.broadcastMonthly date).1.broadcastDaily date).1.MicroLoans := h1
  have h3 := Peer2PeerAccount.originate_principal date rnd 85 _ h2
  have h4 := Peer2PeerAccount.processLoans_principal date rnd
    (originate date rnd 85 ((a.broadcastMonthly date).1.broadcastDaily date).1).MicroLoans 0
    (originate date rnd 85 ((a.broadcastMonthly date).1.broadcastDaily date).1)
  have h5 : (processLoans date rnd 0
      (originate date rnd 85 ((a.broadcastMonthly date).1.broadcastDaily date).1).MicroLoans
      (originate date rnd 85 ((a.broadcastMonthly date).1.broadcastDaily date).1)).2.OutstandingPrincipal =
      loanPrincipal (processLoans date rnd 0
      (originate date rnd 85 ((a.broadcastMonthly date).1.broadcastDaily date).1).MicroLoans
      (originate date rnd 85 ((a.broadcastMonthly date).1.broadcastDaily date).1)).1 := by
    have e3 := congrArg USD.val h3
    have e4 := congrArg USD.val h4
    have := (processLoans date rnd 0
      (originate date rnd 85 ((a.broadcastMonthly date).1.broadcastDaily date).1).MicroLoans
      (originate date rnd 85 ((a.broadcastMonthly date).1.broadcastDaily date).1)).2.OutstandingPrincipal.lo
    have := (processLoans date rnd 0
      (originate date rnd 85 ((a.broadcastMonthly date).1.broadcastDaily date).1).MicroLoans
      (originate date rnd 85 ((a.broadcastMonthly date).1.broadcastDaily date).1)).2.OutstandingPrincipal.hi
    have := (loanPrincipal (processLoans date rnd 0
      (originate date rnd 85 ((a.broadcastMonthly date).1.broadcastDaily date).1).MicroLoans
      (originate date rnd 85 ((a.broadcastMonthly date).1.broadcastDaily date).1)).1).lo
    have := (loanPrincipal (processLoans date rnd 0
      (originate date rnd 85 ((a.broadcastMonthly date).1.broadcastDaily date).1).MicroLoans
      (originate date rnd 85 ((a.broadcastMonthly date).1.broadcastDaily date).1)).1).hi
    apply USD.ext
    simp only [USD.val_add, wrap64] at e3 e4 ⊢
    omega
  unfold Peer2PeerAccount.Update
  simp only
  split
  · exact h5
  · exact h5

theorem Peer2PeerAccount.run_principal (ops : List InvestorOp) (a : Peer2PeerAccount)
    (h : a.OutstandingPrincipal = loanPrincipal a.MicroLoans) :
    (a.run ops).OutstandingPrincipal = loanPrincipal (a.run ops).MicroLoans := by
  induction ops generalizing a with
  | nil => exact h
  | cons op rest ih =>
    unfold Peer2PeerAccount.run
    rw [List.foldl_cons]
    apply ih
    cases op with
    | append tx =>
      have e := Peer2PeerAccount.Append_principal a tx
      show (a.Append tx).1.OutstandingPrincipal = loanPrincipal (a.Append tx).1.MicroLoans
      rw [e.1, e.2]; exact h
    | update date rnd => exact Peer2PeerAccount.Update_principal a date rnd h

/-- Claim C26. Every investor account reached from `NewPeer2PeerAccount` by
`Append` calls and `Update` ticks, whatever the random draws, has its
`OutstandingPrincipal` equal to the sum of the `OutstandingPrincipal` of all
its micro-loans (the sum taken in `USD` arithmetic). -/
theorem C26_outstanding_principal_is_sum_of_loans (name : String) (date : Time)
    (init per : USD) (ops : List InvestorOp) :
    ((NewPeer2PeerAccount name date init per).run ops).OutstandingPrincipal =
      loanPrincipal ((NewPeer2PeerAccount name date init per).run ops).MicroLoans :=
  Peer2PeerAccount.run_principal ops _ rfl

/-! ## Loan payments from a basic account -/

/-- What a `Transfer` that returns no error does between a basic source and a
loan destination. -/
theorem Bank.Transfer_basic_loan (b : Bank) (date : Time) (A B : String) (a0 : BankAccount)
    (l0 : LoanAccount) (x : USD) (hA : b.Accounts.get A = some (.basic a0))
    (hB : b.Accounts.get B = some (.loan l0)) (hok : (b.Transfer date A B x).2 = none) :
    a0.Balance > x ∧
    (l0.Append ⟨date, Deposit, Bank.transferDescription A B, x⟩).2 = none ∧
    (b.Transfer date A B x).1.Accounts.get A = some (.basic
      { a0 with Ledger := a0.Ledger ++ [⟨date, Withdrawal, Bank.transferDescription A B, x⟩],
                Balance := a0.Balance - x }) ∧
    (b.Transfer date A B x).1.Accounts.get B = some (.loan
      (l0.Append ⟨date, Deposit, Bank.transferDescription A B, x⟩).1) := by
  have hAB : A ≠ B := by
    intro h; rw [h, hB] at hA; cases hA
  have hBA : ¬ B = A := fun h => hAB h.symm
  have hsA : (b.Accounts.get A).isSome := by rw [hA]; rfl
  have hsB : ∀ acct, ((b.Accounts.set A acct).get B).isSome := by
    intro acct; rw [AccountMap.get_set_other _ _ _ _ hBA, hB]; rfl
  unfold Bank.Transfer at hok ⊢
  simp only [hA, hB, Account.CurrentBalance, BankAccount.CurrentBalance, Account.Validate,
    Account.Append, BankAccount.Append_withdrawal, hBA, if_false] at hok ⊢
  by_cases h1 : a0.Balance < x
  · rw [if_pos h1] at hok; cases hok
  · rw [if_neg h1] at hok ⊢
    by_cases h2 : (!a0.Validate ⟨date, Withdrawal, Bank.transferDescription A B, x⟩ ||
        !l0.Validate ⟨date, Deposit, Bank.transferDescription A B, x⟩) = true
    · rw [if_pos h2] at hok; cases hok
    · have h3 : ¬ x > a0.Balance := fun h => h1 h
      rw [if_neg h2, if_neg h3] at hok ⊢
      have h4 : a0.Balance > x := by
        rw [BankAccount.Validate_withdrawal] at h2
        by_cases h5 : a0.Balance > x
        · exact h5
        · simp [h5] at h2
      refine ⟨h4, hok, ?_, ?_⟩
      · show ((b.Accounts.set A _).set B _).get A = _
        rw [AccountMap.get_set_other _ _ _ _ hAB, AccountMap.get_set_self _ _ _ hsA]
      · show ((b.Accounts.set A _).set B _).get B = _
        rw [AccountMap.get_set_self _ _ _ (hsB _)]

/-- Claim C27. For a bank whose `From` account is a basic account and whose
`To` account is a loan account, when `LoanPayment.Process` runs on a day of
the month equal to `DayOfMonth`, takes one of its two transfer branches and
returns no error, then the source balance has gone down by as much as the
remaining balance of the loan (in `USD` arithmetic, and as integers when the
monthly payment is not negative), and in the residual case
(`MonthsPaid ≥ Periods`, `RemainingBalance > 0`) the remaining balance
afterwards is exactly zero. -/
theorem C27_loan_payment_moves_equal_amounts (l : LoanPayment) (date : Time) (bank : Bank)
    (src : BankAccount) (loan : LoanAccount)
    (hday : date.Day = l.DayOfMonth)
    (hsrc : bank.Accounts.get l.From = some (.basic src))
    (hdst : bank.Accounts.get l.To = some (.loan loan))
    (hmove : loan.MonthsPaid < loan.Periods ∨
      (loan.MonthsPaid ≥ loan.Periods ∧ loan.RemainingBalance > 0))
    (hok : (l.Process date bank).2 = none) :
    ∃ src' loan',
      (l.Process date bank).1.Accounts.get l.From = some (.basic src') ∧
      (l.Process date bank).1.Accounts.get l.To = some (.loan loan') ∧
      src.Balance - src'.Balance = loan.RemainingBalance - loan'.RemainingBalance ∧
      (0 ≤ loan.MonthlyPayment → src.Balance.val - src'.Balance.val =
        loan.RemainingBalance.val - loan'.RemainingBalance.val) ∧
      (loan.MonthsPaid ≥ loan.Periods → loan'.RemainingBalance = 0) := by
  have hb1 := src.Balance.lo; have hb2 := src.Balance.hi
  have hr1 := loan.RemainingBalance.lo; have hr2 := loan.RemainingBalance.hi
  have hp1 := loan.MonthlyPayment.lo; have hp2 := loan.MonthlyPayment.hi
  rcases hmove with hm | ⟨hm, hr⟩
  · have hm' : ¬ loan.MonthsPaid ≥ loan.Periods := by omega
    have e : l.Process date bank = bank.Transfer date l.From l.To loan.MonthlyPayment := by
      simp [LoanPayment.Process, LoanPayment.getLoan, hday, hdst, hm]
    rw [e] at hok ⊢
    obtain ⟨h0, h1, h2, h3⟩ := Bank.Transfer_basic_loan bank date l.From l.To src loan
      loan.MonthlyPayment hsrc hdst hok
    have hpos := (LoanAccount.Append_deposit_balance loan _ rfl h1).1
    rw [gt_iff_lt, USD.lt_iff] at h0
    rw [USD.lt_iff, USD.val_zero] at hpos
    refine ⟨_, _, h2, h3, ?_, fun h => ?_, fun h => absurd h hm'⟩
    · rw [(LoanAccount.Append_deposit_balance loan _ rfl h1).2, if_pos hm]
      apply USD.ext
      simp only [USD.val_sub, wrap64]; omega
    · rw [USD.le_iff, USD.val_zero] at h
      rw [(LoanAccount.Append_deposit_balance loan _ rfl h1).2, if_pos hm]
      simp only [USD.val_sub, wrap64]; omega
  · have e : l.Process date bank = bank.Transfer date l.From l.To loan.RemainingBalance := by
      simp [LoanPayment.Process, LoanPayment.getLoan, hday, hdst, hm, hr]
    have hm' : ¬ loan.MonthsPaid < loan.Periods := by omega
    rw [e] at hok ⊢
    obtain ⟨h0, h1, h2, h3⟩ := Bank.Transfer_basic_loan bank date l.From l.To src loan
      loan.RemainingBalance hsrc hdst hok
    rw [gt_iff_lt, USD.lt_iff] at h0
    rw [gt_iff_lt, USD.lt_iff, USD.val_zero] at hr
    refine ⟨_, _, h2, h3, ?_, fun _ => ?_, fun _ => ?_⟩
    · rw [(LoanAccount.Append_deposit_balance loan _ rfl h1).2, if_neg hm']
      apply USD.ext
      simp only [USD.val_sub, wrap64]; omega
    · rw [(LoanAccount.Append_deposit_balance loan _ rfl h1).2, if_neg hm']
      simp only [USD.val_sub, wrap64]; omega
    · rw [(LoanAccount.Append_deposit_balance loan _ rfl h1).2, if_neg hm']
      apply USD.ext
      simp only [USD.val_sub, USD.val_zero, wrap64]; omega

set_option maxRecDepth 1000000 in
/-- Witness of C27: on 2018-02-01 the payment of $193.33 from `Checking`
($1,000) into the loan of the schedule scenario, which is within its term. -/
theorem C27_loan_payment_moves_equal_amounts_witness :
    ∃ src' loan',
      (scenarioLoanPayment.Process (Time.Date 2018 2 1) repaymentScenario).1.Accounts.get
        scenarioLoanPayment.From = some (.basic src') ∧
      (scenarioLoanPayment.Process (Time.Date 2018 2 1) repaymentScenario).1.Accounts.get
        scenarioLoanPayment.To = some (.loan loan') ∧
      (NewBankAccount "Checking" (Time.Date 2018 1 1) (Dollars 1000)).Balance - src'.Balance =
        scheduleLoan.RemainingBalance - loan'.RemainingBalance ∧
      (0 ≤ scheduleLoan.MonthlyPayment →
        (NewBankAccount "Checking" (Time.Date 2018 1 1) (Dollars 1000)).Balance.val -
          src'.Balance.val = scheduleLoan.RemainingBalance.val - loan'.RemainingBalance.val) ∧
      (scheduleLoan.MonthsPaid ≥ scheduleLoan.Periods → loan'.RemainingBalance = 0) :=
  C27_loan_payment_moves_equal_amounts scenarioLoanPayment (Time.Date 2018 2 1)
    repaymentScenario (NewBankAccount "Checking" (Time.Date 2018 1 1) (Dollars 1000))
    scheduleLoan (by decide) (by decide) (by decide!) (Or.inl (by decide!)) (by decide!)

/-! ## Postings of a micro-loan -/

/-- What a posting of `MicroLoan.Process` adds to the accumulators of the
account: the normal payment adds `MonthlyInterest + MonthlyPrincipal` to the
available cash and to both cash flows; the charge-off adds
`MonthlyInterest + OutstandingPrincipal` to the available cash and
`MonthlyInterest + MonthlyPrincipal` to both cash flows; both add
`MonthlyInterest` to the three interest accumulators. -/
theorem MicroLoan.Process_posting_amounts (m : MicroLoan) (date : Time)
    (acct : Peer2PeerAccount) (rnd : PaymentDraw)
    (hop : m.OutstandingPrincipal > 0) (hday : equalDates m.PayDay date = true) :
    (m.Process date acct rnd).2.2 = none ∧
    (m.Process date acct rnd).2.1.Interest = acct.Interest + m.MonthlyInterest ∧
    (m.Process date acct rnd).2.1.DailyInterest = acct.DailyInterest + m.MonthlyInterest ∧
    (m.Process date acct rnd).2.1.MonthlyInterest = acct.MonthlyInterest + m.MonthlyInterest ∧
    (m.Process date acct rnd).2.1.DailyCashFlow =
      acct.DailyCashFlow + (m.MonthlyInterest + m.MonthlyPrincipal) ∧
    (m.Process date acct rnd).2.1.MonthlyCashFlow =
      acct.MonthlyCashFlow + (m.MonthlyInterest + m.MonthlyPrincipal) ∧
    (m.Process date acct rnd).2.1.AvailableCash =
      acct.AvailableCash + (m.MonthlyInterest +
        (if rnd.chargeOff < 5 / 1000 then m.OutstandingPrincipal else m.MonthlyPrincipal)) := by
  unfold MicroLoan.Process
  rw [if_pos hop, if_pos hday]
  by_cases hc : rnd.chargeOff < 5 / 1000
  · rw [if_pos hc, if_pos hc]
    unfold MicroLoan.chargeOff
    rw [Peer2PeerAccount.Append_MonthlyPayment _ _ rfl]
    exact ⟨rfl, rfl, rfl, rfl, rfl, rfl, rfl⟩
  · rw [if_neg hc, if_neg hc]
    rw [Peer2PeerAccount.Append_MonthlyPayment _ _ rfl]
    exact ⟨rfl, rfl, rfl, rfl, rfl, rfl, rfl⟩

set_option maxRecDepth 1000000 in
/-- Claim C28, at the input where it fails. The charge-off of a loan with
$25.00 outstanding, 69 cents of monthly principal and 33 cents of monthly
interest adds $25.33 to `AvailableCash` and only $1.02 to `DailyCashFlow` and
to `MonthlyCashFlow`; the three interest accumulators all grow by 33 cents. -/
theorem C28_charge_off_cash_flow :
    (chargeOffLoan.Process (Time.Date 2018 2 1) originationScenario chargeOffDraw).2.2 = none ∧
    (chargeOffLoan.Process (Time.Date 2018 2 1) originationScenario chargeOffDraw).2.1.AvailableCash
      - originationScenario.AvailableCash = 2533 ∧
    (chargeOffLoan.Process (Time.Date 2018 2 1) originationScenario chargeOffDraw).2.1.DailyCashFlow
      - originationScenario.DailyCashFlow = 102 ∧
    (chargeOffLoan.Process (Time.Date 2018 2 1) originationScenario chargeOffDraw).2.1.MonthlyCashFlow
      - originationScenario.MonthlyCashFlow = 102 ∧
    (chargeOffLoan.Process (Time.Date 2018 2 1) originationScenario chargeOffDraw).2.1.Interest
      - originationScenario.Interest = 33 ∧
    (chargeOffLoan.Process (Time.Date 2018 2 1) originationScenario chargeOffDraw).2.1.DailyInterest
      - originationScenario.DailyInterest = 33 ∧
    (chargeOffLoan.Process (Time.Date 2018 2 1) originationScenario chargeOffDraw).2.1.MonthlyInterest
      - originationScenario.MonthlyInterest = 33 := by
  decide!

/-! ## The bank as a message handler -/

/-- A property of the bank that `Append` and `Transfer` keep is kept by the
`Process` of every line item. -/
theorem LineItem.Process_preserves (Q : Bank → Prop)
    (hA : ∀ b acct tx, Q b → Q (Bank.Append b acct tx).1)
    (hT : ∀ b date src dst x, Q b → Q (Bank.Transfer b date src dst x).1)
    (item : LineItem) (date : Time) (b : Bank) (rnd : PostingDraw) (h : Q b) :
    Q (item.Process date b rnd).1 := by
  cases item with
  | monthlyTransaction m =>
    simp only [LineItem.Process, MonthlyTransaction.Process]
    split
    · exact h
    · split
      · exact hA _ _ _ h
      · exact h
  | monthlyTransfer m =>
    simp only [LineItem.Process, MonthlyTransfer.Process]
    split
    · exact h
    · split
      · exact hT _ _ _ _ _ h
      · exact h
  | oneTimeTransaction m =>
    simp only [LineItem.Process, OneTimeTransaction.Process]
    split
    · exact h
    · exact hA _ _ _ h
  | dailyRandomTransaction m =>
    simp only [LineItem.Process, DailyRandomTransaction.Process]
    split
    · exact h
    · split
      · split
        · split
          · exact hA _ _ _ h
          · exact h
        · exact h
      · exact h
  | loanPayment l =>
    simp only [LineItem.Process, LoanPayment.Process]
    split
    · exact h
    · split
      · exact h
      · split
        · exact hT _ _ _ _ _ h
        · split
          · exact hT _ _ _ _ _ h
          · exact h

theorem Bank.foldItems_preserves (Q : Bank → Prop)
    (hA : ∀ b acct tx, Q b → Q (Bank.Append b acct tx).1)
    (hT : ∀ b date src dst x, Q b → Q (Bank.Transfer b date src dst x).1)
    (date : Time) (rnd : HandleDraws) (items : List LineItem) (i : Nat) (b : Bank) (h : Q b) :
    Q (Bank.foldItems date rnd i items b) := by
  induction items generalizing i b with
  | nil => exact h
  | cons item rest ih =>
    exact ih (i + 1) _ (LineItem.Process_preserves Q hA hT item date b _ h)

theorem Bank.Append_LineItems (b : Bank) (acct : String) (tx : Transaction) :
    (b.Append acct tx).1.LineItems = b.LineItems := by
  unfold Bank.Append
  split
  · rfl
  · rfl

theorem Bank.Transfer_LineItems (b : Bank) (date : Time) (src dst : String) (x : USD) :
    (b.Transfer date src dst x).1.LineItems = b.LineItems := by
  unfold Bank.Transfer
  split
  · rfl
  · split
    · rfl
    · simp only
      split
      · rfl
      · split
        · rfl
        · split
          · rfl
          · rfl

theorem Bank.foldItems_LineItems (date : Time) (rnd : HandleDraws) (items : List LineItem)
    (i : Nat) (b : Bank) : (Bank.foldItems date rnd i items b).LineItems = b.LineItems :=
  Bank.foldItems_preserves (fun s => s.LineItems = b.LineItems)
    (fun s acct tx h => (Bank.Append_LineItems s acct tx).trans h)
    (fun s date src dst x h => (Bank.Transfer_LineItems s date src dst x).trans h)
    date rnd items i b rfl

theorem Bank.foldItems_cons (date : Time) (rnd : HandleDraws) (i : Nat) (item : LineItem)
    (rest : List LineItem) (b : Bank) :
    Bank.foldItems date rnd i (item :: rest) b =
      Bank.foldItems date rnd (i + 1) rest (item.Process date b (rnd.items i)).1 := rfl

theorem Bank.processItems_fold (date : Time) (rnd : HandleDraws) (items : List LineItem)
    (i : Nat) (b : Bank) :
    (Bank.processItems date rnd i items b).1 = Bank.foldItems date rnd i items b := by
  induction items generalizing i b with
  | nil => rfl
  | cons item rest ih =>
    unfold Bank.processItems Bank.foldItems
    simp only [List.enumFrom_cons, List.foldl_cons]
    exact ih (i + 1) _

theorem Bank.processItems_length (date : Time) (rnd : HandleDraws) (items : List LineItem)
    (i : Nat) (b : Bank) :
    (Bank.processItems date rnd i items b).2.length = items.length := by
  induction items generalizing i b with
  | nil => rfl
  | cons item rest ih =>
    unfold Bank.processItems
    simp only [List.length_cons, ih]

theorem Bank.processItems_get (date : Time) (rnd : HandleDraws) (items : List LineItem)
    (i : Nat) (b : Bank) (k : Nat) (hk : k < items.length) :
    (Bank.processItems date rnd i items b).2.get? k =
      some ((items.get ⟨k, hk⟩).Process date (Bank.foldItems date rnd i (items.take k) b)
        (rnd.items (i + k))).2 := by
  induction items generalizing i b k with
  | nil => simp at hk
  | cons item rest ih =>
    unfold Bank.processItems
    cases k with
    | zero => rfl
    | succ k =>
      simp only [List.get?_cons_succ, List.take_succ_cons, List.get_cons_succ]
      rw [ih (i + 1) _ k (by simpa using hk), Bank.foldItems_cons]
      have e1 : i + 1 + k = i + (k + 1) := by omega
      rw [e1]

theorem Bank.updateAccounts_eq (date : Time) (rnd : HandleDraws) (m : AccountMap) :
    Bank.updateAccounts date rnd m = (AccountMap.updated date rnd m, AccountMap.broadcast date rnd m) := by
  induction m with
  | nil => rfl
  | cons e rest ih =>
    obtain ⟨k, v⟩ := e
    unfold Bank.updateAccounts
    rw [ih]
    simp [AccountMap.updated, AccountMap.broadcast]

/-- Claim C21. For every `Date` message, `Handle` calls `Process` once on each
line item, in the order of `LineItems`, also after a call that returned an
error: the `k`-th call is on the `k`-th item and on the bank the first `k`
items have left, errors dropped. Only then each account is updated. The bank
afterwards is the left-to-right fold of `Process` over `LineItems` followed
by the updates of the accounts, and the messages dispatched are those of the
updates. -/
theorem C21_handle_date (b : Bank) (msg : Message) (date : Time) (rnd : HandleDraws)
    (hT : msg.Typ = TypeDate) (hV : msg.Value = .date date) :
    ∃ r, b.Handle msg rnd = some r ∧
      r.returned.length = b.LineItems.length ∧
      (∀ k (hk : k < b.LineItems.length),
        r.returned.get? k = some ((b.LineItems.get ⟨k, hk⟩).Process date
          (b.afterItems date rnd k) (rnd.items k)).2) ∧
      r.bank.LineItems = b.LineItems ∧
      r.bank.Accounts =
        AccountMap.updated date rnd (b.afterItems date rnd b.LineItems.length).Accounts ∧
      r.dispatched =
        AccountMap.broadcast date rnd (b.afterItems date rnd b.LineItems.length).Accounts := by
  have hfold : (Bank.processItems date rnd 0 b.LineItems b).1 =
      b.afterItems date rnd b.LineItems.length := by
    rw [Bank.processItems_fold, Bank.afterItems, List.take_length]
  unfold Bank.Handle
  rw [if_pos hT, hV]
  refine ⟨_, rfl, ?_, ?_, ?_, ?_, ?_⟩
  · exact Bank.processItems_length date rnd b.LineItems 0 b
  · intro k hk
    have h := Bank.processItems_get date rnd b.LineItems 0 b k hk
    rw [Nat.zero_add] at h
    exact h
  · show (Bank.processItems date rnd 0 b.LineItems b).1.LineItems = _
    rw [Bank.processItems_fold, Bank.foldItems_LineItems]
  · show (Bank.updateAccounts date rnd (Bank.processItems date rnd 0 b.LineItems b).1.Accounts).1 = _
    rw [hfold, Bank.updateAccounts_eq]
  · show (Bank.updateAccounts date rnd (Bank.processItems date rnd 0 b.LineItems b).1.Accounts).2 = _
    rw [hfold, Bank.updateAccounts_eq]

set_option maxRecDepth 1000000 in
/-- Witness of C21: on 2018-03-01 the first line item of the scenario returns
`ErrAccountDoesNotExist`, the second is processed all the same and `A` ends
with $110. -/
theorem C21_handle_date_witness :
    (∃ r, failingItemScenario.Handle (dateMessage (Time.Date 2018 3 1)) halfHandleDraws = some r ∧
      r.returned.length = failingItemScenario.LineItems.length ∧
      (∀ k (hk : k < failingItemScenario.LineItems.length),
        r.returned.get? k = some ((failingItemScenario.LineItems.get ⟨k, hk⟩).Process
          (Time.Date 2018 3 1) (failingItemScenario.afterItems (Time.Date 2018 3 1)
            halfHandleDraws k) (halfHandleDraws.items k)).2) ∧
      r.bank.LineItems = failingItemScenario.LineItems ∧
      r.bank.Accounts = AccountMap.updated (Time.Date 2018 3 1) halfHandleDraws
        (failingItemScenario.afterItems (Time.Date 2018 3 1) halfHandleDraws
          failingItemScenario.LineItems.length).Accounts ∧
      r.dispatched = AccountMap.broadcast (Time.Date 2018 3 1) halfHandleDraws
        (failingItemScenario.afterItems (Time.Date 2018 3 1) halfHandleDraws
          failingItemScenario.LineItems.length).Accounts) ∧
    (failingItemScenario.Handle (dateMessage (Time.Date 2018 3 1)) halfHandleDraws).map
      (fun r => (r.returned, r.bank.balanceOf "A")) =
      some ([some ErrAccountDoesNotExist, none], some (Dollars 110)) :=
  ⟨C21_handle_date failingItemScenario (dateMessage (Time.Date 2018 3 1)) (Time.Date 2018 3 1)
    halfHandleDraws rfl rfl, by decide⟩

/-! ## The date generator -/

theorem DayGenerator.loop_spec (n : Nat) (d : DayGenerator) (fuel : Nat)
    (hn : d.span = n) (hfuel : n ≤ fuel) :
    d.loop fuel = some ({ d with StartDate := ⟨d.StartDate.days + (n : Int)⟩ },
      d.dates.map dateMessage) := by
  induction n generalizing d fuel with
  | zero =>
    have hafter : d.StartDate.After d.EndDate = true := by
      unfold DayGenerator.span at hn
      simp only [Time.After, decide_eq_true_eq]
      omega
    have hd : ({ d with StartDate := ⟨d.StartDate.days + ((0 : Nat) : Int)⟩ } : DayGenerator) = d := by
      obtain ⟨⟨s⟩, e⟩ := d
      simp
    rw [hd]
    unfold DayGenerator.dates
    rw [hn]
    cases fuel with
    | zero => simp [DayGenerator.loop, hafter]
    | succ f => simp [DayGenerator.loop, hafter]
  | succ n ih =>
    obtain ⟨f, rfl⟩ : ∃ f, fuel = f + 1 := ⟨fuel - 1, by omega⟩
    have hafter : d.StartDate.After d.EndDate = false := by
      unfold DayGenerator.span at hn
      simp only [Time.After, decide_eq_false_iff_not]
      omega
    have hn' : ({ d with StartDate := d.StartDate.AddDate 0 0 1 } : DayGenerator).span = n := by
      unfold DayGenerator.span at hn ⊢
      rw [Time.AddDate_days]
      dsimp only
      omega
    have h := ih { d with StartDate := d.StartDate.AddDate 0 0 1 } f hn' (by omega)
    unfold DayGenerator.loop
    simp only [hafter, Bool.not_false, if_true]
    rw [h]
    simp only [Time.AddDate_days, Option.some.injEq, Prod.mk.injEq]
    constructor
    · congr 2
      push_cast
      omega
    · unfold DayGenerator.dates
      rw [Time.AddDate_days] at hn'
      rw [hn, hn', List.range_succ_eq_map]
      simp only [List.map_cons, List.map_map, Nat.cast_zero, add_zero, List.cons.injEq]
      refine ⟨rfl, ?_⟩
      apply List.map_congr_left
      intro k _
      simp only [Function.comp, Time.AddDate_days, Nat.succ_eq_add_one]
      congr 2
      push_cast
      omega

theorem DayGenerator.dates_length (d : DayGenerator) : d.dates.length = d.span := by
  simp [DayGenerator.dates]

theorem DayGenerator.dates_get (d : DayGenerator) (k : Nat) (hk : k < d.dates.length) :
    d.dates.get ⟨k, hk⟩ = ⟨d.StartDate.days + (k : Int)⟩ := by
  simp [DayGenerator.dates]

theorem DayGenerator.mem_dates (d : DayGenerator) (t : Time) :
    t ∈ d.dates ↔ d.StartDate.days ≤ t.days ∧ t.days ≤ d.EndDate.days := by
  obtain ⟨z⟩ := t
  unfold DayGenerator.dates DayGenerator.span
  simp only [List.mem_map, List.mem_range, Time.mk.injEq]
  constructor
  · rintro ⟨k, hk, rfl⟩
    omega
  · intro h
    refine ⟨(z - d.StartDate.days).toNat, ?_, ?_⟩
    · omega
    · omega

theorem DayGenerator.dates_nodup (d : DayGenerator) : d.dates.Nodup := by
  unfold DayGenerator.dates
  apply List.Nodup.map _ (List.nodup_range _)
  intro a b h
  simp only [Time.mk.injEq] at h
  omega

theorem DayGenerator.dates_count (d : DayGenerator) (t : Time) :
    d.dates.count t = if d.StartDate.days ≤ t.days ∧ t.days ≤ d.EndDate.days then 1 else 0 := by
  rw [List.count_eq_of_nodup (DayGenerator.dates_nodup d)]
  simp only [DayGenerator.mem_dates]

/-- Claim C22. On `START` the generator dispatches to its children exactly
the `Date` messages of the days from `StartDate` to `EndDate`, both included,
one per day and in ascending order, each one day after the one before, and
then signals `KILLED`; it dispatches none when `StartDate` is after `EndDate`;
the loop ends for every pair of dates: `span` passes are enough, whatever
larger bound is given. -/
theorem C22_day_generator (d : DayGenerator) (msg : Message) (fuel : Nat)
    (hmsg : msg.Typ = MessageTypeStart) (hfuel : d.span ≤ fuel) :
    d.Handle fuel msg = some ({ d with StartDate := ⟨d.StartDate.days + (d.span : Int)⟩ },
      { dispatched := d.dates.map dateMessage, signals := [StateKilled] }) ∧
    d.dates.length = (d.EndDate.days - d.StartDate.days + 1).toNat ∧
    (∀ k (hk : k < d.dates.length), d.dates.get ⟨k, hk⟩ = ⟨d.StartDate.days + (k : Int)⟩) ∧
    (∀ t : Time, d.dates.count t =
      if d.StartDate.days ≤ t.days ∧ t.days ≤ d.EndDate.days then 1 else 0) ∧
    (d.StartDate.After d.EndDate = true → d.dates = []) := by
  refine ⟨?_, DayGenerator.dates_length d, DayGenerator.dates_get d, ?_, ?_⟩
  · unfold DayGenerator.Handle
    rw [if_pos hmsg, DayGenerator.loop_spec d.span d fuel rfl hfuel]
  · intro t
    exact DayGenerator.dates_count d t
  · intro h
    have : d.span = 0 := by
      unfold DayGenerator.span
      simp only [Time.After, decide_eq_true_eq] at h
      omega
    simp [DayGenerator.dates, this]

/-- Witness of C22: from 2018-01-30 to 2018-02-02 the generator dispatches
four messages, for 30 and 31 January and 1 and 2 February. -/
theorem C22_day_generator_witness :
    fourDays.Handle 10 { Typ := MessageTypeStart, Forward := true, Value := .none } =
      some ({ fourDays with StartDate := ⟨fourDays.StartDate.days + (fourDays.span : Int)⟩ },
        { dispatched := fourDays.dates.map dateMessage, signals := [StateKilled] }) ∧
    fourDays.dates = [Time.Date 2018 1 30, Time.Date 2018 1 31, Time.Date 2018 2 1,
      Time.Date 2018 2 2] :=
  ⟨(C22_day_generator fourDays { Typ := MessageTypeStart, Forward := true, Value := .none } 10
    rfl (by decide)).1, by decide⟩

/-! ## The worker of a process -/

theorem StateRunning_ne_StateKilled : StateRunning ≠ StateKilled := by decide

theorem StateWaiting_ne_StateRunning : StateWaiting ≠ StateRunning := by decide

theorem StateWaiting_ne_StateKilled : StateWaiting ≠ StateKilled := by decide

theorem MessageTypeStart_ne_MessageTypeStop : MessageTypeStart ≠ MessageTypeStop := by decide

theorem DefaultProcess.setStates_spec {σ : Type} (l : List State) (p q : DefaultProcess σ)
    (h : DefaultProcess.setStates l p = some q) :
    q.state = p.state ∧ q.handler = p.handler ∧ q.stateCh = p.stateCh ++ l := by
  induction l generalizing p with
  | nil =>
    simp only [DefaultProcess.setStates, Option.some.injEq] at h
    subst h
    simp
  | cons s rest ih =>
    unfold DefaultProcess.setStates DefaultProcess.SetState at h
    split at h
    · rename_i q1 hq
      split at hq
      · simp only [Option.some.injEq] at hq
        subst hq
        obtain ⟨h1, h2, h3⟩ := ih _ h
        exact ⟨h1, h2, by rw [h3]; simp⟩
      · cases hq
    · cases h

theorem DefaultProcess.setStates_fits {σ : Type} (l : List State) (p : DefaultProcess σ)
    (h : p.stateCh.length + l.length ≤ 2) : (DefaultProcess.setStates l p).isSome = true := by
  induction l generalizing p with
  | nil => rfl
  | cons s rest ih =>
    simp only [List.length_cons] at h
    have h1 : p.stateCh.length < 2 := by omega
    unfold DefaultProcess.setStates DefaultProcess.SetState
    simp only [h1, if_true]
    apply ih
    simp only [List.length_append, List.length_cons, List.length_nil]
    omega

/-- A pass that receives a message, written out: the state after the
`switch`, then the handler call when that state is `RUNNING`. -/
theorem DefaultProcess.pass_inbox_eq {σ : Type} (h : Handler σ) (p : DefaultProcess σ)
    (msg : Message) (hk : p.state ≠ StateKilled) :
    p.pass h (.inbox msg) =
      if (if msg.Typ = MessageTypeStart then StateRunning
          else if msg.Typ = MessageTypeStop then StateKilled else p.state) = StateRunning then
        match h p.handler msg with
        | none => none
        | some r =>
          match DefaultProcess.setStates r.2.signals
            { p with
              handler := r.1
              state := if msg.Typ = MessageTypeStart then StateRunning else p.state } with
          | none => none
          | some q =>
            some { proc := q, handled := true
                   dispatched := (if msg.Typ = MessageTypeStart then [msg] else []) ++
                     r.2.dispatched ++
                     (if msg.Forward && msg.Typ != MessageTypeStart then [msg] else []) }
      else
        some { proc := { p with state := if msg.Typ = MessageTypeStop then StateKilled else p.state }
               handled := false
               dispatched := (if msg.Typ = MessageTypeStop then [msg] else []) ++
                 (if msg.Forward && msg.Typ != MessageTypeStart then [msg] else []) } := by
  unfold DefaultProcess.pass
  rw [if_neg hk]
  by_cases hs : msg.Typ = MessageTypeStart
  · simp only [hs, if_true]
  · by_cases ht : msg.Typ = MessageTypeStop
    · have hrk : ¬ StateKilled = StateRunning := Ne.symm StateRunning_ne_StateKilled
      have hst : ¬ MessageTypeStop = MessageTypeStart := Ne.symm MessageTypeStart_ne_MessageTypeStop
      simp only [ht, hst, hrk, if_true, if_false]
    · by_cases hr : p.state = StateRunning
      · simp only [hs, ht, hr, if_true, if_false]
      · simp only [hs, ht, hr, if_false]

theorem DefaultProcess.pass_killed {σ : Type} (h : Handler σ) (p : DefaultProcess σ)
    (c : Select) (hk : p.state = StateKilled) : p.pass h c = none := by
  unfold DefaultProcess.pass
  rw [if_pos hk]

theorem DefaultProcess.pass_alive {σ : Type} (h : Handler σ) (p : DefaultProcess σ)
    (c : Select) (r : Pass σ) (hr : p.pass h c = some r) : p.state ≠ StateKilled := by
  intro hk
  rw [DefaultProcess.pass_killed h p c hk] at hr
  cases hr

/-- The state and the handler call of a pass that receives a message. -/
theorem DefaultProcess.pass_inbox {σ : Type} (h : Handler σ) (p : DefaultProcess σ)
    (msg : Message) (r : Pass σ) (hr : p.pass h (.inbox msg) = some r) :
    r.proc.state = (if msg.Typ = MessageTypeStart then StateRunning
      else if msg.Typ = MessageTypeStop then StateKilled else p.state) ∧
    (r.handled = true ↔ r.proc.state = StateRunning) := by
  have hk := DefaultProcess.pass_alive h p _ r hr
  have hrk : ¬ StateKilled = StateRunning := Ne.symm StateRunning_ne_StateKilled
  rw [DefaultProcess.pass_inbox_eq h p msg hk] at hr
  by_cases hrun : (if msg.Typ = MessageTypeStart then StateRunning
      else if msg.Typ = MessageTypeStop then StateKilled else p.state) = StateRunning
  · rw [if_pos hrun] at hr
    cases hh : h p.handler msg with
    | none => rw [hh] at hr; cases hr
    | some res =>
      rw [hh] at hr
      simp only at hr
      cases hq : DefaultProcess.setStates res.2.signals
          { p with handler := res.1
                   state := if msg.Typ = MessageTypeStart then StateRunning else p.state } with
      | none => rw [hq] at hr; cases hr
      | some q =>
        rw [hq] at hr
        simp only [Option.some.injEq] at hr
        subst hr
        obtain ⟨h1, _, _⟩ := DefaultProcess.setStates_spec _ _ _ hq
        simp only at h1 ⊢
        rw [h1]
        by_cases hs : msg.Typ = MessageTypeStart
        · simp [hs]
        · by_cases ht : msg.Typ = MessageTypeStop
          · simp only [hs, ht, if_true, if_false] at hrun
            exact absurd hrun hrk
          · simp only [hs, ht, if_false] at hrun ⊢
            simp [hrun]
  · rw [if_neg hrun] at hr
    simp only [Option.some.injEq] at hr
    subst hr
    simp only
    by_cases hs : msg.Typ = MessageTypeStart
    · simp [hs] at hrun
    · by_cases ht : msg.Typ = MessageTypeStop
      · have hst : ¬ MessageTypeStop = MessageTypeStart :=
          Ne.symm MessageTypeStart_ne_MessageTypeStop
        simp only [ht, hst, if_true, if_false, true_and]
        constructor
        · intro hf; cases hf
        · intro hf; exact absurd hf hrk
      · simp only [hs, ht, if_false] at hrun ⊢
        simp [hrun]

/-- A pass that receives a message returns as soon as the handler call it
makes, if any, returns and leaves room in `stateCh` for its signals. -/
theorem DefaultProcess.pass_inbox_returns {σ : Type} (h : Handler σ) (p : DefaultProcess σ)
    (msg : Message) (hk : p.state ≠ StateKilled)
    (hh : ∀ res, h p.handler msg = some res →
      p.stateCh.length + res.2.signals.length ≤ 2)
    (hret : (h p.handler msg).isSome = true ∨
      (msg.Typ ≠ MessageTypeStart ∧ (msg.Typ = MessageTypeStop ∨ p.state ≠ StateRunning))) :
    (p.pass h (.inbox msg)).isSome = true := by
  have hrk : ¬ StateKilled = StateRunning := Ne.symm StateRunning_ne_StateKilled
  rw [DefaultProcess.pass_inbox_eq h p msg hk]
  by_cases hrun : (if msg.Typ = MessageTypeStart then StateRunning
      else if msg.Typ = MessageTypeStop then StateKilled else p.state) = StateRunning
  · rw [if_pos hrun]
    have hsome : (h p.handler msg).isSome = true := by
      rcases hret with h1 | ⟨h1, h2⟩
      · exact h1
      · exfalso
        rcases h2 with h2 | h2
        · simp only [h1, h2, if_true, if_false] at hrun
          exact hrk hrun
        · by_cases ht : msg.Typ = MessageTypeStop
          · simp only [h1, ht, if_true, if_false] at hrun
            exact hrk hrun
          · simp only [h1, ht, if_false] at hrun
            exact h2 hrun
    cases hres : h p.handler msg with
    | none => rw [hres] at hsome; cases hsome
    | some res =>
      simp only
      have hfit := DefaultProcess.setStates_fits res.2.signals
        { p with handler := res.1
                 state := if msg.Typ = MessageTypeStart then StateRunning else p.state }
        (hh res hres)
      cases hq : DefaultProcess.setStates res.2.signals
          { p with handler := res.1
                   state := if msg.Typ = MessageTypeStart then StateRunning else p.state } with
      | none => rw [hq] at hfit; cases hfit
      | some q => rfl
  · rw [if_neg hrun]
    rfl

theorem DefaultProcess.pass_stateCh {σ : Type} (h : Handler σ) (p : DefaultProcess σ)
    (r : Pass σ) (hr : p.pass h .stateCh = some r) :
    p.stateCh = r.proc.state :: r.proc.stateCh ∧ r.handled = false ∧ r.dispatched = [] := by
  have hk := DefaultProcess.pass_alive h p _ r hr
  unfold DefaultProcess.pass at hr
  rw [if_neg hk] at hr
  simp only at hr
  cases hc : p.stateCh with
  | nil => rw [hc] at hr; cases hr
  | cons s rest =>
    rw [hc] at hr
    simp only [Option.some.injEq] at hr
    subst hr
    exact ⟨rfl, rfl, rfl⟩

theorem DefaultProcess.pass_done {σ : Type} (h : Handler σ) (p : DefaultProcess σ)
    (r : Pass σ) (hr : p.pass h .done = some r) :
    r.proc.state = p.state ∧ r.proc.stateCh = p.stateCh ++ [StateKilled] ∧
      r.handled = false ∧ r.dispatched = [] := by
  have hk := DefaultProcess.pass_alive h p _ r hr
  unfold DefaultProcess.pass DefaultProcess.SetState at hr
  rw [if_neg hk] at hr
  simp only at hr
  by_cases hl : p.stateCh.length < 2
  · rw [if_pos hl] at hr
    simp only [Option.some.injEq] at hr
    subst hr
    exact ⟨rfl, rfl, rfl, rfl⟩
  · rw [if_neg hl] at hr
    cases hr

/-- Cancellation: with room in `stateCh`, the pass that sees the context done
returns and queues `KILLED`; when nothing else waits in `stateCh`, the pass
that reads the channel next sets the state to `KILLED`. -/
theorem DefaultProcess.cancel_kills {σ : Type} (h : Handler σ) (p : DefaultProcess σ)
    (hk : p.state ≠ StateKilled) (hc : p.stateCh = []) :
    ∃ r1 r2, p.pass h .done = some r1 ∧ r1.proc.pass h .stateCh = some r2 ∧
      r1.proc.state = p.state ∧ r2.proc.state = StateKilled ∧
      r1.handled = false ∧ r2.handled = false := by
  refine ⟨{ proc := { p with stateCh := [StateKilled] }, handled := false, dispatched := [] },
    { proc := { p with state := StateKilled, stateCh := [] }, handled := false, dispatched := [] },
    ?_, ?_, rfl, rfl, rfl, rfl⟩
  · unfold DefaultProcess.pass DefaultProcess.SetState
    rw [if_neg hk]
    simp [hc]
  · unfold DefaultProcess.pass
    rw [if_neg hk]

theorem DefaultProcess.Start_killed {σ : Type} (h : Handler σ) (cs : List Select)
    (p : DefaultProcess σ) (hk : p.state = StateKilled) :
    DefaultProcess.Start h cs p = some (p, [], [stopMessage]) := by
  cases cs with
  | nil => simp [DefaultProcess.Start, hk, stopMessage]
  | cons c rest => simp [DefaultProcess.Start, hk, stopMessage]

/-- A pass keeps a worker sound when the handler passes only `KILLED` to
`SetState`. -/
theorem DefaultProcess.pass_sound {σ : Type} (h : Handler σ) (p : DefaultProcess σ)
    (c : Select) (r : Pass σ)
    (hh : ∀ s msg res, h s msg = some res → ∀ x ∈ res.2.signals, x = StateKilled)
    (hp : p.Sound) (hr : p.pass h c = some r) : r.proc.Sound := by
  have hk := DefaultProcess.pass_alive h p _ r hr
  obtain ⟨hp1, hp2⟩ := hp
  cases c with
  | done =>
    obtain ⟨h1, h2, _, _⟩ := DefaultProcess.pass_done h p r hr
    refine ⟨by rw [h1]; exact hp1, ?_⟩
    intro s hs
    rw [h2] at hs
    rcases List.mem_append.mp hs with hs | hs
    · exact hp2 s hs
    · simpa using hs
  | stateCh =>
    obtain ⟨h1, _, _⟩ := DefaultProcess.pass_stateCh h p r hr
    rw [h1] at hp2
    refine ⟨Or.inr (Or.inr (hp2 _ (List.mem_cons_self _ _))), ?_⟩
    intro s hs
    exact hp2 s (List.mem_cons_of_mem _ hs)
  | inbox msg =>
    obtain ⟨h1, _⟩ := DefaultProcess.pass_inbox h p msg r hr
    constructor
    · rw [h1]
      by_cases hs : msg.Typ = MessageTypeStart
      · simp [hs]
      · by_cases ht : msg.Typ = MessageTypeStop
        · have hst : ¬ MessageTypeStop = MessageTypeStart :=
            Ne.symm MessageTypeStart_ne_MessageTypeStop
          simp only [ht, hst, if_true, if_false, or_true]
        · simp only [hs, ht, if_false]
          exact hp1
    · rw [DefaultProcess.pass_inbox_eq h p msg hk] at hr
      by_cases hrun : (if msg.Typ = MessageTypeStart then StateRunning
          else if msg.Typ = MessageTypeStop then StateKilled else p.state) = StateRunning
      · rw [if_pos hrun] at hr
        cases hres : h p.handler msg with
        | none => rw [hres] at hr; cases hr
        | some res =>
          rw [hres] at hr
          simp only at hr
          cases hq : DefaultProcess.setStates res.2.signals
              { p with handler := res.1
                       state := if msg.Typ = MessageTypeStart then StateRunning else p.state } with
          | none => rw [hq] at hr; cases hr
          | some q =>
            rw [hq] at hr
            simp only [Option.some.injEq] at hr
            subst hr
            obtain ⟨_, _, h3⟩ := DefaultProcess.setStates_spec _ _ _ hq
            intro s hs
            simp only at h3 hs
            rw [h3] at hs
            rcases List.mem_append.mp hs with hs | hs
            · exact hp2 s hs
            · exact hh _ _ _ hres s hs
      · rw [if_neg hrun] at hr
        simp only [Option.some.injEq] at hr
        subst hr
        exact hp2

/-- The date process of `main.go` over four days: `START` is handled, the
handler dispatches the four dates and signals `KILLED`, the signal is read,
the loop is left and the `STOP` that follows in the inbox is never read. -/
theorem DayGenerator.process_run :
    DefaultProcess.Start (DayGenerator.Handle 10)
      [.inbox startMessage, .stateCh, .inbox stopMessage] (NewDefaultProcess fourDays) =
    some ({ handler := { fourDays with StartDate := Time.Date 2018 2 3 }
            state := StateKilled, stateCh := [] },
      [startMessage],
      [startMessage, dateMessage (Time.Date 2018 1 30), dateMessage (Time.Date 2018 1 31),
       dateMessage (Time.Date 2018 2 1), dateMessage (Time.Date 2018 2 2), stopMessage]) := by
  rfl

/-- What a pass that receives a message does besides setting the state: when
it calls the handler, the handler of the process is the one the call returns,
its signals are queued and its messages are dispatched between the control
message and the forwarded message; when it does not, handler and `stateCh`
are untouched. -/
theorem DefaultProcess.pass_inbox_effects {σ : Type} (h : Handler σ) (p : DefaultProcess σ)
    (msg : Message) (r : Pass σ) (hr : p.pass h (.inbox msg) = some r) :
    (r.handled = true → ∃ res, h p.handler msg = some res ∧
      r.proc.handler = res.1 ∧ r.proc.stateCh = p.stateCh ++ res.2.signals ∧
      r.dispatched =
        (if msg.Typ = MessageTypeStart ∨ msg.Typ = MessageTypeStop then [msg] else []) ++
        res.2.dispatched ++
        (if msg.Forward && msg.Typ != MessageTypeStart then [msg] else [])) ∧
    (r.handled = false →
      r.proc.handler = p.handler ∧ r.proc.stateCh = p.stateCh ∧
      r.dispatched =
        (if msg.Typ = MessageTypeStart ∨ msg.Typ = MessageTypeStop then [msg] else []) ++
        (if msg.Forward && msg.Typ != MessageTypeStart then [msg] else [])) := by
  have hk := DefaultProcess.pass_alive h p _ r hr
  have hrk : ¬ StateKilled = StateRunning := Ne.symm StateRunning_ne_StateKilled
  have hst : ¬ MessageTypeStop = MessageTypeStart := Ne.symm MessageTypeStart_ne_MessageTypeStop
  rw [DefaultProcess.pass_inbox_eq h p msg hk] at hr
  by_cases hrun : (if msg.Typ = MessageTypeStart then StateRunning
      else if msg.Typ = MessageTypeStop then StateKilled else p.state) = StateRunning
  · rw [if_pos hrun] at hr
    have hnstop : ¬ msg.Typ = MessageTypeStop := by
      intro ht
      rw [ht, if_neg hst, if_pos rfl] at hrun
      exact hrk hrun
    cases hres : h p.handler msg with
    | none => rw [hres] at hr; cases hr
    | some res =>
      rw [hres] at hr
      simp only at hr
      cases hq : DefaultProcess.setStates res.2.signals
          { p with handler := res.1
                   state := if msg.Typ = MessageTypeStart then StateRunning else p.state } with
      | none => rw [hq] at hr; cases hr
      | some q =>
        rw [hq] at hr
        simp only [Option.some.injEq] at hr
        subst hr
        obtain ⟨_, h2, h3⟩ := DefaultProcess.setStates_spec _ _ _ hq
        refine ⟨fun _ => ⟨res, rfl, h2, h3, ?_⟩, fun hf => (by cases hf)⟩
        simp only [hnstop, or_false]
  · rw [if_neg hrun] at hr
    simp only [Option.some.injEq] at hr
    subst hr
    have hnstart : ¬ msg.Typ = MessageTypeStart := by
      intro hs
      rw [if_pos hs] at hrun
      exact hrun rfl
    refine ⟨fun hf => (by cases hf), fun _ => ⟨rfl, rfl, ?_⟩⟩
    simp only [hnstart, false_or]

/-- Claim C25, as the code has it. One worker of `DefaultProcess`, pass by
pass of its loop. `KILLED` is terminal: no pass starts from it and nothing
more is read. A pass that receives a message sets the state to `RUNNING` on
`START`, to `KILLED` on `STOP` and leaves it as it is otherwise, and calls the
handler exactly when the state is then `RUNNING`: in that case the handler of
the process becomes the one the call returns, the signals of the call are
queued in `stateCh` and its messages are dispatched; otherwise handler and
`stateCh` are untouched. So `START` is handled, `STOP` is not, and a message
that is neither is not handled while the worker waits. Such a pass returns
whenever the handler call it makes returns and `stateCh` has room for its
signals. A pass that sees the context done does not change the state: it
queues `KILLED` in `stateCh`. A pass that reads `stateCh` makes the state it
reads the state of the process, whoever queued it. From `WAITING` or
`RUNNING` the state therefore stays, moves from `WAITING` to `RUNNING` on
`START`, moves to `KILLED` on `STOP`, or becomes the state read from
`stateCh`. -/
theorem C25_worker_state_machine {σ : Type} (h : Handler σ) (p : DefaultProcess σ) :
    (p.state = StateKilled →
      (∀ c, p.pass h c = none) ∧
      ∀ cs, DefaultProcess.Start h cs p = some (p, [], [stopMessage])) ∧
    (∀ msg r, p.pass h (.inbox msg) = some r →
      p.state ≠ StateKilled ∧
      r.proc.state = (if msg.Typ = MessageTypeStart then StateRunning
        else if msg.Typ = MessageTypeStop then StateKilled else p.state) ∧
      (r.handled = true ↔ r.proc.state = StateRunning) ∧
      (r.handled = true → ∃ res, h p.handler msg = some res ∧
        r.proc.handler = res.1 ∧ r.proc.stateCh = p.stateCh ++ res.2.signals ∧
        r.dispatched =
          (if msg.Typ = MessageTypeStart ∨ msg.Typ = MessageTypeStop then [msg] else []) ++
          res.2.dispatched ++
          (if msg.Forward && msg.Typ != MessageTypeStart then [msg] else [])) ∧
      (r.handled = false →
        r.proc.handler = p.handler ∧ r.proc.stateCh = p.stateCh ∧
        r.dispatched =
          (if msg.Typ = MessageTypeStart ∨ msg.Typ = MessageTypeStop then [msg] else []) ++
          (if msg.Forward && msg.Typ != MessageTypeStart then [msg] else [])) ∧
      (msg.Typ = MessageTypeStart → r.proc.state = StateRunning ∧ r.handled = true) ∧
      (msg.Typ = MessageTypeStop → r.proc.state = StateKilled ∧ r.handled = false) ∧
      (p.state = StateWaiting → msg.Typ ≠ MessageTypeStart → msg.Typ ≠ MessageTypeStop →
        r.proc.state = StateWaiting ∧ r.handled = false)) ∧
    (∀ msg, p.state ≠ StateKilled →
      (∀ res, h p.handler msg = some res → p.stateCh.length + res.2.signals.length ≤ 2) →
      ((h p.handler msg).isSome = true ∨
        (msg.Typ ≠ MessageTypeStart ∧ (msg.Typ = MessageTypeStop ∨ p.state ≠ StateRunning))) →
      (p.pass h (.inbox msg)).isSome = true) ∧
    (∀ r, p.pass h .done = some r →
      r.proc.state = p.state ∧ r.proc.stateCh = p.stateCh ++ [StateKilled] ∧
      r.handled = false ∧ r.dispatched = []) ∧
    (∀ r, p.pass h .stateCh = some r →
      p.stateCh = r.proc.state :: r.proc.stateCh ∧ r.handled = false ∧ r.dispatched = []) ∧
    (p.state ≠ StateKilled → p.stateCh = [] →
      ∃ r1 r2, p.pass h .done = some r1 ∧ r1.proc.pass h .stateCh = some r2 ∧
        r1.proc.state = p.state ∧ r2.proc.state = StateKilled ∧
        r1.handled = false ∧ r2.handled = false) ∧
    (∀ c r, p.pass h c = some r → (p.state = StateWaiting ∨ p.state = StateRunning) →
      r.proc.state = p.state ∨
      (p.state = StateWaiting ∧ r.proc.state = StateRunning ∧
        ∃ msg, c = .inbox msg ∧ msg.Typ = MessageTypeStart) ∨
      (r.proc.state = StateKilled ∧ ∃ msg, c = .inbox msg ∧ msg.Typ = MessageTypeStop) ∨
      (c = .stateCh ∧ ∃ rest, p.stateCh = r.proc.state :: rest)) := by
  have hrk : ¬ StateKilled = StateRunning := Ne.symm StateRunning_ne_StateKilled
  have hst : ¬ MessageTypeStop = MessageTypeStart := Ne.symm MessageTypeStart_ne_MessageTypeStop
  refine ⟨fun hk => ⟨fun c => DefaultProcess.pass_killed h p c hk,
      fun cs => DefaultProcess.Start_killed h cs p hk⟩, ?_, ?_, ?_, ?_, ?_, ?_⟩
  · intro msg r hr
    obtain ⟨h1, h2⟩ := DefaultProcess.pass_inbox h p msg r hr
    obtain ⟨h3, h4⟩ := DefaultProcess.pass_inbox_effects h p msg r hr
    refine ⟨DefaultProcess.pass_alive h p _ r hr, h1, h2, h3, h4, ?_, ?_, ?_⟩
    · intro hs
      have e : r.proc.state = StateRunning := by rw [h1, if_pos hs]
      exact ⟨e, h2.mpr e⟩
    · intro ht
      have e : r.proc.state = StateKilled := by
        rw [h1, ht, if_neg hst, if_pos rfl]
      refine ⟨e, ?_⟩
      cases hh : r.handled with
      | false => rfl
      | true => exact absurd (e.symm.trans (h2.mp hh)) hrk
    · intro hw hs ht
      have e : r.proc.state = StateWaiting := by
        rw [h1, if_neg hs, if_neg ht, hw]
      refine ⟨e, ?_⟩
      cases hh : r.handled with
      | false => rfl
      | true => exact absurd (e.symm.trans (h2.mp hh)) StateWaiting_ne_StateRunning
  · intro msg hk hh hret
    exact DefaultProcess.pass_inbox_returns h p msg hk hh hret
  · intro r hr
    exact DefaultProcess.pass_done h p r hr
  · intro r hr
    exact DefaultProcess.pass_stateCh h p r hr
  · intro hk hc
    exact DefaultProcess.cancel_kills h p hk hc
  · intro c r hr hp
    cases c with
    | done =>
      exact Or.inl (DefaultProcess.pass_done h p r hr).1
    | stateCh =>
      obtain ⟨h1, _, _⟩ := DefaultProcess.pass_stateCh h p r hr
      exact Or.inr (Or.inr (Or.inr ⟨rfl, _, h1⟩))
    | inbox msg =>
      obtain ⟨h1, _⟩ := DefaultProcess.pass_inbox h p msg r hr
      by_cases hs : msg.Typ = MessageTypeStart
      · rw [if_pos hs] at h1
        rcases hp with hw | hw
        · exact Or.inr (Or.inl ⟨hw, h1, msg, rfl, hs⟩)
        · exact Or.inl (h1.trans hw.symm)
      · rw [if_neg hs] at h1
        by_cases ht : msg.Typ = MessageTypeStop
        · rw [if_pos ht] at h1
          exact Or.inr (Or.inr (Or.inl ⟨h1, msg, rfl, ht⟩))
        · rw [if_neg ht] at h1
          exact Or.inl h1

/-- Claim C25 fails as stated: the date process of `main.go` leaves
`RUNNING` for `KILLED` with no `STOP` message and no cancellation. The pass
that receives `START` handles it and ends in `RUNNING` with the `KILLED` that
the handler signalled waiting in `stateCh`; the next pass reads it and the
state is `KILLED`. -/
theorem C25_counterexample :
    ((NewDefaultProcess fourDays).pass (DayGenerator.Handle 10) (.inbox startMessage)).map
      (fun r => (r.proc.state, r.proc.stateCh, r.handled)) =
      some (StateRunning, [StateKilled], true) ∧
    (((NewDefaultProcess fourDays).pass (DayGenerator.Handle 10) (.inbox startMessage)).bind
      (fun r => r.proc.pass (DayGenerator.Handle 10) .stateCh)).map
      (fun r => (r.proc.state, r.proc.stateCh, r.handled)) =
      some (StateKilled, [], false) := by
  decide

/-! ## Account records and report rows -/

theorem TypeDaily_ne_TypeMonthly : TypeDailyAccountInfo ≠ TypeMonthlyAccountInfo := by decide

theorem Account.Append_isInvestor (a : Account) (tx : Transaction) :
    (a.Append tx).1.isInvestor = a.isInvestor := by
  cases a <;> rfl

theorem AccountMap.investors_set (m : AccountMap) (name : String) (acct old : Account)
    (hg : m.get name = some old) (hk : acct.isInvestor = old.isInvestor) :
    (m.set name acct).investors = m.investors := by
  induction m with
  | nil => rfl
  | cons e rest ih =>
    obtain ⟨k, v⟩ := e
    by_cases hkn : k = name
    · simp only [AccountMap.get, hkn, if_true, Option.some.injEq] at hg
      subst hg
      simp only [AccountMap.set, hkn, if_true, AccountMap.investors, List.countP_cons, hk]
    · simp only [AccountMap.get, hkn, if_false] at hg
      simp only [AccountMap.set, hkn, if_false, AccountMap.investors, List.countP_cons]
      have := ih hg
      simp only [AccountMap.investors] at this
      rw [this]

theorem Bank.Append_investors (b : Bank) (acct : String) (tx : Transaction) :
    (b.Append acct tx).1.Accounts.investors = b.Accounts.investors := by
  unfold Bank.Append
  split
  · rfl
  · rename_i account hg
    exact AccountMap.investors_set _ _ _ _ hg (Account.Append_isInvestor _ _)

theorem Bank.Transfer_investors (b : Bank) (date : Time) (src dst : String) (x : USD) :
    (b.Transfer date src dst x).1.Accounts.investors = b.Accounts.investors := by
  unfold Bank.Transfer
  split
  · rfl
  · rename_i fromAccount hs
    split
    · rfl
    · rename_i toAccount hd
      simp only
      have h1 : ∀ tx, (b.Accounts.set src (fromAccount.Append tx).1).investors =
          b.Accounts.investors := fun tx =>
        AccountMap.investors_set _ _ _ _ hs (Account.Append_isInvestor _ _)
      split
      · rfl
      · split
        · rfl
        · split
          · exact h1 _
          · rw [← h1 ⟨date, Withdrawal, Bank.transferDescription src dst, x⟩]
            by_cases hds : dst = src
            · subst hds
              simp only [if_true]
              apply AccountMap.investors_set _ _ _ _
                (AccountMap.get_set_self _ _ _ (by rw [hs]; rfl))
              exact Account.Append_isInvestor _ _
            · simp only [hds, if_false]
              apply AccountMap.investors_set _ _ _ toAccount
              · rw [AccountMap.get_set_other _ _ _ _ hds, hd]
              · exact Account.Append_isInvestor _ _

theorem Bank.foldItems_investors (date : Time) (rnd : HandleDraws) (items : List LineItem)
    (i : Nat) (b : Bank) :
    (Bank.foldItems date rnd i items b).Accounts.investors = b.Accounts.investors :=
  Bank.foldItems_preserves (fun s => s.Accounts.investors = b.Accounts.investors)
    (fun s acct tx h => (Bank.Append_investors s acct tx).trans h)
    (fun s date src dst x h => (Bank.Transfer_investors s date src dst x).trans h)
    date rnd items i b rfl

/-- The messages of one `Update`: an investor account dispatches one daily
record, and one monthly record on the first of a month; the other accounts
dispatch nothing. Every message carries an `AccountInfo`. -/
theorem Account.Update_messages (a : Account) (date : Time) (rnd : UpdateDraws) :
    (a.Update date rnd).1.isInvestor = a.isInvestor ∧
    countType TypeDailyAccountInfo (a.Update date rnd).2 = (if a.isInvestor then 1 else 0) ∧
    countType TypeMonthlyAccountInfo (a.Update date rnd).2 =
      (if a.isInvestor ∧ date.Day = 1 then 1 else 0) ∧
    ∀ msg ∈ (a.Update date rnd).2,
      msg.Typ ≠ MessageTypeStart ∧ ∃ info, msg.Value = .info info := by
  have hds : ¬ TypeDailyAccountInfo = MessageTypeStart := by decide
  have hms : ¬ TypeMonthlyAccountInfo = MessageTypeStart := by decide
  have hdm : ¬ TypeDailyAccountInfo = TypeMonthlyAccountInfo := TypeDaily_ne_TypeMonthly
  have hmd : ¬ TypeMonthlyAccountInfo = TypeDailyAccountInfo := Ne.symm TypeDaily_ne_TypeMonthly
  cases a with
  | basic a => simp [Account.Update, Account.isInvestor, countType]
  | loan a => simp [Account.Update, Account.isInvestor, countType]
  | investor a =>
    simp only [Account.Update, Account.isInvestor, Peer2PeerAccount.Update, if_true, true_and]
    unfold Peer2PeerAccount.broadcastMonthly Peer2PeerAccount.broadcastDaily
    by_cases h1 : date.Day = 1
    · simp [h1, countType, hdm, hmd, hds, hms]
    · simp [h1, countType, hdm, hmd, hds, hms]

theorem AccountMap.broadcast_cons (date : Time) (rnd : HandleDraws) (e : String × Account)
    (rest : AccountMap) :
    AccountMap.broadcast date rnd (e :: rest) =
      (e.2.Update date (rnd.accounts e.1)).2 ++ AccountMap.broadcast date rnd rest := by
  simp [AccountMap.broadcast]

theorem AccountMap.broadcast_messages (date : Time) (rnd : HandleDraws) (m : AccountMap) :
    (AccountMap.updated date rnd m).investors = m.investors ∧
    countType TypeDailyAccountInfo (AccountMap.broadcast date rnd m) = m.investors ∧
    countType TypeMonthlyAccountInfo (AccountMap.broadcast date rnd m) =
      (if date.Day = 1 then m.investors else 0) ∧
    ∀ msg ∈ AccountMap.broadcast date rnd m,
      msg.Typ ≠ MessageTypeStart ∧ ∃ info, msg.Value = .info info := by
  induction m with
  | nil => simp [AccountMap.updated, AccountMap.broadcast, AccountMap.investors, countType]
  | cons e rest ih =>
    obtain ⟨ih1, ih2, ih3, ih4⟩ := ih
    obtain ⟨h1, h2, h3, h4⟩ := Account.Update_messages e.2 date (rnd.accounts e.1)
    rw [AccountMap.broadcast_cons]
    simp only [countType, AccountMap.investors, AccountMap.updated, List.map_cons,
      List.countP_cons, List.countP_append] at ih1 ih2 ih3 h2 h3 ⊢
    refine ⟨?_, ?_, ?_, ?_⟩
    · rw [ih1, h1]
    · rw [h2, ih2]
      cases e.2.isInvestor <;> simp; omega
    · rw [h3, ih3]
      by_cases hd : date.Day = 1
      · cases e.2.isInvestor <;> simp [hd]; omega
      · simp [hd]
    · intro msg hmsg
      rcases List.mem_append.mp hmsg with hm | hm
      · exact h4 msg hm
      · exact ih4 msg hm

/-- What `Handle` dispatches for a date: one daily record per investor
account, and one monthly record per investor account on the first of a
month. -/
theorem Bank.Handle_messages (b : Bank) (date : Time) (rnd : HandleDraws) :
    ∃ r, b.Handle (dateMessage date) rnd = some r ∧
      r.bank.Accounts.investors = b.Accounts.investors ∧
      countType TypeDailyAccountInfo r.dispatched = b.Accounts.investors ∧
      countType TypeMonthlyAccountInfo r.dispatched =
        (if date.Day = 1 then b.Accounts.investors else 0) ∧
      ∀ msg ∈ r.dispatched, msg.Typ ≠ MessageTypeStart ∧ ∃ info, msg.Value = .info info := by
  have hinv := Bank.foldItems_investors date rnd b.LineItems 0 b
  obtain ⟨h1, h2, h3, h4⟩ := AccountMap.broadcast_messages date rnd
    (Bank.foldItems date rnd 0 b.LineItems b).Accounts
  refine ⟨_, rfl, ?_, ?_, ?_, ?_⟩
  · show (Bank.updateAccounts date rnd (Bank.processItems date rnd 0 b.LineItems b).1.Accounts).1.investors = _
    rw [Bank.processItems_fold, Bank.updateAccounts_eq, h1, hinv]
  · show countType _ (Bank.updateAccounts date rnd (Bank.processItems date rnd 0 b.LineItems b).1.Accounts).2 = _
    rw [Bank.processItems_fold, Bank.updateAccounts_eq, h2, hinv]
  · show countType _ (Bank.updateAccounts date rnd (Bank.processItems date rnd 0 b.LineItems b).1.Accounts).2 = _
    rw [Bank.processItems_fold, Bank.updateAccounts_eq, h3, hinv]
  · show ∀ msg ∈ (Bank.updateAccounts date rnd (Bank.processItems date rnd 0 b.LineItems b).1.Accounts).2, _
    rw [Bank.processItems_fold, Bank.updateAccounts_eq]
    exact h4

theorem Bank.handleAll_dates (rnd : Nat → HandleDraws) (dates : List Time) (i : Nat) (b : Bank) :
    ∃ r, Bank.handleAll rnd i (dates.map dateMessage) b = some r ∧
      r.1.Accounts.investors = b.Accounts.investors ∧
      r.2.map (countType TypeDailyAccountInfo) = dates.map (fun _ => b.Accounts.investors) ∧
      r.2.map (countType TypeMonthlyAccountInfo) =
        dates.map (fun t => if t.Day = 1 then b.Accounts.investors else 0) ∧
      ∀ msg ∈ r.2.flatten, msg.Typ ≠ MessageTypeStart ∧ ∃ info, msg.Value = .info info := by
  induction dates generalizing i b with
  | nil => exact ⟨_, rfl, rfl, rfl, rfl, by simp⟩
  | cons t rest ih =>
    obtain ⟨r, hr, h1, h2, h3, h4⟩ := Bank.Handle_messages b t (rnd i)
    obtain ⟨s, hs, k1, k2, k3, k4⟩ := ih (i + 1) r.bank
    refine ⟨(s.1, r.dispatched :: s.2), ?_, ?_, ?_, ?_, ?_⟩
    · simp only [List.map_cons, Bank.handleAll, hr, hs]
    · rw [k1, h1]
    · simp only [List.map_cons, h2, k2, h1]
    · simp only [List.map_cons, h3, k3, h1]
    · intro msg hmsg
      simp only [List.flatten_cons, List.mem_append] at hmsg
      rcases hmsg with hm | hm
      · exact h4 msg hm
      · exact k4 msg hm

theorem writeAll_daily (msgs : List Message)
    (h : ∀ msg ∈ msgs, msg.Typ ≠ MessageTypeStart ∧ ∃ info, msg.Value = .info info) :
    ∃ rows, writeAll DailyOutput.Handle msgs = some rows ∧
      rows.length = countType TypeDailyAccountInfo msgs := by
  induction msgs with
  | nil => exact ⟨[], rfl, rfl⟩
  | cons msg rest ih =>
    obtain ⟨rows, hr, hl⟩ := ih (fun m hm => h m (List.mem_cons_of_mem _ hm))
    obtain ⟨hst, info, hi⟩ := h msg (List.mem_cons_self _ _)
    by_cases hd : msg.Typ = TypeDailyAccountInfo
    · refine ⟨.row info :: rows, ?_, ?_⟩
      · have hst2 : ¬ TypeDailyAccountInfo = MessageTypeStart := by decide
        simp [writeAll, DailyOutput.Handle, hst2, hd, hi, hr]
      · simp [countType, hd] at hl ⊢
        exact hl
    · refine ⟨rows, ?_, ?_⟩
      · simp [writeAll, DailyOutput.Handle, hst, hd, hr]
      · simp [countType, hd] at hl ⊢
        exact hl

theorem writeAll_monthly (msgs : List Message)
    (h : ∀ msg ∈ msgs, msg.Typ ≠ MessageTypeStart ∧ ∃ info, msg.Value = .info info) :
    ∃ rows, writeAll MonthlyOutput.Handle msgs = some rows ∧
      rows.length = countType TypeMonthlyAccountInfo msgs := by
  induction msgs with
  | nil => exact ⟨[], rfl, rfl⟩
  | cons msg rest ih =>
    obtain ⟨rows, hr, hl⟩ := ih (fun m hm => h m (List.mem_cons_of_mem _ hm))
    obtain ⟨hst, info, hi⟩ := h msg (List.mem_cons_self _ _)
    by_cases hd : msg.Typ = TypeMonthlyAccountInfo
    · refine ⟨.row info :: rows, ?_, ?_⟩
      · have hst2 : ¬ TypeMonthlyAccountInfo = MessageTypeStart := by decide
        simp [writeAll, MonthlyOutput.Handle, hst2, hd, hi, hr]
      · simp [countType, hd] at hl ⊢
        exact hl
    · refine ⟨rows, ?_, ?_⟩
      · simp [writeAll, MonthlyOutput.Handle, hst, hd, hr]
      · simp [countType, hd] at hl ⊢
        exact hl

theorem countType_flatten (t : MessageType) (l : List (List Message)) :
    countType t l.flatten = (l.map (countType t)).sum := by
  induction l with
  | nil => rfl
  | cons a rest ih =>
    simp only [List.flatten_cons, List.map_cons, List.sum_cons, ← ih]
    simp only [countType, List.countP_append]

theorem sum_map_const (n : Nat) (l : List Time) :
    (l.map (fun _ => n)).sum = n * l.length := by
  induction l with
  | nil => rfl
  | cons a rest ih =>
    simp only [List.map_cons, List.sum_cons, List.length_cons, ih]
    ring

theorem sum_map_first_days (n : Nat) (l : List Time) :
    (l.map (fun t => if t.Day = 1 then n else 0)).sum =
      n * l.countP (fun t => decide (t.Day = 1)) := by
  induction l with
  | nil => rfl
  | cons a rest ih =>
    simp only [List.map_cons, List.sum_cons, List.countP_cons, ih]
    by_cases h : a.Day = 1
    · simp [h]; ring
    · simp [h]

/-- What a simulation dispatches. For every bank and every date range, the
bank handles the `Date` messages of the days from `StartDate` to `EndDate`
one by one and dispatches, day by day, one `DailyAccountInfo` message per
investor account of the bank, and on a day whose day of the month is 1 one
`MonthlyAccountInfo` message per investor account, on any other day none; the
daily sink writes one row per daily message and the monthly sink one row per
monthly message. -/
theorem simulate_account_info_messages (d : DayGenerator) (fuel : Nat) (b : Bank)
    (rnd : Nat → HandleDraws) (hfuel : d.span ≤ fuel) :
    ∃ r, simulate d fuel b rnd = some r ∧
      r.2.length = d.span ∧
      r.2.map (countType TypeDailyAccountInfo) = d.dates.map (fun _ => b.Accounts.investors) ∧
      r.2.map (countType TypeMonthlyAccountInfo) =
        d.dates.map (fun t => if t.Day = 1 then b.Accounts.investors else 0) ∧
      (∃ rows, writeAll DailyOutput.Handle r.2.flatten = some rows ∧
        rows.length = b.Accounts.investors * d.span) ∧
      (∃ rows, writeAll MonthlyOutput.Handle r.2.flatten = some rows ∧
        rows.length = b.Accounts.investors * d.dates.countP (fun t => decide (t.Day = 1))) := by
  obtain ⟨r, hr, _, h2, h3, h4⟩ := Bank.handleAll_dates rnd d.dates 0 b
  have hsim : simulate d fuel b rnd = some r := by
    have hst : startMessage.Typ = MessageTypeStart := rfl
    unfold simulate DayGenerator.Handle
    rw [if_pos hst, DayGenerator.loop_spec d.span d fuel rfl hfuel]
    exact hr
  have hlen : r.2.length = d.span := by
    have := congrArg List.length h2
    simpa [DayGenerator.dates_length] using this
  refine ⟨r, hsim, hlen, h2, h3, ?_, ?_⟩
  · obtain ⟨rows, k1, k2⟩ := writeAll_daily r.2.flatten h4
    refine ⟨rows, k1, ?_⟩
    rw [k2, countType_flatten, h2, sum_map_const, DayGenerator.dates_length]
  · obtain ⟨rows, k1, k2⟩ := writeAll_monthly r.2.flatten h4
    refine ⟨rows, k1, ?_⟩
    rw [k2, countType_flatten, h3, sum_map_first_days]

/-- The bank of `main.go` has one investor account; the four days from
2018-01-30 to 2018-02-02 hold one first of a month. -/
theorem mainScenario_counts :
    mainScenario.Accounts.investors = 1 ∧ fourDays.span = 4 ∧
      fourDays.dates.countP (fun t => decide (t.Day = 1)) = 1 := by
  decide

/-- Claim C23, at the input where it fails. A bank without an investor
account, here the two basic accounts of the transfer scenario, dispatches no
message at all over the four days from 2018-01-30 to 2018-02-02, and the
daily and the monthly sink write no row, although the range holds four days
and one first of a month: the records are dispatched by
`Peer2PeerAccount.Update`, one per investor account, not by the bank. -/
theorem C23_no_investor_no_rows :
    fourDays.span = 4 ∧
    fourDays.dates.countP (fun t => decide (t.Day = 1)) = 1 ∧
    transferScenario.Accounts.investors = 0 ∧
    (simulate fourDays 10 transferScenario (fun _ => halfHandleDraws)).map (fun r => r.2) =
      some [[], [], [], []] ∧
    writeAll DailyOutput.Handle ([[], [], [], []] : List (List Message)).flatten = some [] ∧
    writeAll MonthlyOutput.Handle ([[], [], [], []] : List (List Message)).flatten = some [] := by
  decide

end BankSim
